import Mathlib

/-!
# CookieConsentBanner: a shallow embedding of `src/cookieConsentBanner.js`

The widget is a JavaScript class that reads and writes `document.cookie`, keeps a consent
state object in memory and mounts modal elements in the document.  The embedding follows the
source method by method:

* JavaScript values are the inductive type `JSValue`; plain objects are association lists in
  property enumeration order;
* the built-ins the source calls (`JSON.stringify`, `JSON.parse`, `encodeURIComponent`,
  `decodeURIComponent`, `String.prototype.split`, the `document.cookie` accessor) are given
  executable models;
* the widget instance and the page it lives in are an explicit state (`World`), and every
  method of the class is a function on that state.

Strings are sequences of Unicode scalar values (Lean `String`), so lone UTF-16 surrogates are
outside the model.  Numbers are decimal numbers `mantissa * 10 ^ exponent`.
-/

namespace CookieConsent

/-! ## JavaScript values -/

/-- The JavaScript values the widget handles.  `fn id` is a caller-supplied function (an opaque
callback identified by `id`), `native name` a built-in function or object reached through the
prototype chain, `num m e` the number `m * 10 ^ e`. -/
inductive JSValue where
  | undefined
  | null
  | bool (b : Bool)
  | num (mantissa : Int) (exponent : Int)
  | str (s : String)
  | fn (id : Nat)
  | native (name : String)
  | arr (items : List JSValue)
  | obj (fields : List (String × JSValue))
  deriving Repr, Inhabited

/-- The own enumerable properties of a plain object, in the order in which `Object.keys`, the
spread operator and `JSON.stringify` visit them: the properties whose names are array indices
in ascending order, then the others in insertion order. -/
abbrev JSObject := List (String × JSValue)

namespace JSValue

/-- ToBoolean: `undefined`, `null`, `false`, zero and the empty string are falsy. -/
def truthy : JSValue → Bool
  | undefined => false
  | null => false
  | bool b => b
  | num m _ => m != 0
  | str s => s != ""
  | fn _ => true
  | native _ => true
  | arr _ => true
  | obj _ => true

/-- The test `v === true`. -/
def isTrue : JSValue → Bool
  | bool true => true
  | _ => false

/-- The test `v === false`. -/
def isFalse : JSValue → Bool
  | bool false => true
  | _ => false

/-- The test `typeof v === 'function'`. -/
def isFunction : JSValue → Bool
  | fn _ => true
  | native name => name != "__proto__"
  | _ => false

/-- The expression `a || b`. -/
def or (a b : JSValue) : JSValue := if a.truthy then a else b

end JSValue

/-- First own property named `k`. -/
def lookup (k : String) : JSObject → Option JSValue
  | [] => none
  | (k', v) :: rest => if k' = k then some v else lookup k rest

/-- The canonical decimal spelling of an array index. -/
def indexName (i : Nat) : String := String.mk (Nat.toDigits 10 i)

/-- The array index a property name spells, if it is a canonical one. -/
def parseIndex (k : String) : Option Nat :=
  match k.data with
  | [] => none
  | cs =>
    if cs.all Char.isDigit then
      let n := cs.foldl (fun acc c => 10 * acc + (c.toNat - 48)) 0
      if indexName n = k then some n else none
    else none

/-- The array index a property name is, if it is one: a canonical numeral below `2^32 - 1`. -/
def arrayIndex (k : String) : Option Nat :=
  match parseIndex k with
  | some n => if n < 4294967295 then some n else none
  | none => none

/-- Gives the existing property `k` the value `v`, in its place. -/
def replaceProp (k : String) (v : JSValue) : JSObject → JSObject
  | [] => []
  | (k', v') :: rest => if k' = k then (k, v) :: rest else (k', v') :: replaceProp k v rest

/-- Adds the new property `k`, whose name is the array index `i`: after the array indices below
`i` and before everything else. -/
def insertIndexed (i : Nat) (k : String) (v : JSValue) : JSObject → JSObject
  | [] => [(k, v)]
  | (k', v') :: rest =>
    match arrayIndex k' with
    | some j =>
      if j < i then (k', v') :: insertIndexed i k v rest else (k, v) :: (k', v') :: rest
    | none => (k, v) :: (k', v') :: rest

/-- The assignment `o[k] = v` on own properties: an existing property keeps its place, a new
one whose name is an array index goes among the array indices, any other new one goes last. -/
def setProp (k : String) (v : JSValue) (o : JSObject) : JSObject :=
  if (lookup k o).isSome then replaceProp k v o
  else
    match arrayIndex k with
    | some i => insertIndexed i k v o
    | none => o ++ [(k, v)]

/-- Copies the properties of `src` onto `target` one by one, as the spread `{...target, ...src}`
and `Object.assign` do. -/
def assignProps (target : JSObject) : JSObject → JSObject
  | [] => target
  | (k, v) :: rest => assignProps (setProp k v target) rest

/-- Names every object inherits from `Object.prototype`. -/
def objectPrototypeNames : List String :=
  ["constructor", "__defineGetter__", "__defineSetter__", "hasOwnProperty",
   "__lookupGetter__", "__lookupSetter__", "isPrototypeOf", "propertyIsEnumerable",
   "toString", "valueOf", "__proto__", "toLocaleString"]

/-- A property that is not an own property: found on `Object.prototype` or `undefined`. -/
def inheritedProp (k : String) : JSValue :=
  if k ∈ objectPrototypeNames then .native k else .undefined

/-- Own enumerable properties of a value as the spread operator sees them: the fields of an
object, the indexed elements of an array, the characters of a string, nothing otherwise. -/
def ownProps : JSValue → JSObject
  | .obj fields => fields
  | .arr items => (List.range items.length).zip items |>.map fun p => (indexName p.1, p.2)
  | .str s => (List.range s.data.length).zip s.data |>.map
      fun p => (indexName p.1, .str (String.mk [p.2]))
  | _ => []

/-- The property read `v[k]` on a value that is neither `null` nor `undefined`: own properties
first, then the prototype chain.  The members of `Array.prototype`, `String.prototype`,
`Number.prototype` and `Boolean.prototype` beyond those of `Object.prototype` are functions and
are not listed here. -/
def getProp (v : JSValue) (k : String) : JSValue :=
  match v with
  | .obj fields => (lookup k fields).getD (inheritedProp k)
  | .arr items =>
    if k = "length" then .num items.length 0
    else match parseIndex k with
      | some i => items.getD i .undefined
      | none => inheritedProp k
  | .str s =>
    if k = "length" then .num s.data.length 0
    else match parseIndex k with
      | some i => match s.data.get? i with
        | some c => .str (String.mk [c])
        | none => .undefined
      | none => inheritedProp k
  | .undefined => .undefined
  | .null => .undefined
  | _ => inheritedProp k

/-- The optional-chaining read `v?.[k]`. -/
def getPropOpt (v : JSValue) (k : String) : JSValue :=
  match v with
  | .undefined => .undefined
  | .null => .undefined
  | _ => getProp v k

/-! ## `JSON.stringify` -/

/-- Lowercase hexadecimal digit of a number below 16. -/
def hexDigitLower (n : Nat) : Char := Nat.digitChar n

/-- Uppercase hexadecimal digit of a number below 16. -/
def hexDigitUpper (n : Nat) : Char :=
  if n < 10 then Char.ofNat (48 + n) else Char.ofNat (55 + n)

/-- How `QuoteJSONString` writes one character between the quotes. -/
def quoteJSONChar (c : Char) : List Char :=
  if c = '"' then ['\\', '"']
  else if c = '\\' then ['\\', '\\']
  else if c.toNat = 8 then ['\\', 'b']
  else if c.toNat = 9 then ['\\', 't']
  else if c.toNat = 10 then ['\\', 'n']
  else if c.toNat = 12 then ['\\', 'f']
  else if c.toNat = 13 then ['\\', 'r']
  else if c.toNat < 32 then
    ['\\', 'u', '0', '0', hexDigitLower (c.toNat / 16), hexDigitLower (c.toNat % 16)]
  else [c]

/-- The characters of a string with the JSON escapes applied. -/
def quoteJSONBody : List Char → List Char
  | [] => []
  | c :: cs => quoteJSONChar c ++ quoteJSONBody cs

/-- `QuoteJSONString`: the string literal that denotes `s`. -/
def quoteJSONString (s : List Char) : List Char := '"' :: (quoteJSONBody s ++ ['"'])

/-- Decimal digits of an integer, with a leading minus sign when negative. -/
def intDigits (n : Int) : List Char :=
  if n < 0 then '-' :: Nat.toDigits 10 n.natAbs else Nat.toDigits 10 n.natAbs

/-- A number literal denoting `m * 10 ^ e` (the engine prints the same number in its shortest
form, which may differ in spelling). -/
def numberToJSON (m e : Int) : List Char :=
  if m = 0 then ['0']
  else if e = 0 then intDigits m
  else intDigits m ++ 'e' :: intDigits e

mutual
/-- `SerializeJSONProperty`: `none` stands for the result `undefined`, which makes the
enclosing object drop the property. -/
def serializeJSON : JSValue → Option (List Char)
  | .undefined => none
  | .null => some ['n', 'u', 'l', 'l']
  | .bool b => some (if b then ['t', 'r', 'u', 'e'] else ['f', 'a', 'l', 's', 'e'])
  | .num m e => some (numberToJSON m e)
  | .str s => some (quoteJSONString s.data)
  | .fn _ => none
  | .native _ => none
  | .arr items => some ('[' :: (serializeItems items ++ [']']))
  | .obj fields => some ('{' :: (serializeMembers fields ++ ['}']))
/-- The elements of an array joined by commas; an element without a JSON form is `null`. -/
def serializeItems : List JSValue → List Char
  | [] => []
  | [v] => (serializeJSON v).getD ['n', 'u', 'l', 'l']
  | v :: w :: rest =>
    (serializeJSON v).getD ['n', 'u', 'l', 'l'] ++ ',' :: serializeItems (w :: rest)
/-- The members `"key":value` of an object joined by commas; properties without a JSON form
are left out. -/
def serializeMembers : List (String × JSValue) → List Char
  | [] => []
  | (k, v) :: rest =>
    match serializeJSON v with
    | none => serializeMembers rest
    | some s =>
      match serializeMembers rest with
      | [] => quoteJSONString k.data ++ ':' :: s
      | more => quoteJSONString k.data ++ ':' :: (s ++ ',' :: more)
end

/-- `JSON.stringify(v)` for a value that has a JSON form; `undefined` otherwise. -/
def JSON.stringify (v : JSValue) : JSValue :=
  match serializeJSON v with
  | some cs => .str (String.mk cs)
  | none => .undefined

/-! ## `JSON.parse` -/

/-- JSON white space. -/
def isJSONSpace (c : Char) : Bool := c = ' ' || c = '\t' || c = '\n' || c = '\r'

/-- Drops leading JSON white space. -/
def skipSpace : List Char → List Char
  | [] => []
  | c :: cs => if isJSONSpace c then skipSpace cs else c :: cs

/-- Value of a hexadecimal digit of either case. -/
def hexValue (c : Char) : Option Nat :=
  if '0' ≤ c ∧ c ≤ '9' then some (c.toNat - 48)
  else if 'a' ≤ c ∧ c ≤ 'f' then some (c.toNat - 87)
  else if 'A' ≤ c ∧ c ≤ 'F' then some (c.toNat - 55)
  else none

/-- The 16-bit code unit written by four hexadecimal digits. -/
def hex4 (a b c d : Char) : Option Nat :=
  match hexValue a, hexValue b, hexValue c, hexValue d with
  | some x, some y, some z, some w => some (((x * 16 + y) * 16 + z) * 16 + w)
  | _, _, _, _ => none

/-- The character with code point `n`, when `n` is a Unicode scalar value. -/
def charOfCode (n : Nat) : Option Char :=
  if h : n.isValidChar then some (Char.ofNatAux n h) else none

/-- Where the reader of a JSON string literal stands: between characters, after a backslash,
inside a `\u` escape with `left` digits still to read (`high` is the high surrogate a preceding
escape gave), or after a high-surrogate escape, where the escape of the low surrogate has to
follow. -/
inductive StringState where
  | plain
  | escape
  | hex (left : Nat) (acc : Nat) (high : Option Nat)
  | low (high : Nat)
  | lowU (high : Nat)

/-- The end of a `\u` escape with code unit `v`.  A surrogate pair gives one character; a lone
surrogate has no counterpart among Unicode scalar values and is rejected here. -/
def finishHex (v : Nat) (high : Option Nat) : Option (StringState × Option Char) :=
  match high with
  | none =>
    if 0xD800 ≤ v ∧ v ≤ 0xDBFF then some (.low v, none)
    else
      match charOfCode v with
      | some ch => some (.plain, some ch)
      | none => none
  | some hi =>
    if 0xDC00 ≤ v ∧ v ≤ 0xDFFF then
      match charOfCode (0x10000 + (hi - 0xD800) * 0x400 + (v - 0xDC00)) with
      | some ch => some (.plain, some ch)
      | none => none
    else none

/-- The character a single-letter escape stands for. -/
def escapeChar (c : Char) : Option Char :=
  if c = '"' then some '"'
  else if c = '\\' then some '\\'
  else if c = '/' then some '/'
  else if c = 'b' then some (Char.ofNat 8)
  else if c = 'f' then some (Char.ofNat 12)
  else if c = 'n' then some (Char.ofNat 10)
  else if c = 'r' then some (Char.ofNat 13)
  else if c = 't' then some (Char.ofNat 9)
  else none

/-- One character of a string literal: the next state and the character decoded, if one is
complete; `none` when the literal is ill-formed. -/
def stringStep (st : StringState) (c : Char) : Option (StringState × Option Char) :=
  match st with
  | .plain =>
    if c = '\\' then some (.escape, none)
    else if c.toNat < 32 then none
    else some (.plain, some c)
  | .escape =>
    if c = 'u' then some (.hex 4 0 none, none)
    else
      match escapeChar c with
      | some ch => some (.plain, some ch)
      | none => none
  | .hex left acc high =>
    match hexValue c with
    | none => none
    | some d =>
      if left = 1 then finishHex (acc * 16 + d) high
      else if left = 0 then none
      else some (.hex (left - 1) (acc * 16 + d) high, none)
  | .low high => if c = '\\' then some (.lowU high, none) else none
  | .lowU high => if c = 'u' then some (.hex 4 0 (some high), none) else none

/-- Whether the reader stands between characters. -/
def StringState.isPlain : StringState → Bool
  | .plain => true
  | _ => false

/-- Puts a decoded character, if any, in front of the rest of a decoded string. -/
def consChar (c : Option Char) : Option (List Char × List Char) → Option (List Char × List Char)
  | some (s, rest) =>
    match c with
    | some ch => some (ch :: s, rest)
    | none => some (s, rest)
  | none => none

/-- Reads a JSON string literal from state `st`: the decoded characters and the input left
after the closing quote. -/
def parseStringFrom : StringState → List Char → Option (List Char × List Char)
  | _, [] => none
  | st, c :: rest =>
    if st.isPlain ∧ c = '"' then some ([], rest)
    else
      match stringStep st c with
      | none => none
      | some next => consChar next.2 (parseStringFrom next.1 rest)

/-- Reads a JSON string literal after its opening quote. -/
def parseStringBody (cs : List Char) : Option (List Char × List Char) :=
  parseStringFrom .plain cs

/-- Value of a run of decimal digits. -/
def digitsValue (cs : List Char) : Nat := cs.foldl (fun acc c => 10 * acc + (c.toNat - 48)) 0

/-- Reads the optional exponent part of a number literal. -/
def parseExponent (cs : List Char) : Option (Int × List Char) :=
  match cs with
  | c :: rest =>
    if c = 'e' ∨ c = 'E' then
      let (neg, rest1) :=
        match rest with
        | s :: r => if s = '-' then (true, r) else if s = '+' then (false, r) else (false, rest)
        | [] => (false, rest)
      let ds := rest1.takeWhile Char.isDigit
      if ds = [] then none
      else some (if neg then -(digitsValue ds : Int) else digitsValue ds, rest1.dropWhile Char.isDigit)
    else some (0, cs)
  | [] => some (0, cs)

/-- Reads the optional fraction part of a number literal: its digits and the input left. -/
def parseFraction (cs : List Char) : Option (List Char × List Char) :=
  match cs with
  | c :: rest =>
    if c = '.' then
      let ds := rest.takeWhile Char.isDigit
      if ds = [] then none else some (ds, rest.dropWhile Char.isDigit)
    else some ([], cs)
  | [] => some ([], cs)

/-- Reads a JSON number literal. -/
def parseNumber (cs : List Char) : Option (JSValue × List Char) :=
  let (neg, cs1) :=
    match cs with
    | c :: rest => if c = '-' then (true, rest) else (false, cs)
    | [] => (false, cs)
  let ds := cs1.takeWhile Char.isDigit
  let cs2 := cs1.dropWhile Char.isDigit
  if ds = [] then none
  else if ds.head? = some '0' ∧ ds.length ≠ 1 then none
  else
    match parseFraction cs2 with
    | none => none
    | some (fs, cs3) =>
      match parseExponent cs3 with
      | none => none
      | some (e, cs4) =>
        let m : Int := digitsValue (ds ++ fs)
        some (.num (if neg then -m else m) (e - fs.length), cs4)

/-- Reads the literal `word` standing for `v`. -/
def parseWord (word : List Char) (v : JSValue) (cs : List Char) : Option (JSValue × List Char) :=
  if word.isPrefixOf cs then some (v, cs.drop word.length) else none

mutual
/-- Reads one JSON value, leading white space included.  The first argument bounds the number
of nested calls; every call consumes input, so the length of the input is enough. -/
def parseValue : Nat → List Char → Option (JSValue × List Char)
  | 0, _ => none
  | fuel + 1, cs =>
    match skipSpace cs with
    | [] => none
    | c :: rest =>
      if c = '{' then
        match skipSpace rest with
        | [] => none
        | d :: rest1 =>
          if d = '}' then some (.obj [], rest1) else parseMembers fuel (d :: rest1) []
      else if c = '[' then
        match skipSpace rest with
        | [] => none
        | d :: rest1 =>
          if d = ']' then some (.arr [], rest1) else parseItems fuel (d :: rest1) []
      else if c = '"' then
        match parseStringBody rest with
        | some (s, r) => some (.str (String.mk s), r)
        | none => none
      else if c = 't' then parseWord ['t', 'r', 'u', 'e'] (.bool true) (c :: rest)
      else if c = 'f' then parseWord ['f', 'a', 'l', 's', 'e'] (.bool false) (c :: rest)
      else if c = 'n' then parseWord ['n', 'u', 'l', 'l'] .null (c :: rest)
      else parseNumber (c :: rest)
/-- Reads the members of an object up to the closing brace; `acc` holds the members read so
far.  A repeated key overwrites the earlier value. -/
def parseMembers : Nat → List Char → JSObject → Option (JSValue × List Char)
  | 0, _, _ => none
  | fuel + 1, cs, acc =>
    match cs with
    | [] => none
    | q :: rest =>
      if q = '"' then
        match parseStringBody rest with
        | none => none
        | some (k, r1) =>
          match skipSpace r1 with
          | [] => none
          | colon :: r2 =>
            if colon = ':' then
              match parseValue fuel r2 with
              | none => none
              | some (v, r3) =>
                match skipSpace r3 with
                | [] => none
                | sep :: r4 =>
                  if sep = ',' then parseMembers fuel (skipSpace r4) (setProp (String.mk k) v acc)
                  else if sep = '}' then some (.obj (setProp (String.mk k) v acc), r4)
                  else none
            else none
      else none
/-- Reads the elements of an array up to the closing bracket. -/
def parseItems : Nat → List Char → List JSValue → Option (JSValue × List Char)
  | 0, _, _ => none
  | fuel + 1, cs, acc =>
    match parseValue fuel cs with
    | none => none
    | some (v, r1) =>
      match skipSpace r1 with
      | [] => none
      | sep :: r2 =>
        if sep = ',' then parseItems fuel r2 (acc ++ [v])
        else if sep = ']' then some (.arr (acc ++ [v]), r2)
        else none
end

/-- `JSON.parse(text)`: the value, or `none` when the engine throws a `SyntaxError`. -/
def JSON.parse (text : String) : Option JSValue :=
  match parseValue (text.data.length + 1) text.data with
  | some (v, rest) => if skipSpace rest = [] then some v else none
  | none => none

/-! ## `encodeURIComponent` and `decodeURIComponent` -/

/-- Characters `encodeURIComponent` leaves as they are: letters, digits and `- _ . ! ~ * ' ( )`. -/
def isUnreserved (c : Char) : Bool :=
  c.isAlphanum || c = '-' || c = '_' || c = '.' || c = '!' || c = '~' || c = '*' ||
    c = Char.ofNat 39 || c = '(' || c = ')'

/-- The UTF-8 octets of a code point. -/
def utf8Bytes (n : Nat) : List Nat :=
  if n < 0x80 then [n]
  else if n < 0x800 then [0xC0 + n / 64, 0x80 + n % 64]
  else if n < 0x10000 then [0xE0 + n / 4096, 0x80 + n / 64 % 64, 0x80 + n % 64]
  else [0xF0 + n / 262144, 0x80 + n / 4096 % 64, 0x80 + n / 64 % 64, 0x80 + n % 64]

/-- The escape `%XY` of one octet, in uppercase hexadecimal. -/
def percentByte (b : Nat) : List Char := ['%', hexDigitUpper (b / 16), hexDigitUpper (b % 16)]

/-- The escapes of a list of octets. -/
def percentBytes : List Nat → List Char
  | [] => []
  | b :: bs => percentByte b ++ percentBytes bs

/-- How `encodeURIComponent` writes one character. -/
def encodeURIChar (c : Char) : List Char :=
  if isUnreserved c then [c] else percentBytes (utf8Bytes c.toNat)

/-- The function `encodeURIComponent` on the characters of a string. -/
def encodeURIChars : List Char → List Char
  | [] => []
  | c :: cs => encodeURIChar c ++ encodeURIChars cs

/-- The call `encodeURIComponent(s)`. -/
def encodeURIComponent (s : String) : String := String.mk (encodeURIChars s.data)

/-- What `decodeURIComponent` reads: a character standing for itself or an escaped octet. -/
inductive URIToken where
  | lit (c : Char)
  | byte (b : Nat)
  deriving Repr, DecidableEq

/-- Splits the input into literal characters and `%XY` escapes; a `%` that is not followed by
two hexadecimal digits is a `URIError` (`none`). -/
def percentTokens : List Char → Option (List URIToken)
  | [] => some []
  | c :: rest =>
    if c = '%' then
      match rest with
      | h :: l :: r =>
        match hexValue h, hexValue l with
        | some x, some y =>
          match percentTokens r with
          | some ts => some (.byte (16 * x + y) :: ts)
          | none => none
        | _, _ => none
      | _ => none
    else
      match percentTokens rest with
      | some ts => some (.lit c :: ts)
      | none => none

/-- A UTF-8 continuation octet `10xxxxxx`. -/
def isContinuation (b : Nat) : Bool := 0x80 ≤ b && b < 0xC0

/-- Puts a character in front of a decoded string. -/
def consDecoded (c : Char) : Option (List Char) → Option (List Char)
  | some cs => some (c :: cs)
  | none => none

/-- Number of octets of the UTF-8 sequence a lead octet announces; `0` for an octet that cannot
start a sequence. -/
def sequenceLength (b : Nat) : Nat :=
  if b < 0x80 then 1
  else if 0xC0 ≤ b ∧ b < 0xE0 then 2
  else if 0xE0 ≤ b ∧ b < 0xF0 then 3
  else if 0xF0 ≤ b ∧ b < 0xF8 then 4
  else 0

/-- The character a two-octet sequence encodes; overlong forms are rejected. -/
def decodeTwo (b b2 : Nat) : Option Char :=
  if isContinuation b2 ∧ 0x80 ≤ (b - 0xC0) * 64 + (b2 - 0x80) then
    charOfCode ((b - 0xC0) * 64 + (b2 - 0x80))
  else none

/-- The character a three-octet sequence encodes; overlong forms and surrogates are rejected. -/
def decodeThree (b b2 b3 : Nat) : Option Char :=
  if isContinuation b2 ∧ isContinuation b3 ∧
      0x800 ≤ (b - 0xE0) * 4096 + (b2 - 0x80) * 64 + (b3 - 0x80) then
    charOfCode ((b - 0xE0) * 4096 + (b2 - 0x80) * 64 + (b3 - 0x80))
  else none

/-- The character a four-octet sequence encodes; overlong forms and code points above U+10FFFF
are rejected. -/
def decodeFour (b b2 b3 b4 : Nat) : Option Char :=
  if isContinuation b2 ∧ isContinuation b3 ∧ isContinuation b4 ∧
      0x10000 ≤ (b - 0xF0) * 262144 + (b2 - 0x80) * 4096 + (b3 - 0x80) * 64 + (b4 - 0x80) then
    charOfCode ((b - 0xF0) * 262144 + (b2 - 0x80) * 4096 + (b3 - 0x80) * 64 + (b4 - 0x80))
  else none

/-- Puts a decoded character, if there is one, in front of a decoded string. -/
def consDecoded? (c : Option Char) (rest : Option (List Char)) : Option (List Char) :=
  match c, rest with
  | some ch, some cs => some (ch :: cs)
  | _, _ => none

/-- Decodes the escaped octets as UTF-8.  Every octet of a multi-octet sequence has to be an
escape; an ill-formed sequence is a `URIError`. -/
def decodeTokens : List URIToken → Option (List Char)
  | [] => some []
  | .lit c :: ts => consDecoded c (decodeTokens ts)
  | .byte b :: ts =>
    if sequenceLength b = 1 then consDecoded (Char.ofNat b) (decodeTokens ts)
    else
      match ts with
      | .byte b2 :: ts2 =>
        if sequenceLength b = 2 then consDecoded? (decodeTwo b b2) (decodeTokens ts2)
        else
          match ts2 with
          | .byte b3 :: ts3 =>
            if sequenceLength b = 3 then consDecoded? (decodeThree b b2 b3) (decodeTokens ts3)
            else
              match ts3 with
              | .byte b4 :: ts4 =>
                if sequenceLength b = 4 then
                  consDecoded? (decodeFour b b2 b3 b4) (decodeTokens ts4)
                else none
              | _ => none
          | _ => none
      | _ => none

/-- The call `decodeURIComponent(s)`; `none` when the engine throws a `URIError`. -/
def decodeURIComponent (s : String) : Option String :=
  match percentTokens s.data with
  | some ts =>
    match decodeTokens ts with
    | some cs => some (String.mk cs)
    | none => none
  | none => none

/-! ## Strings: `split`, `trim`, `includes` -/

/-- Scans for `sep`: `skip` counts the characters of a separator just found that are still to
be passed over, `cur` holds the current part in reverse. -/
def splitScan (sep : List Char) : Nat → List Char → List Char → List (List Char)
  | _, [], cur => [cur.reverse]
  | skip + 1, _ :: cs, cur => splitScan sep skip cs cur
  | 0, c :: cs, cur =>
    if sep.isPrefixOf (c :: cs) then cur.reverse :: splitScan sep (sep.length - 1) cs []
    else splitScan sep 0 cs (c :: cur)

/-- The call `s.split(sep)`: the parts of `s` between the occurrences of `sep`, found from left
to right; an empty separator splits into single characters. -/
def jsSplit (s sep : List Char) : List (List Char) :=
  if sep = [] then s.map fun c => [c] else splitScan sep 0 s []

/-- The call `s.includes(sub)`. -/
def includes : List Char → List Char → Bool
  | [], sub => sub.isEmpty
  | c :: cs, sub => sub.isPrefixOf (c :: cs) || includes cs sub

/-- White space removed by `trim`. -/
def isTrimSpace (c : Char) : Bool :=
  c = ' ' || c = '\t' || c = '\n' || c = '\r' || c.toNat = 11 || c.toNat = 12 ||
    c.toNat = 0xA0 || c.toNat = 0xFEFF || c.toNat = 0x2028 || c.toNat = 0x2029 ||
    c.toNat = 0x1680 || (0x2000 ≤ c.toNat && c.toNat ≤ 0x200A) || c.toNat = 0x202F ||
    c.toNat = 0x205F || c.toNat = 0x3000

/-- The call `s.trim()`. -/
def jsTrim (s : List Char) : List Char :=
  ((s.dropWhile isTrimSpace).reverse.dropWhile isTrimSpace).reverse

/-! ## String conversion -/

mutual
/-- ToString, as template literals apply it.  The text of a function is engine-specific and
is given as a fixed placeholder. -/
def jsToString : JSValue → List Char
  | .undefined => "undefined".data
  | .null => "null".data
  | .bool b => if b then "true".data else "false".data
  | .num m e => numberToJSON m e
  | .str s => s.data
  | .fn _ => "function () { [native code] }".data
  | .native _ => "function () { [native code] }".data
  | .arr items => joinItems items
  | .obj _ => "[object Object]".data
/-- The call `Array.prototype.join` with the default separator. -/
def joinItems : List JSValue → List Char
  | [] => []
  | [v] => itemText v
  | v :: w :: rest => itemText v ++ ',' :: joinItems (w :: rest)
/-- The text of one array element in `join`: empty for `null` and `undefined`. -/
def itemText : JSValue → List Char
  | .undefined => []
  | .null => []
  | .bool b => if b then "true".data else "false".data
  | .num m e => numberToJSON m e
  | .str s => s.data
  | .fn _ => "function () { [native code] }".data
  | .native _ => "function () { [native code] }".data
  | .arr items => joinItems items
  | .obj _ => "[object Object]".data
end

/-! ## The page and the widget instance -/

/-- The merged configuration of a widget instance (`CookieConsentConfig`), with the field types
its JSDoc declares. -/
structure Config where
  domain : String
  cookieExpiryDays : Int
  locale : String
  localization : JSObject
  privacyPolicyUrl : String
  cookiePolicyUrl : String
  termsUrl : String
  consentEndpoint : JSValue
  customData : JSObject
  blockSiteOnFunctionalDeny : Bool
  thirdPartyHandlers : JSObject

/-- The cookies `document.cookie` shows, as name and value, in the order the browser lists
them.  The jar is keyed by name: the page is taken to hold one cookie per name. -/
abbrev CookieJar := List (String × String)

/-- A mounted element of class `ccb-modal`: its modal type (`ccb-modal--{type}`) and the
checkboxes rendered inside it, as `name` attribute and `checked` property. -/
structure Modal where
  type : String
  inputs : List (String × Bool)

/-- An element of the host page: what the selectors of the widget read of it.  `name` is its
`name` attribute and `checked` its `checked` property, `false` on an element that has none. -/
structure Element where
  tag : String
  src : Option String
  classes : List String
  id : Option String
  name : Option String
  checked : Bool

/-- One draw of `Math.random()`: the fraction `num / den`. -/
structure Draw where
  num : Nat
  den : Nat

/-- Observable effects of a call besides the changes to the page. -/
inductive Effect where
  | call (handler : JSValue) (arg : JSValue)
  | post (url : JSValue) (body : JSValue)
  | event (name : String) (detail : JSValue)
  | warn (message : String)

/-- A widget instance together with the page and the environment it runs in.  `hostname` is
`location.hostname` in lower case and `publicSuffix` the public suffix list of the browser.
The modals are appended to the end of `document.body`, so the elements of the host page come
before them in document order.  `pendingPolicy` lists the calls of `showPolicyModal` whose
`fetch` has not completed yet. -/
structure World where
  config : Config
  hostname : String
  publicSuffix : String → Bool
  consentState : JSValue
  currentModal : JSValue
  cookies : CookieJar
  modals : List Modal
  elements : List Element
  FB : JSValue
  twttr : JSValue
  now : Nat
  nowISO : String
  random : Nat → Draw
  randomUsed : Nat
  userAgent : String
  href : String
  log : List Effect
  pendingPolicy : List String := []

/-! ## Cookie store adapter -/

/-- The text `document.cookie` returns: the pairs `name=value` joined by `"; "`. -/
def cookieText : CookieJar → List Char
  | [] => []
  | [(n, v)] => n.data ++ '=' :: v.data
  | (n, v) :: more :: rest => n.data ++ '=' :: (v.data ++ ';' :: ' ' :: cookieText (more :: rest))

/-- Space and tab, which the browser strips around a cookie name and value. -/
def isWSP (c : Char) : Bool := c = ' ' || c = '\t'

/-- Strips leading and trailing spaces and tabs. -/
def trimWSP (s : List Char) : List Char :=
  ((s.dropWhile isWSP).reverse.dropWhile isWSP).reverse

/-- Removes the cookie called `name`. -/
def eraseCookie (name : String) : CookieJar → CookieJar
  | [] => []
  | (n, v) :: rest => if n = name then eraseCookie name rest else (n, v) :: eraseCookie name rest

/-- Stores `value` under `name`: an existing cookie keeps its place, a new one goes last. -/
def storeCookie (name value : String) : CookieJar → CookieJar
  | [] => [(name, value)]
  | (n, v) :: rest =>
    if n = name then (name, value) :: rest else (n, v) :: storeCookie name value rest

/-- The value of the attribute `domain=d` as the browser reads it from a cookie string: the
text up to the next `;`, stripped, without a leading dot, in lower case. -/
def domainAttribute (d : String) : List Char :=
  let v := trimWSP (d.data.takeWhile (· ≠ ';'))
  (match v with
    | '.' :: rest => rest
    | _ => v).map Char.toLower

/-- Whether a host is written as an IP address: an IPv6 literal has a colon, an IPv4 address
digits and dots only. -/
def isIPLiteral (host : List Char) : Bool :=
  host.contains ':' || host.all fun c => c.isDigit || c = '.'

/-- Whether the browser accepts a cookie written by a page on `host` with the attribute
`domain=d`: an empty attribute and the host itself are accepted, a parent domain of a host name
is accepted unless it is a public suffix, anything else makes the browser ignore the write. -/
def domainAccepted (host : String) (publicSuffix : String → Bool) (d : String) : Bool :=
  let attr := domainAttribute d
  attr = [] || attr = host.data ||
    (!isIPLiteral host.data && ('.' :: attr).isSuffixOf host.data &&
      !publicSuffix (String.mk attr))

/-- The attributes a cookie string carries after its first `;`, as the browser reads them: the
pieces between semicolons, each split at its first `=` into a name, taken in lower case, and a
value, both stripped. -/
def cookieAttributes (text : List Char) : List (List Char × List Char) :=
  (jsSplit ((text.dropWhile (· ≠ ';')).drop 1) [';']).map fun av =>
    ((trimWSP (av.takeWhile (· ≠ '='))).map Char.toLower,
      trimWSP ((av.dropWhile (· ≠ '=')).drop 1))

/-- The seconds a `max-age` attribute gives: an optional minus sign and digits; the browser
ignores the attribute when its value is anything else. -/
def maxAgeSeconds (v : List Char) : Option Int :=
  match v with
  | '-' :: ds => if ds ≠ [] ∧ ds.all Char.isDigit then some (-(digitsValue ds : Int)) else none
  | ds => if ds ≠ [] ∧ ds.all Char.isDigit then some (digitsValue ds : Int) else none

/-- The last valid `max-age` among the attributes. -/
def maxAge (attrs : List (List Char × List Char)) : Option Int :=
  (attrs.filterMap fun av =>
    if av.1 = "max-age".data then maxAgeSeconds av.2 else none).getLast?

/-- The assignment `document.cookie = pair + "; expires=...; path=/; domain=..."` at time
`now`; `accepted` tells whether the browser accepts the `Domain` attribute for the host of the
page, and a write it does not accept is ignored.  The browser reads the name up to the first
`=` and the value up to the first `;` of `pair` and strips spaces around both.  What follows
the first `;` of `pair` it reads as attributes, ahead of the ones the widget appends: an
`HttpOnly` there makes it ignore the write, which comes from a script, and a `Max-Age` there
takes precedence over `expires`; a `Domain`, `Path`, `Expires` or `SameSite` there is overridden
by the one the widget appends, and a `Secure` there is not followed by the model.  A cookie
whose expiry time is not in the future is removed, any other is stored, whatever its size.  The
jar is keyed by name: a write the browser accepts replaces or removes the cookie of that name,
so the cookies the page shows are taken to be stored under the domain and the path `/` that
the write carries, as those the widget stored under the same configuration are. -/
def assignCookie (now : Nat) (accepted : Bool) (pair : List Char) (expires : Int)
    (jar : CookieJar) : CookieJar :=
  let nameValue := pair.takeWhile (· ≠ ';')
  let name := String.mk (trimWSP (nameValue.takeWhile (· ≠ '=')))
  let value := String.mk (trimWSP ((nameValue.dropWhile (· ≠ '=')).drop 1))
  let attrs := cookieAttributes pair
  if !accepted || attrs.any (fun av => decide (av.1 = "httponly".data)) then jar
  else
    let expired : Bool :=
      match maxAge attrs with
      | some seconds => decide (seconds ≤ 0)
      | none => decide (expires ≤ now)
    if expired then eraseCookie name jar else storeCookie name value jar

/-- Method `getCookie(name)`; `none` is `null`. -/
def getCookie (name : String) (jar : CookieJar) : Option String :=
  let value := ';' :: ' ' :: cookieText jar
  let parts := jsSplit value (';' :: ' ' :: (name.data ++ ['=']))
  if parts.length = 2 then
    match parts.getLast? with
    | some last => (jsSplit last [';']).head?.map String.mk
    | none => none
  else none

/-- Whether the browser accepts the attribute `domain=${this.config.domain}` on this page. -/
def World.acceptsDomain (w : World) : Bool :=
  domainAccepted w.hostname w.publicSuffix w.config.domain

/-- Method `setCookie(name, value, days, type)`: the cookie string carries
`expires` = `days` days from now, `path=/`, `domain=${this.config.domain}`, `SameSite=Lax`,
`Secure` on an `https:` page and the attribute `type`, which the browser ignores. -/
def setCookie (name value : String) (days : Int) (w : World) : World :=
  let expires : Int := w.now + days * 24 * 60 * 60 * 1000
  { w with cookies :=
      assignCookie w.now w.acceptsDomain (name.data ++ '=' :: value.data) expires w.cookies }

/-- Method `deleteCookie(name)`: writes an empty value that expired on 1 January 1970, with
`path=/` and `domain=${this.config.domain}`. -/
def deleteCookie (name : String) (w : World) : World :=
  { w with cookies := assignCookie w.now w.acceptsDomain (name.data ++ ['=']) 0 w.cookies }

/-! ## Consent token -/

/-- The template `generateUUID` fills in. -/
def uuidTemplate : List Char := "xxxxxxxx-xxxx-4xxx-yxxx-xxxxxxxxxxxx".data

/-- The replacement of one `x` or `y` of the template: `r = Math.random() * 16 | 0`, then
`v = c === 'x' ? r : (r & 0x3 | 0x8)`, written in base 16. -/
def uuidChar (c : Char) (d : Draw) : List Char :=
  let r := 16 * d.num / d.den
  let v := if c = 'x' then r else ((r &&& 0x3) ||| 0x8)
  Nat.toDigits 16 v

/-- Replaces every `x` and `y` from left to right, one draw each; returns the text and the
number of draws used so far. -/
def uuidFill (random : Nat → Draw) : Nat → List Char → List Char × Nat
  | used, [] => ([], used)
  | used, c :: cs =>
    if c = 'x' ∨ c = 'y' then
      let rest := uuidFill random (used + 1) cs
      (uuidChar c (random used) ++ rest.1, rest.2)
    else
      let rest := uuidFill random used cs
      (c :: rest.1, rest.2)

/-- Method `generateUUID()`. -/
def generateUUID (w : World) : String × World :=
  let filled := uuidFill w.random w.randomUsed uuidTemplate
  (String.mk filled.1, { w with randomUsed := filled.2 })

/-- Method `sendConsentToEndpoint(token, data)`: one `POST` to the endpoint; a failure of the
request is caught and logged, so the page state does not depend on its outcome. -/
def sendConsentToEndpoint (token : String) (data : JSObject) (w : World) : World :=
  let body := JSON.stringify (.obj [("token", .str token), ("data", .obj data),
    ("userAgent", .str w.userAgent), ("url", .str w.href)])
  { w with log := w.log ++ [Effect.post w.config.consentEndpoint body] }

/-- Method `generateAndSaveConsentToken(state)`. -/
def generateAndSaveConsentToken (state : JSValue) (w : World) : World :=
  let g := generateUUID w
  let consentToken : JSObject :=
    assignProps [("token", .str g.1), ("timestamp", getProp state "timestamp"),
      ("language", getProp state "language")] g.2.config.customData
  let w1 := setCookie "cookie_consent_token"
    (String.mk (jsToString (JSON.stringify (.obj consentToken)))) g.2.config.cookieExpiryDays g.2
  if w1.config.consentEndpoint.truthy then sendConsentToEndpoint g.1 w1.config.customData w1
  else w1

/-! ## Consent state in the cookie store -/

/-- Method `loadConsentState()`: `null` when the cookie is missing or empty and when decoding
or parsing throws. -/
def loadConsentState (w : World) : JSValue :=
  match getCookie "cookie_consent_state" w.cookies with
  | none => .null
  | some consentCookie =>
    if consentCookie = "" then .null
    else
      match decodeURIComponent consentCookie with
      | none => .null
      | some text =>
        match JSON.parse text with
        | none => .null
        | some v => v

/-- Method `saveConsentState(state)`. -/
def saveConsentState (state : JSValue) (w : World) : World :=
  let cookieValue := encodeURIComponent (String.mk (jsToString (JSON.stringify state)))
  let w1 := setCookie "cookie_consent_state" cookieValue w.config.cookieExpiryDays w
  if (getProp state "analytical").truthy then generateAndSaveConsentToken state w1
  else deleteCookie "cookie_consent_token" w1

/-! ## Third-party handlers and blockers -/

/-- One step of the loop over `Object.entries(thirdPartyHandlers)`.  A handler is an opaque
callback: its call is recorded, and it is taken to return without touching the page. -/
def applyHandler (w : World) (entry : String × JSValue) : World :=
  if (getProp w.consentState entry.1).truthy ∧ entry.2.isFunction then
    { w with log := w.log ++ [Effect.call entry.2 (.bool true)] }
  else if (getProp w.consentState entry.1).isFalse ∧ entry.2.isFunction then
    { w with log := w.log ++ [Effect.call entry.2 (.bool false)] }
  else w

/-- The call `deleteCookie` for each name of a list. -/
def deleteCookies (names : List String) (w : World) : World :=
  names.foldl (fun acc n => deleteCookie n acc) w

/-- The call `remove()` on every element a selector matches. -/
def removeElements (selected : Element → Bool) (w : World) : World :=
  { w with elements := w.elements.filter fun e => !selected e }

/-- Selector `script[src*="h"]` for one of the hosts `h`. -/
def scriptFrom (hosts : List String) (e : Element) : Bool :=
  e.tag = "script" &&
    match e.src with
    | some src => hosts.any fun h => includes src.data h.data
    | none => false

/-- The call `s.replace(a, b)` with a string pattern: the first occurrence is replaced. -/
def replaceFirst (a b : List Char) : List Char → List Char
  | [] => []
  | c :: cs =>
    if a.isPrefixOf (c :: cs) then b ++ (c :: cs).drop a.length
    else c :: replaceFirst a b cs

/-- The call `new RegExp(p).test(s)` for a pattern of literal word characters with an optional
final `.*`: the pattern is not anchored, so it matches wherever its literal part occurs. -/
def regexTest (p s : List Char) : Bool :=
  includes s (if ['.', '*'].isSuffixOf p then p.dropLast.dropLast else p)

/-- The names read off `document.cookie.split(';')` by `c.trim().split('=')[0]`. -/
def listedCookieNames (jar : CookieJar) : List String :=
  (jsSplit (cookieText jar) [';']).map fun c => String.mk ((jsSplit (jsTrim c) ['=']).headD [])

/-- The cookie name patterns of `blockGoogleAnalytics`. -/
def gaCookies : List String := ["_ga", "_ga_*", "_gid", "_gat"]

/-- The body of the loop over `gaCookies`: every listed cookie whose name the pattern matches
is deleted. -/
def deleteMatching (w : World) (cookie : String) : World :=
  let pattern := replaceFirst ['*'] ['.', '*'] cookie.data
  (listedCookieNames w.cookies).foldl
    (fun acc n => if regexTest pattern n.data then deleteCookie n acc else acc) w

/-- Method `blockGoogleAnalytics()`. -/
def blockGoogleAnalytics (w : World) : World :=
  removeElements (scriptFrom ["google-analytics.com", "googletagmanager.com"])
    (gaCookies.foldl deleteMatching w)

/-- Selector `.adsbygoogle, [id*="google_ads"]`. -/
def isAdContainer (e : Element) : Bool :=
  e.classes.contains "adsbygoogle" ||
    match e.id with
    | some i => includes i.data "google_ads".data
    | none => false

/-- Method `blockGoogleAdSense()`. -/
def blockGoogleAdSense (w : World) : World :=
  removeElements isAdContainer
    (removeElements (scriptFrom ["googlesyndication.com", "doubleclick.net"])
      (deleteCookies ["_gcl_au", "__gads", "__gpi"] w))

/-- Method `blockFacebook()`. -/
def blockFacebook (w : World) : World :=
  { removeElements (scriptFrom ["connect.facebook.net"]) (deleteCookies ["_fbp", "fr"] w) with
    FB := .undefined }

/-- Method `blockTwitter()`. -/
def blockTwitter (w : World) : World :=
  { removeElements (scriptFrom ["platform.twitter.com"])
      (deleteCookies ["personalization_id", "guest_id"] w) with
    twttr := .undefined }

/-- Method `blockFirebase()`. -/
def blockFirebase (w : World) : World :=
  removeElements (scriptFrom ["firebaseio.com", "firebase.com"]) (deleteCookies ["_fbp"] w)

/-- Whether a value is `null` or `undefined`, which cannot be destructured. -/
def JSValue.isNullish : JSValue → Bool
  | .undefined => true
  | .null => true
  | _ => false

/-- Method `applyThirdPartyBlockers()`.  It begins by destructuring `this.consentState`, which
throws a `TypeError` when there is no consent state: `none` stands for that exception, thrown
before anything is changed. -/
def applyThirdPartyBlockers (w : World) : Option World :=
  if w.consentState.isNullish then none
  else
    let analytical := getProp w.consentState "analytical"
    let performance := getProp w.consentState "performance"
    let advertising := getProp w.consentState "advertising"
    let social := getProp w.consentState "social"
    let w1 := if !analytical.truthy then blockGoogleAnalytics w else w
    let w2 := if !advertising.truthy then blockGoogleAdSense w1 else w1
    let w3 := if !social.truthy then blockFacebook w2 else w2
    let w4 := if !social.truthy then blockTwitter w3 else w3
    some (if !performance.truthy then blockFirebase w4 else w4)

/-- Method `applyConsentState()`.  The call of `applyThirdPartyBlockers` is made with a truthy
consent state, so it does not throw; the last case of the `match` is never taken. -/
def applyConsentState (w : World) : World :=
  if !w.consentState.truthy then w
  else
    let w1 := w.config.thirdPartyHandlers.foldl applyHandler w
    match applyThirdPartyBlockers w1 with
    | some w2 => w2
    | none => w1

/-! ## Localization -/

/-- The table `defaultTexts` of `getLocalizedText`. -/
def defaultTexts : JSObject :=
  [("cookieConsent.title", .str "Cookie Consent"),
   ("cookieConsent.description",
      .str "We use cookies to enhance your experience and analyze our traffic."),
   ("cookieConsent.fullscreenDescription",
      .str "Choose which cookies you want to allow. You can change these settings at any time."),
   ("cookieConsent.manageDescription", .str "Adjust your cookie preferences below."),
   ("cookieConsent.acceptAll", .str "Accept All"),
   ("cookieConsent.rejectAll", .str "Reject All"),
   ("cookieConsent.customChoice", .str "Custom Choice"),
   ("cookieConsent.manageSettings", .str "Manage Settings"),
   ("cookieConsent.saveSettings", .str "Save Settings"),
   ("cookieConsent.cancel", .str "Cancel"),
   ("cookieConsent.privacyPolicy", .str "Privacy Policy"),
   ("cookieConsent.cookiePolicy", .str "Cookie Policy"),
   ("cookieConsent.terms", .str "Terms of Use"),
   ("cookieConsent.categories.functional.title", .str "Functional Cookies"),
   ("cookieConsent.categories.functional.description",
      .str "These cookies are necessary for the website to function properly."),
   ("cookieConsent.categories.analytical.title", .str "Analytical Cookies"),
   ("cookieConsent.categories.analytical.description",
      .str "These cookies help us understand how visitors interact with our website."),
   ("cookieConsent.categories.performance.title", .str "Performance Cookies"),
   ("cookieConsent.categories.performance.description",
      .str "These cookies help us improve the performance of our website."),
   ("cookieConsent.categories.advertising.title", .str "Advertising Cookies"),
   ("cookieConsent.categories.advertising.description",
      .str "These cookies are used to deliver relevant advertisements."),
   ("cookieConsent.categories.social.title", .str "Social Media Cookies"),
   ("cookieConsent.categories.social.description",
      .str "These cookies enable social media features."),
   ("cookieConsent.categories.other.title", .str "Other Cookies"),
   ("cookieConsent.categories.other.description", .str "Other uncategorized cookies."),
   ("cookieConsent.policyContentError", .str "Policy content could not be loaded."),
   ("cookieConsent.siteBlocker.message",
      .str ("This website requires functional cookies to work properly. " ++
        "Please enable them to continue using our services.")),
   ("cookieConsent.siteBlocker.button", .str "Enable Cookies")]

/-- The table `userTexts`: `config.localization[config.locale] || {}`. -/
def userTexts (cfg : Config) : JSValue :=
  (getProp (.obj cfg.localization) cfg.locale).or (.obj [])

/-- The table `combined`: `{ ...defaultTexts, ...userTexts }`. -/
def combinedTexts (cfg : Config) : JSObject :=
  assignProps (assignProps [] defaultTexts) (ownProps (userTexts cfg))

/-- Getter `getLocalizedText`, applied to `key`: `combined[key] || key`. -/
def getLocalizedText (cfg : Config) (key : String) : JSValue :=
  (getProp (.obj (combinedTexts cfg)) key).or (.str key)

/-! ## Policy content loader -/

/-- How the `fetch` of a policy document ends: the request fails, or a response arrives with
its `ok` flag, its status and, when readable, its body text. -/
inductive FetchOutcome where
  | failed
  | response (ok : Bool) (status : Nat) (text : Option String)

/-- Method `loadMarkdownFile(url)`: the HTML text its promise resolves to.  `render` is the
markdown renderer, `none` when it throws.  Every exception of the `try` block reaches the
`catch` clause, which returns the placeholder paragraph. -/
def loadMarkdownFile (cfg : Config) (render : String → Option String)
    (outcome : FetchOutcome) : String :=
  let placeholder := String.mk
    ("<p>".data ++ jsToString (getLocalizedText cfg "cookieConsent.plolicyContentError") ++
      "</p>".data)
  match outcome with
  | .failed => placeholder
  | .response ok _ text =>
    if !ok then placeholder
    else
      match text with
      | none => placeholder
      | some markdown =>
        match render markdown with
        | some html => html
        | none => placeholder

/-! ## Modals -/

/-- The six categories of `getConsentCategoriesHTML` with their `required` and `default`
flags. -/
def categories : List (String × Bool × Bool) :=
  [("functional", true, true), ("analytical", false, false), ("performance", false, false),
   ("advertising", false, false), ("social", false, false), ("other", false, false)]

/-- The checkboxes `getConsentCategoriesHTML(state)` renders: one per category, checked when
the current value is truthy or the category is required. -/
def categoryInputs (state : JSValue) : List (String × Bool) :=
  categories.map fun c =>
    let value := getProp state c.1
    let currentValue :=
      match value with
      | .undefined => JSValue.bool c.2.2
      | v => v
    (c.1, currentValue.truthy || c.2.1)

/-- Appends a modal element to the document body. -/
def mountModal (m : Modal) (w : World) : World := { w with modals := w.modals ++ [m] }

/-- Method `showBannerModal()`. -/
def showBannerModal (w : World) : World := mountModal ⟨"banner", []⟩ w

/-- Method `showFullscreenModal()`. -/
def showFullscreenModal (w : World) : World :=
  mountModal ⟨"fullscreen", categoryInputs (w.consentState.or (.obj []))⟩ w

/-- Method `showManagementModal()`. -/
def showManagementModal (w : World) : World :=
  mountModal ⟨"management", categoryInputs (w.consentState.or (.obj []))⟩ w

/-- Method `showConsentModal(type)`. -/
def showConsentModal (type : String) (w : World) : World :=
  let w1 := { w with currentModal := .str type }
  if type = "banner" then showBannerModal w1
  else if type = "fullscreen" then showFullscreenModal w1
  else if type = "management" then showManagementModal w1
  else w1

/-- Method `closeModal()`: removes the first element of class `ccb-modal`, if there is one. -/
def closeModal (w : World) : World :=
  match w.modals with
  | [] => w
  | _ :: rest => { w with modals := rest, currentModal := .null }

/-- Method `showFunctionalBlockedMessage()`. -/
def showFunctionalBlockedMessage (w : World) : World := mountModal ⟨"blocked", []⟩ w

/-! ## Consent actions -/

/-- Method `createConsentState(state)`: `{ ...state, timestamp, language }`. -/
def createConsentState (w : World) (state : JSValue) : JSValue :=
  .obj (setProp "language" (.str w.config.locale)
    (setProp "timestamp" (.str w.nowISO) (assignProps [] (ownProps state))))

/-- Method `saveAndApplyConsent(state)`. -/
def saveAndApplyConsent (state : JSValue) (w : World) : World :=
  let w1 := { w with consentState := state }
  let w2 := saveConsentState state w1
  let w3 := applyConsentState w2
  let w4 := closeModal w3
  let w5 :=
    if !(getProp state "functional").truthy ∧ w4.config.blockSiteOnFunctionalDeny then
      showFunctionalBlockedMessage w4
    else w4
  { w5 with log := w5.log ++ [Effect.event "cookieConsentSaved"
      (.obj [("consentState", state), ("timestamp", .str w5.nowISO),
        ("language", getProp state "language")])] }

/-- Method `acceptAllConsent()`. -/
def acceptAllConsent (w : World) : World :=
  saveAndApplyConsent (createConsentState w (.obj
    [("functional", .bool true), ("analytical", .bool true), ("performance", .bool true),
     ("advertising", .bool true), ("social", .bool true), ("other", .bool true)])) w

/-- Method `rejectAllConsent()`. -/
def rejectAllConsent (w : World) : World :=
  saveAndApplyConsent (createConsentState w (.obj
    [("functional", .bool true), ("analytical", .bool false), ("performance", .bool false),
     ("advertising", .bool false), ("social", .bool false), ("other", .bool false)])) w

/-- The elements that have a `name` attribute, in document order, each with its `checked`
property: those of the host page, then the checkboxes of the mounted modals. -/
def namedElements (w : World) : List (String × Bool) :=
  (w.elements.filterMap fun e => e.name.map fun n => (n, e.checked)) ++
    w.modals.flatMap fun m => m.inputs

/-- The expression `document.querySelector('[name="n"]')?.checked || false`: the `checked`
property of the first element of the document, of any tag, whose `name` attribute is `n`, and
`false` when there is none. -/
def inputChecked (name : String) (w : World) : Bool :=
  match (namedElements w).find? fun i => i.1 = name with
  | some i => i.2
  | none => false

/-- Method `saveCustomConsent()`. -/
def saveCustomConsent (w : World) : World :=
  saveAndApplyConsent (createConsentState w (.obj
    [("functional", .bool true), ("analytical", .bool (inputChecked "analytical" w)),
     ("performance", .bool (inputChecked "performance" w)),
     ("advertising", .bool (inputChecked "advertising" w)),
     ("social", .bool (inputChecked "social" w)),
     ("other", .bool (inputChecked "other" w))])) w

/-! ## Construction and public API -/

/-- The constructor followed by `init()`, for a merged configuration: loads the persisted
state, then applies it or shows the banner. -/
def construct (cfg : Config) (page : World) : World :=
  let w := { page with config := cfg, consentState := loadConsentState page,
                       currentModal := .null }
  if w.consentState.truthy then applyConsentState w else showConsentModal "banner" w

/-- Method `getConsentState()`. -/
def getConsentState (w : World) : JSValue := w.consentState

/-- Method `hasConsent(category)`: `this.consentState?.[category] === true`. -/
def hasConsent (category : String) (w : World) : Bool :=
  (getPropOpt w.consentState category).isTrue

/-- Method `clearConsent()`. -/
def clearConsent (w : World) : World :=
  { deleteCookie "cookie_consent_token" (deleteCookie "cookie_consent_state" w) with
    consentState := .null }


/-- Method `showModal(type)`. -/
def showModal (type : String) (w : World) : World := showConsentModal type (closeModal w)

/-- Method `registerThirdPartyHandler(category, handler)`. -/
def registerThirdPartyHandler (category : String) (handler : JSValue) (w : World) : World :=
  let w1 := { w with config :=
    { w.config with thirdPartyHandlers := setProp category handler w.config.thirdPartyHandlers } }
  if w1.consentState.truthy ∧ handler.isFunction then
    { w1 with log := w1.log ++ [Effect.call handler (getProp w1.consentState category)] }
  else w1

/-! ## Policy modal and events -/

/-- Method `showPolicyModal(policyType)` up to its `await`: the policy document is requested
and the method is suspended until the request completes. -/
def showPolicyModal (policyType : String) (w : World) : World :=
  { w with pendingPolicy := w.pendingPolicy ++ [policyType] }

/-- The rest of `showPolicyModal` once `loadMarkdownFile` has resolved for the oldest pending
call: the policy modal is created and appended to the body.  (The promise of
`loadMarkdownFile` always resolves, so the `catch` branch of `showPolicyModal` is not taken.) -/
def policyLoaded (w : World) : World :=
  match w.pendingPolicy with
  | [] => w
  | _ :: rest => mountModal ⟨"policy", []⟩ { w with pendingPolicy := rest }

/-- The click listener `attachBannerEvents` installs, for a click on an element whose
`data-action` is `action` and whose `data-policy` is `policy`. -/
def bannerClick (action policy : String) (w : World) : World :=
  if action = "accept" then acceptAllConsent w
  else if action = "reject" then rejectAllConsent w
  else if action = "manage" then showFullscreenModal (closeModal w)
  else if action = "policy" then showPolicyModal policy (closeModal w)
  else w

/-- The click listener `attachFullscreenEvents` installs. -/
def fullscreenClick (action policy : String) (w : World) : World :=
  if action = "accept" then acceptAllConsent w
  else if action = "reject" then rejectAllConsent w
  else if action = "partial" then saveCustomConsent w
  else if action = "policy" then showPolicyModal policy (closeModal w)
  else w

/-- The click listener `attachManagementEvents` installs. -/
def managementClick (action policy : String) (w : World) : World :=
  if action = "save" then saveCustomConsent w
  else if action = "cancel" then closeModal w
  else if action = "policy" then showPolicyModal policy (closeModal w)
  else w

/-- The click listener `showPolicyModal` installs on the policy modal. -/
def policyClick (action : String) (w : World) : World :=
  if action = "close" then
    let w1 := closeModal w
    if !w1.consentState.truthy then showConsentModal "banner" w1 else w1
  else w

/-- The `keydown` listener of `bindEvents` for the key `Escape`. -/
def escapeKey (w : World) : World :=
  if w.currentModal.truthy then closeModal w else w

/-- The test `v === s` for a string `s`. -/
def JSValue.isString (s : String) : JSValue → Bool
  | .str t => t = s
  | _ => false

/-- The document `click` listener of `bindEvents` for a click whose target is the modal
element of type `type` itself (its backdrop), which carries the classes `ccb-modal` and
`ccb-modal--{type}`.  The listener of the modal runs first and finds no `data-action`. -/
def backdropClick (type : String) (w : World) : World :=
  if (w.currentModal.isString "banner" ∨ w.currentModal.isString "fullscreen") ∨
      w.consentState.truthy then
    let w1 := closeModal w
    if type = "policy" ∧ !w1.consentState.truthy then showConsentModal "banner" w1 else w1
  else w

/-! ## Configuration -/

/-- Method `detectLocale()`: `language` is `navigator.language`, `firstLanguage` is
`navigator.languages?.[0]`; each is a string or `undefined`. -/
def detectLocale (language firstLanguage : JSValue) : JSValue :=
  match language.or firstLanguage with
  | .str browserLang => (JSValue.str (String.mk ((jsSplit browserLang.data ['-']).headD []))).or
      (.str "en")
  | _ => .str "en"

/-- The properties `mergeConfig(config)` writes before it spreads `config`: for each key the
value `config.key || default`, except `consentEndpoint`, which is `config.consentEndpoint`. -/
def configDefaults (hostname : String) (detected : JSValue) (config : JSObject) : JSObject :=
  [("domain", (getProp (.obj config) "domain").or (.str hostname)),
   ("subdomains", (getProp (.obj config) "subdomains").or (.arr [])),
   ("cookieExpiryDays", (getProp (.obj config) "cookieExpiryDays").or (.num 365 0)),
   ("locale", (getProp (.obj config) "locale").or detected),
   ("localization", (getProp (.obj config) "localization").or (.obj [])),
   ("privacyPolicyUrl",
      (getProp (.obj config) "privacyPolicyUrl").or (.str "/locales/{locale}/privacy-policy.md")),
   ("cookiePolicyUrl",
      (getProp (.obj config) "cookiePolicyUrl").or (.str "/locales/{locale}/cookie-policy.md")),
   ("termsUrl", (getProp (.obj config) "termsUrl").or (.str "/locales/{locale}/terms.md")),
   ("consentEndpoint", getProp (.obj config) "consentEndpoint"),
   ("customData", (getProp (.obj config) "customData").or (.obj [])),
   ("blockSiteOnFunctionalDeny",
      (getProp (.obj config) "blockSiteOnFunctionalDeny").or (.bool false)),
   ("theme", (getProp (.obj config) "theme").or (.obj [])),
   ("thirdPartyHandlers", (getProp (.obj config) "thirdPartyHandlers").or (.obj []))]

/-- Method `mergeConfig(config)` for a caller object `config`, on a page whose
`window.location.hostname` is `hostname`; `detected` is the result of `detectLocale()`. -/
def mergeConfig (hostname : String) (detected : JSValue) (config : JSObject) : JSObject :=
  assignProps (assignProps [] (configDefaults hostname detected config)) config

/-! ## Auxiliary notions for the proofs -/

/-- A cookie jar as the browser keeps it. -/
structure WellFormedJar (jar : CookieJar) : Prop where
  names_nodup : (jar.map Prod.fst).Nodup
  name_semicolon : ∀ e ∈ jar, ∀ x ∈ e.1.data, x ≠ ';'
  name_equals : ∀ e ∈ jar, ∀ x ∈ e.1.data, x ≠ '='
  value_semicolon : ∀ e ∈ jar, ∀ x ∈ e.2.data, x ≠ ';'

/-- Whether a property named `k` comes before a different property named `k'` however the two
were added: an array index before a larger one and before any other name. -/
def keyBefore (k k' : String) : Bool :=
  match arrayIndex k, arrayIndex k' with
  | some i, some j => decide (i < j)
  | some _, none => true
  | none, some _ => false
  | none, none => k != k'

/-- The property names are those of a plain object, in its enumeration order: distinct, the
array indices first and ascending. -/
def keysInOrder : List String → Bool
  | [] => true
  | k :: rest => rest.all (keyBefore k) && keysInOrder rest

mutual
/-- A value that `JSON.stringify` writes and `JSON.parse` reads back as it was: `null`, a
boolean, a string, a number (zero being `num 0 0`), an array of such values, or a plain object
of such values. -/
def isJSONValue : JSValue → Bool
  | .undefined => false
  | .null => true
  | .bool _ => true
  | .num m e => m != 0 || e == 0
  | .str _ => true
  | .fn _ => false
  | .native _ => false
  | .arr items => allJSONItems items
  | .obj fields => keysInOrder (fields.map Prod.fst) && allJSONFields fields
/-- Every element of an array is such a value. -/
def allJSONItems : List JSValue → Bool
  | [] => true
  | v :: rest => isJSONValue v && allJSONItems rest
/-- Every property of an object holds such a value. -/
def allJSONFields : List (String × JSValue) → Bool
  | [] => true
  | (_, v) :: rest => isJSONValue v && allJSONFields rest
end

mutual
/-- A bound on the number of nested calls `JSON.parse` makes to read the text of a value. -/
def jsonSize : JSValue → Nat
  | .undefined => 1
  | .null => 1
  | .bool _ => 1
  | .num _ _ => 1
  | .str _ => 1
  | .fn _ => 1
  | .native _ => 1
  | .arr items => 1 + jsonSizeItems items
  | .obj fields => 1 + jsonSizeFields fields
/-- The bound for the elements of an array. -/
def jsonSizeItems : List JSValue → Nat
  | [] => 0
  | v :: rest => 1 + jsonSize v + jsonSizeItems rest
/-- The bound for the members of an object. -/
def jsonSizeFields : List (String × JSValue) → Nat
  | [] => 0
  | (_, v) :: rest => 1 + jsonSize v + jsonSizeFields rest
end

/-- The text that may follow a value inside JSON text: nothing, a comma, or a closing brace or
bracket. -/
def delimited : List Char → Bool
  | [] => true
  | c :: _ => c = ',' || c = '}' || c = ']'

/-- The JSON text of `v` is read back as `v` by `parseValue`, given fuel `jsonSize v`, which
the length of the text provides. -/
def ReadsBack (v : JSValue) : Prop :=
  ∃ sv, serializeJSON v = some sv ∧
    (∃ c cs, sv = c :: cs ∧ isJSONSpace c = false ∧ c ≠ ']') ∧
    jsonSize v ≤ sv.length ∧
    ∀ (fuel : Nat) (tail : List Char), jsonSize v ≤ fuel → delimited tail = true →
      parseValue fuel (sv ++ tail) = some (v, tail)

/-- The text of the elements of a non-empty array is read back by `parseItems`. -/
def ItemsReadBack (items : List JSValue) : Prop :=
  (∃ c cs, serializeItems items = c :: cs ∧ isJSONSpace c = false ∧ c ≠ ']') ∧
    jsonSizeItems items ≤ (serializeItems items).length + 1 ∧
    ∀ (fuel : Nat) (acc : List JSValue) (tail : List Char), jsonSizeItems items ≤ fuel →
      parseItems fuel (serializeItems items ++ ']' :: tail) acc
        = some (.arr (acc ++ items), tail)

/-- The text of the members of a non-empty object is read back by `parseMembers`. -/
def FieldsReadBack (fields : List (String × JSValue)) : Prop :=
  (∃ t, serializeMembers fields = '"' :: t) ∧
    jsonSizeFields fields ≤ (serializeMembers fields).length ∧
    ∀ (fuel : Nat) (acc : JSObject) (tail : List Char), jsonSizeFields fields ≤ fuel →
      parseMembers fuel (serializeMembers fields ++ '}' :: tail) acc
        = some (.obj (assignProps acc fields), tail)

/-- The text of one cookie with the separator in front. -/
def entryText (e : String × String) : List Char := ';' :: ' ' :: (e.1.data ++ '=' :: e.2.data)

/-- The text of the jar with a separator in front of each cookie. -/
def jarText : CookieJar → List Char
  | [] => []
  | e :: rest => entryText e ++ jarText rest

/-- The separator `getCookie(name)` splits at. -/
def cookieSep (name : String) : List Char := ';' :: ' ' :: (name.data ++ ['='])

/-- The tokens `decodeURIComponent` reads where `encodeURIComponent` wrote the character `c`. -/
def charTokens (c : Char) : List URIToken :=
  if isUnreserved c then [.lit c] else (utf8Bytes c.toNat).map .byte


/-- Values whose JSON text is a literal: `null`, booleans and strings. -/
def isFlat : JSValue → Bool
  | .null => true
  | .bool _ => true
  | .str _ => true
  | _ => false

/-- The cookie name the browser reads from the text `n=...` that `deleteCookie(n)` assigns. -/
def parsedName (n : List Char) : String :=
  String.mk (trimWSP (((n ++ ['=']).takeWhile (· ≠ ';')).takeWhile (· ≠ '=')))

/-- A cookie name as the widget uses them: no `;`, no `=`, no space or tab around it. -/
structure CleanName (name : List Char) : Prop where
  semicolon : ∀ x ∈ name, x ≠ ';'
  equals : ∀ x ∈ name, x ≠ '='
  trimmed : trimWSP name = name

/-- What a blocker or handler may do to the widget and the cookie jar: it leaves the instance
fields, the clock and the modals alone, only removes cookies, and never removes the two
cookies of the widget itself. -/
structure Kept (w w' : World) : Prop where
  config : w'.config = w.config
  consentState : w'.consentState = w.consentState
  currentModal : w'.currentModal = w.currentModal
  modals : w'.modals = w.modals
  now : w'.now = w.now
  nowISO : w'.nowISO = w.nowISO
  accepts : w'.acceptsDomain = w.acceptsDomain
  sublist : List.Sublist w'.cookies w.cookies
  own : ∀ e ∈ w.cookies, e.1 = "cookie_consent_state" ∨ e.1 = "cookie_consent_token" →
    e ∈ w'.cookies

/-! ## Consent states, sample pages and action sequences -/

/-- A well-formed consent state, typedef `ConsentState`: six category booleans, the timestamp
and the language. -/
structure ConsentState where
  functional : Bool
  analytical : Bool
  performance : Bool
  advertising : Bool
  social : Bool
  other : Bool
  timestamp : String
  language : String

/-- The object a `ConsentState` record stands for. -/
def ConsentState.toJS (s : ConsentState) : JSValue :=
  .obj [("functional", .bool s.functional), ("analytical", .bool s.analytical),
    ("performance", .bool s.performance), ("advertising", .bool s.advertising),
    ("social", .bool s.social), ("other", .bool s.other),
    ("timestamp", .str s.timestamp), ("language", .str s.language)]

/-- An object of category booleans, the argument the actions pass to `createConsentState`. -/
def categoryObject (functional analytical performance advertising social other : Bool) :
    JSValue :=
  .obj [("functional", .bool functional), ("analytical", .bool analytical),
    ("performance", .bool performance), ("advertising", .bool advertising),
    ("social", .bool social), ("other", .bool other)]

/-- The default configuration on the host `localhost`. -/
def sampleConfig : Config :=
  { domain := "localhost"
    cookieExpiryDays := 365
    locale := "en"
    localization := []
    privacyPolicyUrl := "/locales/{locale}/privacy-policy.md"
    cookiePolicyUrl := "/locales/{locale}/cookie-policy.md"
    termsUrl := "/locales/{locale}/terms.md"
    consentEndpoint := .undefined
    customData := []
    blockSiteOnFunctionalDeny := false
    thirdPartyHandlers := [] }

/-- A page without cookies, modals or third-party elements, before a widget is constructed. -/
def samplePage : World :=
  { config := sampleConfig
    hostname := "localhost"
    publicSuffix := fun d => d = "com" || d = "org" || d = "net"
    consentState := .null
    currentModal := .null
    cookies := []
    modals := []
    elements := []
    FB := .undefined
    twttr := .undefined
    now := 1700000000000
    nowISO := "2023-11-14T22:13:20.000Z"
    random := fun i => ⟨i % 16, 16⟩
    randomUsed := 0
    userAgent := "Mozilla/5.0"
    href := "https://localhost/"
    log := [] }

/-- A page that already holds cookies: an analytics cookie, a cookie whose name ends with the
name of the state cookie, and the two cookies of an earlier acceptance. -/
def visitedPage : World :=
  { samplePage with
    cookies := [("_ga", "GA1.2.3"), ("my_cookie_consent_state", "1"),
      ("cookie_consent_state", "%7B%22functional%22%3Atrue%7D"),
      ("cookie_consent_token", "\x7b\"token\":\"t\"\x7d")] }

/-- A page whose widget is configured with `cookieExpiryDays: -1`. -/
def expiredPage : World :=
  { samplePage with config := { sampleConfig with cookieExpiryDays := -1 } }

/-- A page on the host `localhost` whose widget is configured with `domain: 'example.com'`, as
in the cookie tests; the jar holds the cookies of a visit under an earlier configuration. -/
def foreignDomainPage : World :=
  { samplePage with
    config := { sampleConfig with domain := "example.com" }
    cookies := [("cookie_consent_state", "%7B%22functional%22%3Afalse%7D"),
      ("cookie_consent_token", "\x7b\"token\":\"t\"\x7d")] }

/-- A fresh page on the host `localhost` whose widget is configured with
`domain: 'example.com'`. -/
def foreignFreshPage : World :=
  { samplePage with config := { sampleConfig with domain := "example.com" } }

/-- A consent state that grants analytics only. -/
def sampleState : ConsentState :=
  { functional := true, analytical := true, performance := false, advertising := false,
    social := false, other := false, timestamp := "2023-01-01T00:00:00.000Z", language := "fr" }

/-- The three modal actions that adopt a consent state. -/
inductive ModalAction where
  | accept
  | reject
  | saveCustom

/-- The method a modal action calls. -/
def ModalAction.run : ModalAction → World → World
  | .accept => acceptAllConsent
  | .reject => rejectAllConsent
  | .saveCustom => saveCustomConsent

/-- A sequence of modal actions, performed from left to right. -/
def runActions (actions : List ModalAction) (w : World) : World :=
  actions.foldl (fun acc a => a.run acc) w

/-- The cookie `name` is present, as `getCookie` sees it. -/
def cookiePresent (name : String) (w : World) : Prop := (getCookie name w.cookies).isSome = true

/-- The value `saveConsentState(state)` writes to the state cookie. -/
def stateCookieValue (state : JSValue) : String :=
  encodeURIComponent (String.mk (jsToString (JSON.stringify state)))

/-- The text `generateAndSaveConsentToken(state)` assigns as the value of the token cookie. -/
def consentTokenText (state : JSValue) (w : World) : List Char :=
  jsToString (JSON.stringify (.obj (assignProps
    [("token", .str (generateUUID w).1), ("timestamp", getProp state "timestamp"),
      ("language", getProp state "language")] w.config.customData)))

/-- The expiry time `setCookie` computes for `days` days from `now`, in milliseconds. -/
def expiryTime (now : Nat) (days : Int) : Int := now + days * 24 * 60 * 60 * 1000

/-- The five categories a visitor can refuse. -/
def optionalCategories : List String :=
  ["analytical", "performance", "advertising", "social", "other"]

/-- All six categories. -/
def allCategories : List String := "functional" :: optionalCategories

/-- The first of two optional values that is present. -/
def firstSome (a b : Option JSValue) : Option JSValue :=
  match a with
  | some v => some v
  | none => b

/-- A configuration whose caller blanked out the title for the locale in use. -/
def blankTitleConfig : Config :=
  { sampleConfig with localization := [("en", .obj [("cookieConsent.title", .str "")])] }

/-- A page whose state cookie holds the given raw value. -/
def pageWithStateCookie (value : String) : World :=
  { samplePage with cookies := [("cookie_consent_state", value)] }

/-- A configuration with a French title, as in the localization test. -/
def frenchConfig : Config :=
  { sampleConfig with
    locale := "fr"
    localization := [("fr", .obj [("cookieConsent.title", .str "Titre en français")])] }

/-! ## Handlers, forms and interface steps -/

/-- The handler calls recorded in the log, as handler and argument, oldest first. -/
def handlerCalls (w : World) : List (JSValue × JSValue) :=
  w.log.filterMap fun e =>
    match e with
    | .call handler arg => some (handler, arg)
    | _ => none

/-- A fresh page whose widget is configured with a handler under the name `custom`, as in the
test of the third-party handlers. -/
def customHandlerPage : World :=
  { samplePage with config := { sampleConfig with thirdPartyHandlers := [("custom", .fn 1)] } }

/-- A fresh page whose widget is configured with a handler under the name `analytical`. -/
def analyticalHandlerPage : World :=
  { samplePage with
    config := { sampleConfig with thirdPartyHandlers := [("analytical", .fn 1)] } }

/-- The checkboxes of all mounted modals in document order. -/
def formInputs (w : World) : List (String × Bool) := w.modals.flatMap fun m => m.inputs

/-- A host page with a text field `<input type="text" name="other">`, on which the management
modal is mounted with the boxes `analytical`, `advertising` and `other` checked. -/
def hostFormPage : World :=
  { samplePage with
    elements := [⟨"input", none, [], none, some "other", false⟩]
    currentModal := .str "management"
    modals := [⟨"management", [("functional", true), ("analytical", true),
      ("performance", false), ("advertising", true), ("social", false), ("other", true)]⟩] }

/-- A modal of class `ccb-modal--blocked` is mounted. -/
def blockedMounted (w : World) : Prop := ∃ m ∈ w.modals, m.type = "blocked"

/-- The types of the mounted modals in document order. -/
def modalTypes (w : World) : List String := w.modals.map fun m => m.type

/-- A page configured with `blockSiteOnFunctionalDeny: true` on which the banner is mounted. -/
def blockingPage : World :=
  { samplePage with
    config := { sampleConfig with blockSiteOnFunctionalDeny := true }
    currentModal := .str "banner"
    modals := [⟨"banner", []⟩] }

/-- What can happen to a constructed widget: a call of `showModal`, a click on a button of a
mounted modal, the completion of a pending policy request, the key `Escape`, a click on the
backdrop of a mounted modal. -/
inductive UIStep where
  | showModal (type : String)
  | banner (action policy : String)
  | fullscreen (action policy : String)
  | management (action policy : String)
  | policy (action : String)
  | policyLoaded
  | escape
  | backdrop (type : String)

/-- A modal of the given type is mounted. -/
def mounted (type : String) (w : World) : Bool := w.modals.any fun m => m.type = type

/-- The effect of a step.  A click needs its modal to be mounted; without it nothing can be
clicked and nothing happens. -/
def UIStep.run : UIStep → World → World
  | .showModal type, w => CookieConsent.showModal type w
  | .banner action doc, w => if mounted "banner" w then bannerClick action doc w else w
  | .fullscreen action doc, w =>
    if mounted "fullscreen" w then fullscreenClick action doc w else w
  | .management action doc, w =>
    if mounted "management" w then managementClick action doc w else w
  | .policy action, w => if mounted "policy" w then policyClick action w else w
  | .policyLoaded, w => CookieConsent.policyLoaded w
  | .escape, w => escapeKey w
  | .backdrop type, w => if mounted type w then backdropClick type w else w

/-- A sequence of steps, performed from left to right. -/
def runSteps (steps : List UIStep) (w : World) : World := steps.foldl (fun acc s => s.run acc) w

/-- The caller configuration of the test of `mergeConfig`. -/
def customConfig : JSObject :=
  [("domain", .str "example.com"), ("locale", .str "fr"), ("cookieExpiryDays", .num 30 0)]

/-- The keys for which `mergeConfig` has a default that does not depend on the browser, with
that default, given the host name of the page. -/
def fixedDefaults (hostname : String) : JSObject :=
  [("domain", .str hostname),
   ("cookieExpiryDays", .num 365 0),
   ("blockSiteOnFunctionalDeny", .bool false),
   ("privacyPolicyUrl", .str "/locales/{locale}/privacy-policy.md"),
   ("cookiePolicyUrl", .str "/locales/{locale}/cookie-policy.md"),
   ("termsUrl", .str "/locales/{locale}/terms.md"),
   ("localization", .obj []),
   ("customData", .obj []),
   ("thirdPartyHandlers", .obj []),
   ("subdomains", .arr []),
   ("theme", .obj [])]

/-! ## Notions for the blockers -/

/-- The text `name=value` of one cookie. -/
def pairText (e : String × String) : List Char := e.1.data ++ '=' :: e.2.data

/-- The name `c.trim().split('=')[0]` read off one part of `document.cookie.split(';')`. -/
def listedName (c : List Char) : String := String.mk ((jsSplit (jsTrim c) ['=']).headD [])

/-- The page `a` has no more cookies and elements than the page `b`, the SDK handles that are
cleared on `b` are cleared on `a`, the same effects have been observed, and the browser treats
the configured domain alike. -/
structure Below (a b : World) : Prop where
  cookies : List.Sublist a.cookies b.cookies
  elements : List.Sublist a.elements b.elements
  fb : b.FB = .undefined → a.FB = .undefined
  twttr : b.twttr = .undefined → a.twttr = .undefined
  log : a.log = b.log
  accepts : a.acceptsDomain = b.acceptsDomain

/-- A clean-up step: it only removes cookies and elements and clears handles, and it changes
nothing on a page that has no more left than its own result on a page with a well-formed
jar. -/
def Shrinking (f : World → World) : Prop :=
  (∀ w, Below (f w) w) ∧
  (∀ w w', WellFormedJar w.cookies → Below w' (f w) → f w' = w')

/-- The assignment `window.FB = undefined`. -/
def clearFB (w : World) : World := { w with FB := .undefined }

/-- The assignment `window.twttr = undefined`. -/
def clearTwttr (w : World) : World := { w with twttr := .undefined }

/-- The blockers `applyThirdPartyBlockers` runs for the consent state `state`, in order. -/
def blockersFor (state : JSValue) (w : World) : World :=
  let w1 := if !(getProp state "analytical").truthy then blockGoogleAnalytics w else w
  let w2 := if !(getProp state "advertising").truthy then blockGoogleAdSense w1 else w1
  let w3 := if !(getProp state "social").truthy then blockFacebook w2 else w2
  let w4 := if !(getProp state "social").truthy then blockTwitter w3 else w3
  if !(getProp state "performance").truthy then blockFirebase w4 else w4

/-- The selector of the script elements `blockGoogleAnalytics` removes. -/
def isAnalyticsScript (e : Element) : Bool :=
  scriptFrom ["google-analytics.com", "googletagmanager.com"] e

/-- A page that carries analytics, advertising and social-network cookies, scripts, an ad
container and both SDK handles. -/
def trackedPage : World :=
  { samplePage with
    cookies := [("_ga", "GA1.2.3"), ("_ga_ABC123", "GS1.1"), ("_gid", "GA1.2.4"),
      ("__gads", "ID=1"), ("_fbp", "fb.1"), ("guest_id", "v1"), ("session", "abc")]
    elements :=
      [⟨"script", some "https://www.google-analytics.com/analytics.js", [], none, none, false⟩,
       ⟨"script", some "https://connect.facebook.net/en_US/sdk.js", [], none, none, false⟩,
       ⟨"ins", none, ["adsbygoogle"], none, none, false⟩,
       ⟨"script", some "/app.js", [], none, none, false⟩]
    FB := .obj []
    twttr := .obj [] }

/-- The tracked page of a visitor who refused every optional category. -/
def refusedPage : World :=
  { trackedPage with
    consentState := .obj [("functional", .bool true), ("analytical", .bool false),
      ("performance", .bool false), ("advertising", .bool false), ("social", .bool false),
      ("other", .bool false)] }

/-- The tracked page on a later visit: the state cookie holds a state with `functional` true and
`analytical` false. -/
def returningPage : World :=
  { trackedPage with
    cookies := trackedPage.cookies ++
      [("cookie_consent_state",
        "%7B%22functional%22%3Atrue%2C%22analytical%22%3Afalse%7D")] }

/-- The tracked page of a visitor who granted analytics, performance, advertising and social
networks. -/
def grantedPage : World :=
  { trackedPage with
    consentState := .obj [("functional", .bool true), ("analytical", .bool true),
      ("performance", .bool true), ("advertising", .bool true), ("social", .bool true),
      ("other", .bool false)] }

/-- A page of a visitor who refused analytics only; its jar holds the analytics cookie `_ga`,
the AdSense cookie `__gads` and two cookies of the site itself. -/
def adsGrantedPage : World :=
  { samplePage with
    cookies := [("_ga", "GA1.2.3"), ("__gads", "ID=1"), ("sso_gateway", "1"),
      ("session", "abc")]
    consentState := .obj [("functional", .bool true), ("analytical", .bool false),
      ("performance", .bool true), ("advertising", .bool true), ("social", .bool true),
      ("other", .bool true)] }

/-! ## Notions for the consent token -/

/-- A lowercase hexadecimal digit, `[0-9a-f]`. -/
def isLowerHex (c : Char) : Bool :=
  (48 ≤ c.toNat && c.toNat ≤ 57) || (97 ≤ c.toNat && c.toNat ≤ 102)

/-- The character `c` may stand where the template of `generateUUID` has `t`: a hexadecimal
digit for `x`, one of `8`, `9`, `a`, `b` for `y`, and `t` itself otherwise. -/
def fitsTemplate (t c : Char) : Bool :=
  if t = 'x' then isLowerHex c
  else if t = 'y' then c = '8' || c = '9' || c = 'a' || c = 'b'
  else c = t

/-- The record `generateAndSaveConsentToken(state)` serialises: the object literal
`{ token, timestamp: state.timestamp, language: state.language, ...this.config.customData }`. -/
def consentTokenRecord (state : JSValue) (w : World) : JSObject :=
  assignProps [("token", .str (generateUUID w).1), ("timestamp", getProp state "timestamp"),
    ("language", getProp state "language")] w.config.customData

/-- The sample page with custom data that has a field called `token`. -/
def tokenDataPage : World :=
  { samplePage with config := { sampleConfig with customData := [("token", .str "mine")] } }

/-- The sample page with custom data whose text has a semicolon. -/
def noteDataPage : World :=
  { samplePage with config := { sampleConfig with customData := [("note", .str "a;b")] } }

/-- The sample page with custom data whose text has the cookie attribute `max-age=0` between
two semicolons. -/
def maxAgeDataPage : World :=
  { samplePage with
    config := { sampleConfig with customData := [("note", .str "a;max-age=0;b")] } }

/-- The sample page with custom data that has a field whose value is `undefined`. -/
def undefinedDataPage : World :=
  { samplePage with config := { sampleConfig with customData := [("userId", .undefined)] } }

/-- The sample page with custom data `{ b: [3, null], 1: 'y' }`, whose properties the engine
enumerates with `1` first. -/
def richDataPage : World :=
  { samplePage with
    config := { sampleConfig with
      customData := [("1", .str "y"), ("b", .arr [.num 3 0, .null])] } }

/-! ## The cookie jar and `getCookie` -/

theorem cookieText_eq_jarText (e : String × String) (jar : CookieJar) :
    ';' :: ' ' :: cookieText (e :: jar) = jarText (e :: jar) := by
  induction jar generalizing e with
  | nil => obtain ⟨n, v⟩ := e; simp [cookieText, jarText, entryText]
  | cons e2 rest ih =>
    obtain ⟨n, v⟩ := e
    have := ih e2
    simp only [cookieText, jarText, entryText] at this ⊢
    simp [this]

theorem jarText_head (jar : CookieJar) : jarText jar = [] ∨ ∃ t, jarText jar = ';' :: t := by
  cases jar with
  | nil => left; rfl
  | cons e rest => right; exact ⟨_, rfl⟩

theorem splitScan_skip (sep : List Char) (l R cur : List Char) :
    splitScan sep l.length (l ++ R) cur = splitScan sep 0 R cur := by
  induction l with
  | nil => simp
  | cons c cs ih => simpa [splitScan] using ih

theorem splitScan_pass (sep' : List Char) (c0 : Char) (l R cur : List Char)
    (h : ∀ x ∈ l, x ≠ c0) :
    splitScan (c0 :: sep') 0 (l ++ R) cur = splitScan (c0 :: sep') 0 R (l.reverse ++ cur) := by
  induction l generalizing cur with
  | nil => simp
  | cons c cs ih =>
    have hc : c ≠ c0 := h c (by simp)
    have hcs : ∀ x ∈ cs, x ≠ c0 := fun x hx => h x (by simp [hx])
    have hne : ¬ (c0 = c) := fun e => hc e.symm
    have hp : (c0 :: sep').isPrefixOf (c :: (cs ++ R)) = false := by
      simp [List.isPrefixOf, hne]
    rw [List.cons_append, splitScan, hp, ih _ hcs]
    simp

theorem name_of_prefix (name n X : List Char) (h1 : ∀ x ∈ name, x ≠ '=') (h2 : ∀ x ∈ n, x ≠ '=')
    (h : (name ++ ['=']).isPrefixOf (n ++ '=' :: X) = true) : name = n := by
  induction name generalizing n with
  | nil =>
    cases n with
    | nil => rfl
    | cons c n' =>
      have : c ≠ '=' := h2 c (by simp)
      simp only [List.nil_append, List.cons_append, List.isPrefixOf_cons₂, Bool.and_eq_true,
        beq_iff_eq] at h
      exact absurd h.1.symm this
  | cons a name' ih =>
    cases n with
    | nil =>
      have : a ≠ '=' := h1 a (by simp)
      simp only [List.nil_append, List.cons_append, List.isPrefixOf_cons₂, Bool.and_eq_true,
        beq_iff_eq] at h
      exact absurd h.1 this
    | cons c n' =>
      simp only [List.cons_append, List.isPrefixOf_cons₂, Bool.and_eq_true, beq_iff_eq] at h
      rw [h.1, ih n' (fun x hx => h1 x (by simp [hx])) (fun x hx => h2 x (by simp [hx])) h.2]

theorem splitScan_other (name : String) (e : String × String) (R cur : List Char)
    (hname : ∀ x ∈ name.data, x ≠ '=')
    (hn1 : ∀ x ∈ e.1.data, x ≠ ';') (hn2 : ∀ x ∈ e.1.data, x ≠ '=')
    (hv : ∀ x ∈ e.2.data, x ≠ ';') (hne : e.1 ≠ name) :
    splitScan (cookieSep name) 0 (entryText e ++ R) cur =
      splitScan (cookieSep name) 0 R ((entryText e).reverse ++ cur) := by
  have h1 : entryText e ++ R = ';' :: ((' ' :: (e.1.data ++ '=' :: e.2.data)) ++ R) := by
    simp [entryText]
  have hp : (cookieSep name).isPrefixOf
      (';' :: ((' ' :: (e.1.data ++ '=' :: e.2.data)) ++ R)) = false := by
    cases hb : (cookieSep name).isPrefixOf
        (';' :: ((' ' :: (e.1.data ++ '=' :: e.2.data)) ++ R)) with
    | false => rfl
    | true =>
      exfalso
      simp only [cookieSep, List.cons_append, List.isPrefixOf_cons₂, Bool.and_eq_true,
        beq_iff_eq, true_and, List.append_assoc] at hb
      have := name_of_prefix name.data e.1.data (e.2.data ++ R) hname hn2 hb
      apply hne
      cases e with
      | mk n v => cases n; cases name; simp_all
  have hrest : ∀ x ∈ ' ' :: (e.1.data ++ '=' :: e.2.data), x ≠ ';' := by
    intro x hx
    simp only [List.mem_cons, List.mem_append] at hx
    rcases hx with h | h | h | h
    · rw [h]; decide
    · exact hn1 x h
    · rw [h]; decide
    · exact hv x h
  rw [h1, splitScan, hp]
  simp only [Bool.false_eq_true, if_false]
  have := splitScan_pass (' ' :: (name.data ++ ['='])) ';' (' ' :: (e.1.data ++ '=' :: e.2.data))
    R (';' :: cur) hrest
  simp only [cookieSep]
  rw [this]
  simp [entryText]

theorem splitScan_same (name : String) (v : String) (R cur : List Char)
    (hv : ∀ x ∈ v.data, x ≠ ';') :
    splitScan (cookieSep name) 0 (entryText (name, v) ++ R) cur =
      cur.reverse :: splitScan (cookieSep name) 0 R v.data.reverse := by
  have h1 : entryText (name, v) ++ R =
      ';' :: ((' ' :: (name.data ++ ['='])) ++ (v.data ++ R)) := by
    simp [entryText]
  have hp : (cookieSep name).isPrefixOf
      (';' :: ((' ' :: (name.data ++ ['='])) ++ (v.data ++ R))) = true := by
    rw [List.isPrefixOf_iff_prefix]
    exact ⟨v.data ++ R, by simp [cookieSep]⟩
  rw [h1, splitScan, hp]
  simp only [if_true]
  have hl : (cookieSep name).length - 1 = (' ' :: (name.data ++ ['='])).length := by
    simp [cookieSep]
  rw [hl, splitScan_skip]
  have := splitScan_pass (' ' :: (name.data ++ ['='])) ';' v.data R [] hv
  simp only [cookieSep]
  rw [this]
  simp

theorem splitScan_absent (name : String) (jar : CookieJar) (cur : List Char)
    (hname : ∀ x ∈ name.data, x ≠ '=')
    (h1 : ∀ e ∈ jar, ∀ x ∈ e.1.data, x ≠ ';') (h2 : ∀ e ∈ jar, ∀ x ∈ e.1.data, x ≠ '=')
    (h3 : ∀ e ∈ jar, ∀ x ∈ e.2.data, x ≠ ';') (habs : ∀ e ∈ jar, e.1 ≠ name) :
    splitScan (cookieSep name) 0 (jarText jar) cur = [cur.reverse ++ jarText jar] := by
  induction jar generalizing cur with
  | nil => simp [jarText, splitScan]
  | cons e rest ih =>
    rw [jarText, splitScan_other name e _ cur hname (h1 e (by simp)) (h2 e (by simp))
      (h3 e (by simp)) (habs e (by simp))]
    rw [ih _ (fun e he => h1 e (by simp [he])) (fun e he => h2 e (by simp [he]))
      (fun e he => h3 e (by simp [he])) (fun e he => habs e (by simp [he]))]
    simp

theorem splitScan_present (name v : String) (jar : CookieJar) (cur : List Char)
    (hname : ∀ x ∈ name.data, x ≠ '=') (hwf : WellFormedJar jar) (hmem : (name, v) ∈ jar) :
    ∃ pre post, splitScan (cookieSep name) 0 (jarText jar) cur = [pre, v.data ++ jarText post] := by
  induction jar generalizing cur with
  | nil => simp at hmem
  | cons e rest ih =>
    have hnd := hwf.names_nodup
    simp only [List.map_cons, List.nodup_cons] at hnd
    have hwf' : WellFormedJar rest :=
      ⟨hnd.2, fun e he => hwf.name_semicolon e (by simp [he]),
        fun e he => hwf.name_equals e (by simp [he]),
        fun e he => hwf.value_semicolon e (by simp [he])⟩
    by_cases he : e.1 = name
    · have hev : e = (name, v) := by
        rcases List.mem_cons.1 hmem with h | h
        · exact h.symm
        · exfalso
          apply hnd.1
          rw [he]
          exact List.mem_map.2 ⟨(name, v), h, rfl⟩
      subst hev
      refine ⟨cur.reverse, rest, ?_⟩
      rw [jarText, splitScan_same name v _ cur (hwf.value_semicolon (name, v) (by simp))]
      rw [splitScan_absent name rest _ hname hwf'.name_semicolon hwf'.name_equals
        hwf'.value_semicolon]
      · simp
      · intro e' he' h
        apply hnd.1
        exact List.mem_map.2 ⟨e', he', by simpa using h⟩
    · have hmem' : (name, v) ∈ rest := by
        rcases List.mem_cons.1 hmem with h | h
        · exact absurd (by rw [← h]) he
        · exact h
      obtain ⟨pre, post, hpp⟩ := ih ((entryText e).reverse ++ cur) hwf' hmem'
      refine ⟨pre, post, ?_⟩
      rw [jarText, splitScan_other name e _ cur hname (hwf.name_semicolon e (by simp))
        (hwf.name_equals e (by simp)) (hwf.value_semicolon e (by simp)) he, hpp]

theorem head_split_semicolon (v : List Char) (jar : CookieJar) (hv : ∀ x ∈ v, x ≠ ';') :
    (jsSplit (v ++ jarText jar) [';']).head? = some v := by
  have hs : jsSplit (v ++ jarText jar) [';'] = splitScan [';'] 0 (v ++ jarText jar) [] := by
    simp [jsSplit]
  rw [hs, splitScan_pass [] ';' v _ [] hv]
  rcases jarText_head jar with h | ⟨t, h⟩
  · rw [h]; simp [splitScan]
  · rw [h]; simp [splitScan]

theorem getCookie_present (name v : String) (jar : CookieJar)
    (hname : ∀ x ∈ name.data, x ≠ '=') (hwf : WellFormedJar jar) (hmem : (name, v) ∈ jar) :
    getCookie name jar = some v := by
  cases jar with
  | nil => simp at hmem
  | cons e rest =>
    obtain ⟨pre, post, hpp⟩ := splitScan_present name v (e :: rest) [] hname hwf hmem
    have hsep : jsSplit (';' :: ' ' :: cookieText (e :: rest)) (';' :: ' ' :: (name.data ++ ['=']))
        = [pre, v.data ++ jarText post] := by
      rw [cookieText_eq_jarText]
      simpa [jsSplit, cookieSep] using hpp
    simp only [getCookie, hsep]
    simp only [List.length_cons, List.length_nil, List.getLast?_cons_cons, List.getLast?_singleton]
    rw [head_split_semicolon v.data post (hwf.value_semicolon _ hmem)]
    rfl

theorem getCookie_absent (name : String) (jar : CookieJar)
    (hname : ∀ x ∈ name.data, x ≠ '=') (hwf : WellFormedJar jar)
    (habs : ∀ e ∈ jar, e.1 ≠ name) :
    getCookie name jar = none := by
  have hlen : (jsSplit (';' :: ' ' :: cookieText jar) (';' :: ' ' :: (name.data ++ ['=']))).length
      = 1 := by
    cases jar with
    | nil =>
      have hp : (name.data ++ ['=']).isPrefixOf ([] : List Char) = false := by
        cases name.data <;> rfl
      simp [jsSplit, cookieText, splitScan, List.isPrefixOf_cons₂, hp]
    | cons e rest =>
      rw [cookieText_eq_jarText]
      have := splitScan_absent name (e :: rest) [] hname hwf.name_semicolon hwf.name_equals
        hwf.value_semicolon habs
      simp only [cookieSep] at this
      simp [jsSplit, this]
  simp [getCookie, hlen]

/-! ## Writing to `document.cookie` -/

theorem mem_trimWSP (l : List Char) (x : Char) (h : x ∈ trimWSP l) : x ∈ l := by
  unfold trimWSP at h
  rw [List.mem_reverse] at h
  have h1 := (List.dropWhile_sublist isWSP).subset h
  rw [List.mem_reverse] at h1
  exact (List.dropWhile_sublist isWSP).subset h1

theorem trimWSP_eq_self (l : List Char) (h : ∀ x ∈ l, isWSP x = false) : trimWSP l = l := by
  have h1 : ∀ (m : List Char), (∀ x ∈ m, isWSP x = false) → m.dropWhile isWSP = m := by
    intro m hm
    cases m with
    | nil => rfl
    | cons c cs => rw [List.dropWhile_cons, hm c (by simp)]; rfl
  unfold trimWSP
  rw [h1 l h, h1 l.reverse (fun x hx => h x (List.mem_reverse.1 hx)), List.reverse_reverse]

theorem takeWhile_stop (p : Char → Bool) (l r : List Char) (a : Char)
    (hl : ∀ x ∈ l, p x = true) (ha : p a = false) : (l ++ a :: r).takeWhile p = l := by
  induction l with
  | nil => simp [List.takeWhile_cons, ha]
  | cons c cs ih =>
    rw [List.cons_append, List.takeWhile_cons, hl c (by simp), ih (fun x hx => hl x (by simp [hx]))]
    rfl

theorem dropWhile_stop (p : Char → Bool) (l r : List Char) (a : Char)
    (hl : ∀ x ∈ l, p x = true) (ha : p a = false) : (l ++ a :: r).dropWhile p = a :: r := by
  induction l with
  | nil => simp [List.dropWhile_cons, ha]
  | cons c cs ih =>
    rw [List.cons_append, List.dropWhile_cons, hl c (by simp), ih (fun x hx => hl x (by simp [hx]))]
    rfl

theorem takeWhile_pass (p : Char → Bool) (l r : List Char)
    (hl : ∀ x ∈ l, p x = true) : (l ++ r).takeWhile p = l ++ r.takeWhile p := by
  induction l with
  | nil => rfl
  | cons c cs ih =>
    rw [List.cons_append, List.takeWhile_cons, hl c (by simp), ih (fun x hx => hl x (by simp [hx]))]
    rfl

theorem assignCookie_rejected (now : Nat) (pair : List Char) (expires : Int) (jar : CookieJar) :
    assignCookie now false pair expires jar = jar := rfl

theorem dropWhile_all (p : Char → Bool) (l : List Char) (h : ∀ x ∈ l, p x = true) :
    l.dropWhile p = [] := by
  induction l with
  | nil => rfl
  | cons c cs ih =>
    rw [List.dropWhile_cons, h c (by simp)]
    exact ih (fun x hx => h x (by simp [hx]))

theorem cookieAttributes_plain (pair : List Char) (h : ∀ x ∈ pair, x ≠ ';') :
    cookieAttributes pair = [([], [])] := by
  unfold cookieAttributes
  rw [dropWhile_all _ pair (fun x hx => by simpa using h x hx)]
  rfl

theorem assignCookie_plain (now : Nat) (pair : List Char) (expires : Int) (jar : CookieJar)
    (h : ∀ x ∈ pair, x ≠ ';') :
    assignCookie now true pair expires jar =
      if expires ≤ now then
        eraseCookie (String.mk (trimWSP (pair.takeWhile (· ≠ '=')))) jar
      else
        storeCookie (String.mk (trimWSP (pair.takeWhile (· ≠ '='))))
          (String.mk (trimWSP ((pair.dropWhile (· ≠ '=')).drop 1))) jar := by
  have h1 : pair.takeWhile (· ≠ ';') = pair := by
    rw [List.takeWhile_eq_self_iff]
    intro x hx
    simpa using h x hx
  have h2 : maxAge [(([] : List Char), ([] : List Char))] = none := rfl
  have h3 : List.any [(([] : List Char), ([] : List Char))]
      (fun av => decide (av.1 = "httponly".data)) = false := rfl
  unfold assignCookie
  simp only [cookieAttributes_plain pair h, h1, h2, h3, Bool.not_true, Bool.or_self,
    Bool.false_eq_true, if_false, decide_eq_true_eq]

theorem assignCookie_clean (now : Nat) (name v : List Char) (expires : Int) (jar : CookieJar)
    (hname : CleanName name) (hv : ∀ x ∈ v, x ≠ ';') :
    assignCookie now true (name ++ '=' :: v) expires jar =
      if expires ≤ now then eraseCookie (String.mk name) jar
      else storeCookie (String.mk name) (String.mk (trimWSP v)) jar := by
  have hpair : ∀ x ∈ name ++ '=' :: v, x ≠ ';' := by
    intro x hx
    rcases List.mem_append.1 hx with hx | hx
    · exact hname.semicolon x hx
    · rcases List.mem_cons.1 hx with rfl | hx
      · decide
      · exact hv x hx
  have h2 : (name ++ '=' :: v).takeWhile (· ≠ '=') = name :=
    takeWhile_stop _ name _ '=' (fun x hx => by simpa using hname.equals x hx) (by simp)
  have h3 : (name ++ '=' :: v).dropWhile (· ≠ '=') = '=' :: v :=
    dropWhile_stop _ name _ '=' (fun x hx => by simpa using hname.equals x hx) (by simp)
  rw [assignCookie_plain now _ expires jar hpair, h2, h3, hname.trimmed]
  rfl

theorem assignCookie_named (now : Nat) (accepted : Bool) (name v : List Char) (expires : Int)
    (jar : CookieJar) (hname : CleanName name) :
    assignCookie now accepted (name ++ '=' :: v) expires jar = jar ∨
    assignCookie now accepted (name ++ '=' :: v) expires jar = eraseCookie (String.mk name) jar ∨
    ∃ value, (∀ x ∈ value.data, x ≠ ';') ∧
      assignCookie now accepted (name ++ '=' :: v) expires jar
        = storeCookie (String.mk name) value jar := by
  have h1 : (name ++ '=' :: v).takeWhile (· ≠ ';') = name ++ '=' :: v.takeWhile (· ≠ ';') := by
    rw [takeWhile_pass _ name _ (fun x hx => by simpa using hname.semicolon x hx)]
    rw [List.takeWhile_cons]
    simp
  have h2 : (name ++ '=' :: v.takeWhile (· ≠ ';')).takeWhile (· ≠ '=') = name :=
    takeWhile_stop _ name _ '=' (fun x hx => by simpa using hname.equals x hx) (by simp)
  unfold assignCookie
  simp only [h1, h2, hname.trimmed]
  split_ifs
  · exact Or.inl rfl
  · exact Or.inr (Or.inl rfl)
  · refine Or.inr (Or.inr ⟨_, ?_, rfl⟩)
    intro x hx
    have hx1 := mem_trimWSP _ _ hx
    have hx2 := List.mem_of_mem_drop hx1
    have hx3 := (List.dropWhile_sublist _).subset hx2
    rcases List.mem_append.1 hx3 with hx4 | hx4
    · exact hname.semicolon x hx4
    · rcases List.mem_cons.1 hx4 with rfl | hx5
      · decide
      · simpa using List.mem_takeWhile_imp hx5

theorem deleteCookie_cookies (n : String) (w : World) (h : w.acceptsDomain = true)
    (hn : ∀ x ∈ n.data, x ≠ ';') :
    (deleteCookie n w).cookies = eraseCookie (parsedName n.data) w.cookies := by
  have hpair : ∀ x ∈ n.data ++ ['='], x ≠ ';' := by
    intro x hx
    rcases List.mem_append.1 hx with hx | hx
    · exact hn x hx
    · rw [List.mem_singleton] at hx
      rw [hx]
      decide
  have h1 : (n.data ++ ['=']).takeWhile (· ≠ ';') = n.data ++ ['='] := by
    rw [List.takeWhile_eq_self_iff]
    intro x hx
    simpa using hpair x hx
  simp only [deleteCookie, h, parsedName, h1]
  rw [assignCookie_plain _ _ _ _ hpair, if_pos (by exact_mod_cast Nat.zero_le w.now)]

theorem deleteCookie_rejected (n : String) (w : World) (h : w.acceptsDomain = false) :
    deleteCookie n w = w := by
  simp only [deleteCookie, h, assignCookie_rejected]

theorem eraseCookie_eq_filter (n : String) (jar : CookieJar) :
    eraseCookie n jar = jar.filter (fun e => decide (e.1 ≠ n)) := by
  induction jar with
  | nil => rfl
  | cons e rest ih =>
    obtain ⟨m, v⟩ := e
    by_cases h : m = n
    · simp [eraseCookie, h, ih]
    · simp [eraseCookie, h, ih]

theorem mem_eraseCookie (n : String) (jar : CookieJar) (e : String × String) :
    e ∈ eraseCookie n jar ↔ e ∈ jar ∧ e.1 ≠ n := by
  rw [eraseCookie_eq_filter]
  simp

theorem eraseCookie_wf (n : String) (jar : CookieJar) (h : WellFormedJar jar) :
    WellFormedJar (eraseCookie n jar) := by
  have hs : List.Sublist (eraseCookie n jar) jar := by
    rw [eraseCookie_eq_filter]; exact List.filter_sublist _
  exact ⟨(h.names_nodup).sublist (hs.map _),
    fun e he => h.name_semicolon e (hs.subset he),
    fun e he => h.name_equals e (hs.subset he),
    fun e he => h.value_semicolon e (hs.subset he)⟩

theorem mem_storeCookie_self (n v : String) (jar : CookieJar) : (n, v) ∈ storeCookie n v jar := by
  induction jar with
  | nil => simp [storeCookie]
  | cons e rest ih =>
    obtain ⟨m, x⟩ := e
    by_cases h : m = n
    · simp [storeCookie, h]
    · simp [storeCookie, h, ih]

theorem mem_storeCookie_other (n v : String) (jar : CookieJar) (e : String × String)
    (hne : e.1 ≠ n) : e ∈ storeCookie n v jar ↔ e ∈ jar := by
  induction jar with
  | nil =>
    simp only [storeCookie, List.mem_singleton, List.not_mem_nil, iff_false]
    intro h; apply hne; rw [h]
  | cons e' rest ih =>
    obtain ⟨m, x⟩ := e'
    by_cases h : m = n
    · subst h
      simp only [storeCookie, if_true, List.mem_cons]
      constructor
      · rintro (h | h)
        · exact absurd (by rw [h]) hne
        · exact Or.inr h
      · rintro (h | h)
        · exact absurd (by rw [h]) hne
        · exact Or.inr h
    · simp only [storeCookie, h, if_false, List.mem_cons, ih]

theorem mem_storeCookie (n v : String) (jar : CookieJar) (e : String × String)
    (h : e ∈ storeCookie n v jar) : e = (n, v) ∨ e ∈ jar := by
  induction jar with
  | nil => left; simpa [storeCookie] using h
  | cons e' rest ih =>
    obtain ⟨m, x⟩ := e'
    by_cases hm : m = n
    · simp only [storeCookie, hm, if_true, List.mem_cons] at h
      rcases h with h | h
      · left; exact h
      · right; simp [h]
    · simp only [storeCookie, hm, if_false, List.mem_cons] at h
      rcases h with h | h
      · right; simp [h]
      · rcases ih h with h' | h'
        · left; exact h'
        · right; simp [h']

theorem names_storeCookie (n v : String) (jar : CookieJar) :
    (storeCookie n v jar).map Prod.fst =
      if n ∈ jar.map Prod.fst then jar.map Prod.fst else jar.map Prod.fst ++ [n] := by
  induction jar with
  | nil => simp [storeCookie]
  | cons e rest ih =>
    obtain ⟨m, x⟩ := e
    by_cases h : m = n
    · simp [storeCookie, h]
    · have h' : ¬ n = m := fun e => h e.symm
      simp only [storeCookie, h, if_false, List.map_cons, ih, List.mem_cons, h', false_or]
      split_ifs <;> simp

theorem storeCookie_wf (n v : String) (jar : CookieJar) (h : WellFormedJar jar)
    (h1 : ∀ x ∈ n.data, x ≠ ';') (h2 : ∀ x ∈ n.data, x ≠ '=') (h3 : ∀ x ∈ v.data, x ≠ ';') :
    WellFormedJar (storeCookie n v jar) := by
  refine ⟨?_, ?_, ?_, ?_⟩
  · rw [names_storeCookie]
    split_ifs with hn
    · exact h.names_nodup
    · exact List.Nodup.append h.names_nodup (List.nodup_singleton n)
        (by
          intro a ha hb
          rw [List.mem_singleton] at hb
          exact hn (hb ▸ ha))
  · intro e he
    rcases mem_storeCookie n v jar e he with h' | h'
    · rw [h']; exact h1
    · exact h.name_semicolon e h'
  · intro e he
    rcases mem_storeCookie n v jar e he with h' | h'
    · rw [h']; exact h2
    · exact h.name_equals e h'
  · intro e he
    rcases mem_storeCookie n v jar e he with h' | h'
    · rw [h']; exact h3
    · exact h.value_semicolon e h'

theorem assignCookie_wf (now : Nat) (accepted : Bool) (pair : List Char) (expires : Int)
    (jar : CookieJar) (h : WellFormedJar jar) :
    WellFormedJar (assignCookie now accepted pair expires jar) := by
  unfold assignCookie
  simp only
  split_ifs
  · exact h
  · exact eraseCookie_wf _ _ h
  · apply storeCookie_wf _ _ _ h
    · intro x hx
      have h1 := mem_trimWSP _ _ hx
      have h2 := (List.takeWhile_sublist _).subset h1
      simpa using List.mem_takeWhile_imp h2
    · intro x hx
      have h1 := mem_trimWSP _ _ hx
      simpa using List.mem_takeWhile_imp h1
    · intro x hx
      have h1 := mem_trimWSP _ _ hx
      have h2 := List.mem_of_mem_drop h1
      have h3 := (List.dropWhile_sublist _).subset h2
      simpa using List.mem_takeWhile_imp h3

/-! ## `decodeURIComponent` undoes `encodeURIComponent` -/

theorem hexValue_hexDigitUpper (x : Nat) (h : x < 16) : hexValue (hexDigitUpper x) = some x := by
  interval_cases x <;> rfl

theorem percentTokens_percentByte (b : Nat) (hb : b < 256) (rest : List Char) :
    percentTokens (percentByte b ++ rest) =
      (percentTokens rest).map (fun ts => URIToken.byte b :: ts) := by
  have h1 := hexValue_hexDigitUpper (b / 16) (by omega)
  have h2 := hexValue_hexDigitUpper (b % 16) (by omega)
  have h3 : 16 * (b / 16) + b % 16 = b := by omega
  have h4 : percentByte b ++ rest = '%' :: hexDigitUpper (b / 16) :: hexDigitUpper (b % 16) :: rest :=
    rfl
  rw [h4]
  simp only [percentTokens, if_true, h1, h2, h3]
  cases percentTokens rest <;> rfl

theorem charOfCode_toNat (c : Char) : charOfCode c.toNat = some c := by
  unfold charOfCode
  have h : c.toNat.isValidChar := c.valid
  rw [dif_pos h]
  rfl

theorem char_valid_cases (c : Char) :
    c.toNat < 55296 ∨ (57343 < c.toNat ∧ c.toNat < 1114112) := c.valid

theorem decodeTokens_len1 (b : Nat) (ts : List URIToken) (h : sequenceLength b = 1) :
    decodeTokens (.byte b :: ts) = consDecoded (Char.ofNat b) (decodeTokens ts) := by
  rw [decodeTokens.eq_def]
  simp only [h, if_true]

theorem decodeTokens_len2 (b b2 : Nat) (ts : List URIToken) (h : sequenceLength b = 2) :
    decodeTokens (.byte b :: .byte b2 :: ts) = consDecoded? (decodeTwo b b2) (decodeTokens ts) := by
  rw [decodeTokens.eq_def]
  simp only [h]
  rfl

theorem decodeTokens_len3 (b b2 b3 : Nat) (ts : List URIToken) (h : sequenceLength b = 3) :
    decodeTokens (.byte b :: .byte b2 :: .byte b3 :: ts)
      = consDecoded? (decodeThree b b2 b3) (decodeTokens ts) := by
  rw [decodeTokens.eq_def]
  simp only [h]
  rfl

theorem decodeTokens_len4 (b b2 b3 b4 : Nat) (ts : List URIToken) (h : sequenceLength b = 4) :
    decodeTokens (.byte b :: .byte b2 :: .byte b3 :: .byte b4 :: ts)
      = consDecoded? (decodeFour b b2 b3 b4) (decodeTokens ts) := by
  rw [decodeTokens.eq_def]
  simp only [h]
  rfl

theorem consDecoded?_some (c : Char) (r : Option (List Char)) :
    consDecoded? (some c) r = consDecoded c r := by
  cases r <;> rfl

theorem decodeTokens_utf8 (c : Char) (ts : List URIToken) :
    decodeTokens ((utf8Bytes c.toNat).map URIToken.byte ++ ts) = consDecoded c (decodeTokens ts) := by
  have hv := char_valid_cases c
  have hc := charOfCode_toNat c
  have ho := Char.ofNat_toNat c
  generalize c.toNat = n at hv hc ho
  unfold utf8Bytes
  split_ifs with h1 h2 h3
  · have hs : sequenceLength n = 1 := by simp [sequenceLength, h1]
    simp only [List.map_cons, List.map_nil, List.cons_append, List.nil_append]
    rw [decodeTokens_len1 _ _ hs, ho]
  · have hs : sequenceLength (192 + n / 64) = 2 := by
      unfold sequenceLength
      rw [if_neg (by omega), if_pos (by omega)]
    have hd : decodeTwo (192 + n / 64) (128 + n % 64) = some c := by
      have : (192 + n / 64 - 192) * 64 + (128 + n % 64 - 128) = n := by omega
      have hcont : isContinuation (128 + n % 64) = true := by
        simp only [isContinuation, Bool.and_eq_true, decide_eq_true_eq]; omega
      unfold decodeTwo
      rw [this, if_pos ⟨hcont, by omega⟩, hc]
    simp only [List.map_cons, List.map_nil, List.cons_append, List.nil_append]
    rw [decodeTokens_len2 _ _ _ hs, hd, consDecoded?_some]
  · have hs : sequenceLength (224 + n / 4096) = 3 := by
      unfold sequenceLength
      rw [if_neg (by omega), if_neg (by omega), if_pos (by omega)]
    have hd : decodeThree (224 + n / 4096) (128 + n / 64 % 64) (128 + n % 64) = some c := by
      have : (224 + n / 4096 - 224) * 4096 + (128 + n / 64 % 64 - 128) * 64
          + (128 + n % 64 - 128) = n := by omega
      have hcont : isContinuation (128 + n % 64) = true := by
        simp only [isContinuation, Bool.and_eq_true, decide_eq_true_eq]; omega
      have hcont2 : isContinuation (128 + n / 64 % 64) = true := by
        simp only [isContinuation, Bool.and_eq_true, decide_eq_true_eq]; omega
      unfold decodeThree
      rw [this, if_pos ⟨hcont2, hcont, by omega⟩, hc]
    simp only [List.map_cons, List.map_nil, List.cons_append, List.nil_append]
    rw [decodeTokens_len3 _ _ _ _ hs, hd, consDecoded?_some]
  · have hs : sequenceLength (240 + n / 262144) = 4 := by
      unfold sequenceLength
      rw [if_neg (by omega), if_neg (by omega), if_neg (by omega), if_pos (by omega)]
    have hd : decodeFour (240 + n / 262144) (128 + n / 4096 % 64) (128 + n / 64 % 64)
        (128 + n % 64) = some c := by
      have : (240 + n / 262144 - 240) * 262144 + (128 + n / 4096 % 64 - 128) * 4096
          + (128 + n / 64 % 64 - 128) * 64 + (128 + n % 64 - 128) = n := by omega
      have hcont : isContinuation (128 + n % 64) = true := by
        simp only [isContinuation, Bool.and_eq_true, decide_eq_true_eq]; omega
      have hcont2 : isContinuation (128 + n / 64 % 64) = true := by
        simp only [isContinuation, Bool.and_eq_true, decide_eq_true_eq]; omega
      have hcont3 : isContinuation (128 + n / 4096 % 64) = true := by
        simp only [isContinuation, Bool.and_eq_true, decide_eq_true_eq]; omega
      unfold decodeFour
      rw [this, if_pos ⟨hcont3, hcont2, hcont, by omega⟩, hc]
    simp only [List.map_cons, List.map_nil, List.cons_append, List.nil_append]
    rw [decodeTokens_len4 _ _ _ _ _ hs, hd, consDecoded?_some]

theorem utf8Bytes_lt (n : Nat) (h : n < 1114112) : ∀ b ∈ utf8Bytes n, b < 256 := by
  unfold utf8Bytes
  split_ifs <;> simp <;> omega

theorem percentTokens_percentBytes (bs : List Nat) (hb : ∀ b ∈ bs, b < 256) (rest : List Char) :
    percentTokens (percentBytes bs ++ rest) =
      (percentTokens rest).map (fun ts => bs.map URIToken.byte ++ ts) := by
  induction bs with
  | nil => simp only [percentBytes, List.nil_append, List.map_nil]; cases percentTokens rest <;> rfl
  | cons b bs ih =>
    rw [percentBytes, List.append_assoc, percentTokens_percentByte b (hb b (by simp)),
      ih (fun x hx => hb x (by simp [hx]))]
    cases percentTokens rest <;> rfl

theorem isUnreserved_ne_percent (c : Char) (h : isUnreserved c = true) : c ≠ '%' := by
  intro hc
  rw [hc] at h
  exact absurd h (by decide)

theorem percentTokens_encodeURIChar (c : Char) (rest : List Char) :
    percentTokens (encodeURIChar c ++ rest) =
      (percentTokens rest).map (fun ts => charTokens c ++ ts) := by
  unfold encodeURIChar charTokens
  split_ifs with h
  · have hne := isUnreserved_ne_percent c h
    show percentTokens (c :: rest) = _
    rw [percentTokens.eq_def]
    simp only [hne, if_false]
    cases percentTokens rest <;> rfl
  · have hv := char_valid_cases c
    exact percentTokens_percentBytes _ (utf8Bytes_lt _ (by omega)) rest

theorem decodeTokens_charTokens (c : Char) (ts : List URIToken) :
    decodeTokens (charTokens c ++ ts) = consDecoded c (decodeTokens ts) := by
  unfold charTokens
  split_ifs with h
  · show decodeTokens (.lit c :: ts) = _
    rw [decodeTokens.eq_def]
  · exact decodeTokens_utf8 c ts

theorem decode_encodeURIChars (s : List Char) :
    ∃ ts, percentTokens (encodeURIChars s) = some ts ∧ decodeTokens ts = some s := by
  induction s with
  | nil => exact ⟨[], rfl, rfl⟩
  | cons c cs ih =>
    obtain ⟨ts, h1, h2⟩ := ih
    refine ⟨charTokens c ++ ts, ?_, ?_⟩
    · rw [encodeURIChars, percentTokens_encodeURIChar, h1]; rfl
    · rw [decodeTokens_charTokens, h2]; rfl

theorem decodeURIComponent_encodeURIComponent (s : String) :
    decodeURIComponent (encodeURIComponent s) = some s := by
  obtain ⟨ts, h1, h2⟩ := decode_encodeURIChars s.data
  simp only [decodeURIComponent, encodeURIComponent, h1, h2]

theorem hexDigitUpper_unreserved (x : Nat) (h : x < 16) : isUnreserved (hexDigitUpper x) = true := by
  interval_cases x <;> rfl

theorem mem_percentBytes (bs : List Nat) (hb : ∀ b ∈ bs, b < 256) :
    ∀ x ∈ percentBytes bs, isUnreserved x = true ∨ x = '%' := by
  induction bs with
  | nil => intro x hx; simp [percentBytes] at hx
  | cons b bs ih =>
    intro x hx
    simp only [percentBytes, percentByte, List.cons_append, List.nil_append, List.mem_cons] at hx
    have hb' := hb b (by simp)
    rcases hx with h | h | h | h
    · right; exact h
    · left; rw [h]; exact hexDigitUpper_unreserved _ (by omega)
    · left; rw [h]; exact hexDigitUpper_unreserved _ (by omega)
    · exact ih (fun y hy => hb y (by simp [hy])) x h

theorem mem_encodeURIChars (s : List Char) :
    ∀ x ∈ encodeURIChars s, isUnreserved x = true ∨ x = '%' := by
  induction s with
  | nil => intro x hx; simp [encodeURIChars] at hx
  | cons c cs ih =>
    intro x hx
    simp only [encodeURIChars, List.mem_append] at hx
    rcases hx with h | h
    · unfold encodeURIChar at h
      split_ifs at h with hu
      · simp only [List.mem_singleton] at h
        left; rw [h]; exact hu
      · have hv := char_valid_cases c
        exact mem_percentBytes _ (utf8Bytes_lt _ (by omega)) x h
    · exact ih x h

theorem encodeURIChars_semicolon (s : List Char) : ∀ x ∈ encodeURIChars s, x ≠ ';' := by
  intro x hx hc
  rcases mem_encodeURIChars s x hx with h | h
  · rw [hc] at h; exact absurd h (by decide)
  · rw [hc] at h; exact absurd h (by decide)

theorem encodeURIChars_isWSP (s : List Char) : ∀ x ∈ encodeURIChars s, isWSP x = false := by
  intro x hx
  rcases mem_encodeURIChars s x hx with h | h
  · cases hw : isWSP x with
    | false => rfl
    | true =>
      exfalso
      simp only [isWSP, Bool.or_eq_true, decide_eq_true_eq] at hw
      rcases hw with hw | hw <;> (rw [hw] at h; exact absurd h (by decide))
  · rw [h]; rfl

/-! ## Plain objects -/

theorem lookup_none_of_not_mem (k : String) (o : JSObject) (h : k ∉ o.map Prod.fst) :
    lookup k o = none := by
  induction o with
  | nil => rfl
  | cons e rest ih =>
    obtain ⟨k2, v2⟩ := e
    simp only [List.map_cons, List.mem_cons, not_or] at h
    have hne : ¬ k2 = k := fun e => h.1 e.symm
    simp only [lookup, if_neg hne]
    exact ih h.2

theorem lookup_mem (k : String) (v : JSValue) (o : JSObject) (h : lookup k o = some v) :
    (k, v) ∈ o := by
  induction o with
  | nil => simp [lookup] at h
  | cons e rest ih =>
    obtain ⟨k2, v2⟩ := e
    rw [lookup] at h
    split_ifs at h with hk
    · rw [← hk, ← Option.some.inj h]; simp
    · exact List.mem_cons_of_mem _ (ih h)

theorem not_mem_of_lookup_none (k : String) (o : JSObject) (h : lookup k o = none) :
    k ∉ o.map Prod.fst := by
  induction o with
  | nil => simp
  | cons e rest ih =>
    obtain ⟨k2, v2⟩ := e
    rw [lookup] at h
    split_ifs at h with hk
    simp only [List.map_cons, List.mem_cons, not_or]
    exact ⟨fun heq => hk heq.symm, ih h⟩

theorem lookup_replaceProp (k k' : String) (v : JSValue) (o : JSObject)
    (h : (lookup k' o).isSome = true) :
    lookup k (replaceProp k' v o) = if k' = k then some v else lookup k o := by
  induction o with
  | nil => simp [lookup] at h
  | cons e rest ih =>
    obtain ⟨k2, v2⟩ := e
    by_cases h2 : k2 = k'
    · subst h2
      simp only [replaceProp, if_true, lookup]
      split_ifs <;> rfl
    · rw [lookup, if_neg h2] at h
      simp only [replaceProp, h2, if_false, lookup, ih h]
      by_cases h3 : k2 = k
      · have h4 : ¬ k' = k := fun e => h2 (h3.trans e.symm)
        simp [h3, h4]
      · simp [h3]

theorem lookup_insertIndexed (k k' : String) (i : Nat) (v : JSValue) (o : JSObject)
    (h : lookup k' o = none) :
    lookup k (insertIndexed i k' v o) = if k' = k then some v else lookup k o := by
  induction o with
  | nil => simp [insertIndexed, lookup]
  | cons e rest ih =>
    obtain ⟨k2, v2⟩ := e
    have h2 : ¬ k2 = k' := by
      intro heq
      rw [lookup, if_pos heq] at h
      exact absurd h (by simp)
    rw [lookup, if_neg h2] at h
    have hins : ∀ tail : JSObject,
        lookup k ((k', v) :: (k2, v2) :: tail) =
          if k' = k then some v else lookup k ((k2, v2) :: tail) := by
      intro tail
      rw [lookup]
    rw [insertIndexed]
    cases arrayIndex k2 with
    | none => exact hins rest
    | some j =>
      simp only
      by_cases hj : j < i
      · rw [if_pos hj, lookup, ih h]
        by_cases hk : k' = k
        · have h3 : ¬ k2 = k := fun heq => h2 (heq.trans hk.symm)
          rw [if_neg h3, if_pos hk, if_pos hk]
        · rw [if_neg hk, if_neg hk, lookup]
      · rw [if_neg hj]
        exact hins rest

theorem lookup_append_single (k k' : String) (v : JSValue) (o : JSObject)
    (h : lookup k' o = none) :
    lookup k (o ++ [(k', v)]) = if k' = k then some v else lookup k o := by
  induction o with
  | nil => simp [lookup]
  | cons e rest ih =>
    obtain ⟨k2, v2⟩ := e
    have h2 : ¬ k2 = k' := by
      intro heq
      rw [lookup, if_pos heq] at h
      exact absurd h (by simp)
    rw [lookup, if_neg h2] at h
    rw [List.cons_append, lookup, ih h, lookup]
    by_cases h3 : k2 = k
    · have h4 : ¬ k' = k := fun e => h2 (h3.trans e.symm)
      simp [h3, h4]
    · simp [h3]

theorem lookup_setProp (k k' : String) (v : JSValue) (o : JSObject) :
    lookup k (setProp k' v o) = if k' = k then some v else lookup k o := by
  unfold setProp
  cases h : lookup k' o with
  | some x =>
    simp only [Option.isSome_some, if_true]
    exact lookup_replaceProp k k' v o (by rw [h]; rfl)
  | none =>
    simp only [Option.isSome_none, Bool.false_eq_true, if_false]
    cases arrayIndex k' with
    | none => exact lookup_append_single k k' v o h
    | some i => exact lookup_insertIndexed k k' i v o h

theorem lookup_assignProps (k : String) (target src : JSObject)
    (hnd : (src.map Prod.fst).Nodup) :
    lookup k (assignProps target src) = firstSome (lookup k src) (lookup k target) := by
  induction src generalizing target with
  | nil => rfl
  | cons e rest ih =>
    obtain ⟨k2, v2⟩ := e
    simp only [List.map_cons, List.nodup_cons] at hnd
    rw [assignProps, ih _ hnd.2, lookup_setProp]
    by_cases h : k2 = k
    · subst h
      rw [lookup_none_of_not_mem _ _ hnd.1]
      simp [lookup, firstSome]
    · simp [lookup, h]

theorem mem_replaceProp (k : String) (v : JSValue) (o : JSObject) (e : String × JSValue)
    (h : e ∈ replaceProp k v o) : e = (k, v) ∨ e ∈ o := by
  induction o with
  | nil => simp [replaceProp] at h
  | cons e2 rest ih =>
    obtain ⟨k2, v2⟩ := e2
    rw [replaceProp] at h
    split_ifs at h
    · rcases List.mem_cons.1 h with h | h
      · exact Or.inl h
      · exact Or.inr (List.mem_cons_of_mem _ h)
    · rcases List.mem_cons.1 h with h | h
      · exact Or.inr (by rw [h]; simp)
      · rcases ih h with h | h
        · exact Or.inl h
        · exact Or.inr (List.mem_cons_of_mem _ h)

theorem mem_insertIndexed (i : Nat) (k : String) (v : JSValue) (o : JSObject)
    (e : String × JSValue) (h : e ∈ insertIndexed i k v o) : e = (k, v) ∨ e ∈ o := by
  induction o with
  | nil => simpa [insertIndexed] using h
  | cons e2 rest ih =>
    obtain ⟨k2, v2⟩ := e2
    rw [insertIndexed] at h
    cases hk : arrayIndex k2 with
    | none =>
      rw [hk] at h
      rcases List.mem_cons.1 h with h | h
      · exact Or.inl h
      · exact Or.inr h
    | some j =>
      rw [hk] at h
      simp only at h
      split_ifs at h
      · rcases List.mem_cons.1 h with h | h
        · exact Or.inr (by rw [h]; simp)
        · rcases ih h with h | h
          · exact Or.inl h
          · exact Or.inr (List.mem_cons_of_mem _ h)
      · rcases List.mem_cons.1 h with h | h
        · exact Or.inl h
        · exact Or.inr h

theorem mem_setProp (k : String) (v : JSValue) (o : JSObject) (e : String × JSValue)
    (h : e ∈ setProp k v o) : e = (k, v) ∨ e ∈ o := by
  unfold setProp at h
  split_ifs at h
  · exact mem_replaceProp k v o e h
  · cases hk : arrayIndex k with
    | none =>
      rw [hk] at h
      rcases List.mem_append.1 h with h | h
      · exact Or.inr h
      · exact Or.inl (by simpa using h)
    | some i =>
      rw [hk] at h
      exact mem_insertIndexed i k v o e h

theorem mem_assignProps (target src : JSObject) (e : String × JSValue)
    (h : e ∈ assignProps target src) : e ∈ target ∨ e ∈ src := by
  induction src generalizing target with
  | nil => exact Or.inl h
  | cons e2 rest ih =>
    obtain ⟨k, v⟩ := e2
    rcases ih _ h with h | h
    · rcases mem_setProp k v target e h with h | h
      · exact Or.inr (by rw [h]; simp)
      · exact Or.inl h
    · exact Or.inr (List.mem_cons_of_mem _ h)

/-! ### Enumeration order -/

theorem arrayIndex_name (k : String) (i : Nat) (h : arrayIndex k = some i) : k = indexName i := by
  unfold arrayIndex at h
  cases hp : parseIndex k with
  | none => rw [hp] at h; simp at h
  | some n =>
    rw [hp] at h
    simp only at h
    split_ifs at h
    have hn : n = i := Option.some.inj h
    subst hn
    unfold parseIndex at hp
    split at hp
    · simp at hp
    · by_cases h1 : (k.data.all Char.isDigit) = true
      · rw [if_pos h1] at hp
        simp only at hp
        by_cases h2 : indexName (List.foldl (fun acc c => 10 * acc + (c.toNat - 48)) 0 k.data) = k
        · rw [if_pos h2] at hp
          rw [← Option.some.inj hp]
          exact h2.symm
        · rw [if_neg h2] at hp
          simp at hp
      · rw [if_neg h1] at hp
        simp at hp

theorem keyBefore_ne (k k' : String) (h : keyBefore k k' = true) : k ≠ k' := by
  intro heq
  subst heq
  unfold keyBefore at h
  cases hk : arrayIndex k with
  | none => rw [hk] at h; simp at h
  | some i => rw [hk] at h; simp at h

theorem keyBefore_index (k k' : String) (i : Nat) (hi : arrayIndex k' = some i)
    (h : keyBefore k k' = true) : ∃ j, arrayIndex k = some j ∧ j < i := by
  unfold keyBefore at h
  rw [hi] at h
  cases hk : arrayIndex k with
  | none => rw [hk] at h; simp at h
  | some j =>
    rw [hk] at h
    exact ⟨j, rfl, by simpa using h⟩

theorem keyBefore_of_index (k k' : String) (i : Nat) (hi : arrayIndex k = some i)
    (h : ∀ j, arrayIndex k' = some j → i < j) : keyBefore k k' = true := by
  unfold keyBefore
  rw [hi]
  cases hk : arrayIndex k' with
  | none => rfl
  | some j => simpa using h j hk

theorem keyBefore_trans (k k' r : String) (i : Nat) (hi : arrayIndex k = some i)
    (h1 : keyBefore k k' = true) (h2 : keyBefore k' r = true) : keyBefore k r = true := by
  apply keyBefore_of_index k r i hi
  intro m hm
  obtain ⟨j, hj, hjm⟩ := keyBefore_index k' r m hm h2
  obtain ⟨i', hi', hij⟩ := keyBefore_index k k' j hj h1
  rw [hi] at hi'
  have : i = i' := Option.some.inj hi'
  omega

theorem keysInOrder_cons (k : String) (rest : List String) :
    keysInOrder (k :: rest) = true ↔
      (∀ k' ∈ rest, keyBefore k k' = true) ∧ keysInOrder rest = true := by
  simp [keysInOrder]

theorem keysInOrder_append (a b : List String) :
    keysInOrder (a ++ b) = true ↔
      keysInOrder a = true ∧ keysInOrder b = true ∧
        ∀ k ∈ a, ∀ k' ∈ b, keyBefore k k' = true := by
  induction a with
  | nil => simp [keysInOrder]
  | cons x rest ih =>
    rw [List.cons_append, keysInOrder_cons, keysInOrder_cons, ih]
    constructor
    · rintro ⟨h1, h2, h3, h4⟩
      refine ⟨⟨fun k' hk => h1 k' (List.mem_append_left _ hk), h2⟩, h3, ?_⟩
      intro k hk k' hk'
      rcases List.mem_cons.1 hk with rfl | hk
      · exact h1 k' (List.mem_append_right _ hk')
      · exact h4 k hk k' hk'
    · rintro ⟨⟨h1, h2⟩, h3, h4⟩
      refine ⟨?_, h2, h3, fun k hk k' hk' => h4 k (List.mem_cons_of_mem _ hk) k' hk'⟩
      intro k' hk'
      rcases List.mem_append.1 hk' with hk' | hk'
      · exact h1 k' hk'
      · exact h4 x (List.mem_cons_self _ _) k' hk'

theorem keys_replaceProp (k : String) (v : JSValue) (o : JSObject) :
    (replaceProp k v o).map Prod.fst = o.map Prod.fst := by
  induction o with
  | nil => rfl
  | cons e rest ih =>
    obtain ⟨k2, v2⟩ := e
    rw [replaceProp]
    split_ifs with h
    · simp [h]
    · simp [ih]

theorem insertIndexed_append (i : Nat) (k : String) (v : JSValue) (o : JSObject)
    (h : ∀ k' ∈ o.map Prod.fst, ∃ j, arrayIndex k' = some j ∧ j < i) :
    insertIndexed i k v o = o ++ [(k, v)] := by
  induction o with
  | nil => rfl
  | cons e rest ih =>
    obtain ⟨k2, v2⟩ := e
    obtain ⟨j, hj, hji⟩ := h k2 (by simp)
    rw [insertIndexed, hj]
    simp only [if_pos hji]
    rw [ih (fun k' hk' => h k' (by simp only [List.map_cons]; exact List.mem_cons_of_mem _ hk'))]
    rfl

theorem setProp_append (k : String) (v : JSValue) (o : JSObject)
    (h : keysInOrder (o.map Prod.fst ++ [k]) = true) : setProp k v o = o ++ [(k, v)] := by
  rw [keysInOrder_append] at h
  obtain ⟨_, _, hb⟩ := h
  have hbk : ∀ k' ∈ o.map Prod.fst, keyBefore k' k = true :=
    fun k' hk' => hb k' hk' k (by simp)
  have hnot : k ∉ o.map Prod.fst := fun hm => keyBefore_ne k k (hbk k hm) rfl
  unfold setProp
  rw [lookup_none_of_not_mem k o hnot]
  simp only [Option.isSome_none, Bool.false_eq_true, if_false]
  cases hk : arrayIndex k with
  | none => rfl
  | some i =>
    exact insertIndexed_append i k v o (fun k' hk' => keyBefore_index k' k i hk (hbk k' hk'))

theorem assignProps_in_order (target src : JSObject)
    (h : keysInOrder ((target ++ src).map Prod.fst) = true) :
    assignProps target src = target ++ src := by
  induction src generalizing target with
  | nil => simp [assignProps]
  | cons e rest ih =>
    obtain ⟨k, v⟩ := e
    have h2 : keysInOrder (((target ++ [(k, v)]) ++ rest).map Prod.fst) = true := by
      simpa using h
    have h1 : keysInOrder (target.map Prod.fst ++ [k]) = true := by
      rw [List.map_append, keysInOrder_append] at h2
      simpa using h2.1
    rw [assignProps, setProp_append k v target h1, ih _ h2]
    simp

theorem assignProps_nil (fields : JSObject) (h : keysInOrder (fields.map Prod.fst) = true) :
    assignProps [] fields = fields := by
  rw [assignProps_in_order [] fields (by simpa using h)]
  rfl

theorem mem_keys_insertIndexed (i : Nat) (k : String) (v : JSValue) (o : JSObject)
    (k' : String) (h : k' ∈ (insertIndexed i k v o).map Prod.fst) :
    k' = k ∨ k' ∈ o.map Prod.fst := by
  obtain ⟨e, he, rfl⟩ := List.mem_map.1 h
  rcases mem_insertIndexed i k v o e he with rfl | he
  · exact Or.inl rfl
  · exact Or.inr (List.mem_map.2 ⟨e, he, rfl⟩)

theorem keysInOrder_insertIndexed (i : Nat) (k : String) (v : JSValue) (o : JSObject)
    (hi : arrayIndex k = some i) (hnot : k ∉ o.map Prod.fst)
    (h : keysInOrder (o.map Prod.fst) = true) :
    keysInOrder ((insertIndexed i k v o).map Prod.fst) = true := by
  induction o with
  | nil => simp [insertIndexed, keysInOrder]
  | cons e rest ih =>
    obtain ⟨k2, v2⟩ := e
    simp only [List.map_cons, List.mem_cons, not_or] at hnot
    rw [List.map_cons, keysInOrder_cons] at h
    have hfront : keyBefore k k2 = true →
        keysInOrder (((k, v) :: (k2, v2) :: rest).map Prod.fst) = true := by
      intro hb
      simp only [List.map_cons]
      rw [keysInOrder_cons, keysInOrder_cons]
      refine ⟨?_, h⟩
      intro k' hk'
      rcases List.mem_cons.1 hk' with rfl | hk'
      · exact hb
      · exact keyBefore_trans k k2 k' i hi hb (h.1 k' hk')
    rw [insertIndexed]
    cases hk2 : arrayIndex k2 with
    | none =>
      apply hfront
      unfold keyBefore
      rw [hi, hk2]
    | some j =>
      simp only
      by_cases hji : j < i
      · rw [if_pos hji, List.map_cons, keysInOrder_cons]
        refine ⟨?_, ih hnot.2 h.2⟩
        intro k' hk'
        rcases mem_keys_insertIndexed i k v rest k' hk' with rfl | hk'
        · unfold keyBefore
          rw [hk2, hi]
          simpa using hji
        · exact h.1 k' hk'
      · rw [if_neg hji]
        apply hfront
        unfold keyBefore
        rw [hi, hk2]
        have hne : j ≠ i := by
          intro heq
          subst heq
          exact hnot.1 ((arrayIndex_name k j hi).trans (arrayIndex_name k2 j hk2).symm)
        simp only [decide_eq_true_eq]
        omega

theorem keysInOrder_append_name (k : String) (l : List String) (hk : arrayIndex k = none)
    (hnot : k ∉ l) (h : keysInOrder l = true) : keysInOrder (l ++ [k]) = true := by
  rw [keysInOrder_append]
  refine ⟨h, by simp [keysInOrder], ?_⟩
  intro k1 hk1 k' hk'
  rw [List.mem_singleton] at hk'
  subst hk'
  unfold keyBefore
  rw [hk]
  cases arrayIndex k1 with
  | some j => rfl
  | none =>
    simp only [bne_iff_ne, ne_eq]
    intro heq
    exact hnot (heq ▸ hk1)

theorem keysInOrder_setProp (k : String) (v : JSValue) (o : JSObject)
    (h : keysInOrder (o.map Prod.fst) = true) :
    keysInOrder ((setProp k v o).map Prod.fst) = true := by
  unfold setProp
  cases hl : lookup k o with
  | some x =>
    simp only [Option.isSome_some, if_true]
    rw [keys_replaceProp]
    exact h
  | none =>
    simp only [Option.isSome_none, Bool.false_eq_true, if_false]
    have hnot := not_mem_of_lookup_none k o hl
    cases hk : arrayIndex k with
    | none =>
      simp only [List.map_append, List.map_cons, List.map_nil]
      exact keysInOrder_append_name k _ hk hnot h
    | some i => exact keysInOrder_insertIndexed i k v o hk hnot h

theorem keysInOrder_assignProps (target src : JSObject)
    (h : keysInOrder (target.map Prod.fst) = true) :
    keysInOrder ((assignProps target src).map Prod.fst) = true := by
  induction src generalizing target with
  | nil => exact h
  | cons e rest ih =>
    obtain ⟨k, v⟩ := e
    exact ih _ (keysInOrder_setProp k v target h)

/-! ## `JSON.parse` undoes `JSON.stringify` on flat objects -/

theorem consChar_none (r : Option (List Char × List Char)) : consChar none r = r := by
  cases r with
  | none => rfl
  | some p => rfl

theorem parseStringFrom_step (st st' : StringState) (out : Option Char) (c : Char)
    (rest : List Char) (hq : ¬ (st.isPlain = true ∧ c = '"'))
    (hs : stringStep st c = some (st', out)) :
    parseStringFrom st (c :: rest) = consChar out (parseStringFrom st' rest) := by
  rw [parseStringFrom, if_neg hq, hs]

theorem parseStringFrom_escape (c e : Char) (rest : List Char) (h : escapeChar e = some c)
    (hu : e ≠ 'u') :
    parseStringFrom .plain ('\\' :: e :: rest) = consChar (some c) (parseStringFrom .plain rest) := by
  rw [parseStringFrom_step .plain .escape none '\\' _ (by decide) (by rfl), consChar_none,
    parseStringFrom_step .escape .plain (some c) e _ (by simp [StringState.isPlain])
      (by simp [stringStep, hu, h])]

theorem hexValue_hexDigitLower (x : Nat) (h : x < 16) : hexValue (hexDigitLower x) = some x := by
  interval_cases x <;> rfl

theorem parseStringFrom_control (c : Char) (rest : List Char) (h : c.toNat < 32) :
    parseStringFrom .plain
      ('\\' :: 'u' :: '0' :: '0' :: hexDigitLower (c.toNat / 16) :: hexDigitLower (c.toNat % 16)
        :: rest) = consChar (some c) (parseStringFrom .plain rest) := by
  have h1 := hexValue_hexDigitLower (c.toNat / 16) (by omega)
  have h2 := hexValue_hexDigitLower (c.toNat % 16) (by omega)
  have h3 : (0 * 16 + 0) * 16 + c.toNat / 16 = c.toNat / 16 := by omega
  have h4 : c.toNat / 16 * 16 + c.toNat % 16 = c.toNat := by omega
  have hc := charOfCode_toNat c
  rw [parseStringFrom_step .plain .escape none '\\' _ (by decide) (by rfl), consChar_none,
    parseStringFrom_step .escape (.hex 4 0 none) none 'u' _ (by simp [StringState.isPlain])
      (by rfl), consChar_none,
    parseStringFrom_step (.hex 4 0 none) (.hex 3 (0 * 16 + 0) none) none '0' _
      (by simp [StringState.isPlain]) (by rfl), consChar_none,
    parseStringFrom_step (.hex 3 (0 * 16 + 0) none) (.hex 2 ((0 * 16 + 0) * 16 + 0) none) none '0' _
      (by simp [StringState.isPlain]) (by rfl), consChar_none,
    parseStringFrom_step (.hex 2 ((0 * 16 + 0) * 16 + 0) none) (.hex 1 (c.toNat / 16) none) none _ _
      (by simp [StringState.isPlain]) (by simp [stringStep, h1]), consChar_none,
    parseStringFrom_step (.hex 1 (c.toNat / 16) none) .plain (some c) _ _
      (by simp [StringState.isPlain])
      (by
        simp only [stringStep, h2, if_true, h4, finishHex, hc]
        rw [if_neg (by omega)])]

theorem parseStringFrom_quoteJSONChar (c : Char) (rest : List Char) :
    parseStringFrom .plain (quoteJSONChar c ++ rest)
      = consChar (some c) (parseStringFrom .plain rest) := by
  have ho := Char.ofNat_toNat c
  unfold quoteJSONChar
  split_ifs with h1 h2 h3 h4 h5 h6 h7 h8
  · rw [h1]; exact parseStringFrom_escape '"' '"' rest (by rfl) (by decide)
  · rw [h2]; exact parseStringFrom_escape '\\' '\\' rest (by rfl) (by decide)
  · rw [h3] at ho; rw [← ho]; exact parseStringFrom_escape _ 'b' rest (by rfl) (by decide)
  · rw [h4] at ho; rw [← ho]; exact parseStringFrom_escape _ 't' rest (by rfl) (by decide)
  · rw [h5] at ho; rw [← ho]; exact parseStringFrom_escape _ 'n' rest (by rfl) (by decide)
  · rw [h6] at ho; rw [← ho]; exact parseStringFrom_escape _ 'f' rest (by rfl) (by decide)
  · rw [h7] at ho; rw [← ho]; exact parseStringFrom_escape _ 'r' rest (by rfl) (by decide)
  · exact parseStringFrom_control c rest h8
  · exact parseStringFrom_step .plain .plain (some c) c rest (by simp [h1])
      (by simp [stringStep, h2, h8])

theorem parseStringBody_quoteJSONBody (s rest : List Char) :
    parseStringBody (quoteJSONBody s ++ '"' :: rest) = some (s, rest) := by
  unfold parseStringBody
  induction s with
  | nil => simp [quoteJSONBody, parseStringFrom, StringState.isPlain]
  | cons c cs ih =>
    rw [quoteJSONBody, List.append_assoc, parseStringFrom_quoteJSONChar, ih]
    rfl
theorem skipSpace_cons (c : Char) (cs : List Char) (h : isJSONSpace c = false) :
    skipSpace (c :: cs) = c :: cs := by
  rw [skipSpace, h]; rfl

theorem serializeJSON_flat_head (v : JSValue) (h : isFlat v = true) :
    ∃ c cs, serializeJSON v = some (c :: cs) ∧ isJSONSpace c = false := by
  cases v with
  | null => exact ⟨_, _, rfl, rfl⟩
  | bool b => cases b <;> exact ⟨_, _, rfl, rfl⟩
  | str s => exact ⟨_, _, rfl, rfl⟩
  | _ => simp [isFlat] at h

theorem parseValue_flat (v : JSValue) (h : isFlat v = true) :
    ∃ sv, serializeJSON v = some sv ∧
      ∀ (fuel : Nat) (tail : List Char), parseValue (fuel + 1) (sv ++ tail) = some (v, tail) := by
  cases v with
  | null =>
    refine ⟨_, rfl, fun fuel tail => ?_⟩
    show parseValue (fuel + 1) ('n' :: 'u' :: 'l' :: 'l' :: tail) = _
    rw [parseValue]
    simp [skipSpace, isJSONSpace, parseWord]
  | bool b =>
    cases b
    · refine ⟨_, rfl, fun fuel tail => ?_⟩
      show parseValue (fuel + 1) ('f' :: 'a' :: 'l' :: 's' :: 'e' :: tail) = _
      rw [parseValue]
      simp [skipSpace, isJSONSpace, parseWord]
    · refine ⟨_, rfl, fun fuel tail => ?_⟩
      show parseValue (fuel + 1) ('t' :: 'r' :: 'u' :: 'e' :: tail) = _
      rw [parseValue]
      simp [skipSpace, isJSONSpace, parseWord]
  | str s =>
    refine ⟨_, rfl, fun fuel tail => ?_⟩
    have ht : quoteJSONString s.data ++ tail = '"' :: (quoteJSONBody s.data ++ '"' :: tail) := by
      simp [quoteJSONString]
    rw [ht, parseValue, skipSpace_cons _ _ (by rfl)]
    simp [parseStringBody_quoteJSONBody]
  | _ => simp [isFlat] at h

theorem serializeMembers_cons_flat (k : String) (v : JSValue) (rest : JSObject)
    (sv : List Char) (hsv : serializeJSON v = some sv) :
    serializeMembers ((k, v) :: rest) =
      '"' :: (quoteJSONBody k.data ++ '"' :: ':' :: (sv ++
        match serializeMembers rest with
        | [] => []
        | more => ',' :: more)) := by
  rw [serializeMembers, hsv]
  simp only [quoteJSONString]
  cases serializeMembers rest <;> simp

theorem serializeMembers_flat_head (fields : JSObject) (hne : fields ≠ [])
    (hflat : ∀ e ∈ fields, isFlat e.2 = true) :
    ∃ t, serializeMembers fields = '"' :: t := by
  cases fields with
  | nil => exact absurd rfl hne
  | cons e rest =>
    obtain ⟨k, v⟩ := e
    obtain ⟨c, cs, hsv, _⟩ := serializeJSON_flat_head v (hflat (k, v) (by simp))
    rw [serializeMembers_cons_flat k v rest _ hsv]
    exact ⟨_, rfl⟩

theorem parseMembers_flat (fields : JSObject) (hne : fields ≠ [])
    (hflat : ∀ e ∈ fields, isFlat e.2 = true) (fuel : Nat) (hfuel : fields.length + 1 ≤ fuel)
    (acc : JSObject) (tail : List Char) :
    parseMembers fuel (serializeMembers fields ++ '}' :: tail) acc
      = some (.obj (assignProps acc fields), tail) := by
  induction fields generalizing fuel acc with
  | nil => exact absurd rfl hne
  | cons e rest ih =>
    obtain ⟨k, v⟩ := e
    obtain ⟨f, rfl⟩ : ∃ f, fuel = f + 1 := ⟨fuel - 1, by simp at hfuel; omega⟩
    obtain ⟨f', rfl⟩ : ∃ f', f = f' + 1 := ⟨f - 1, by simp at hfuel; omega⟩
    have hflat' : ∀ e ∈ rest, isFlat e.2 = true := fun e he => hflat e (by simp [he])
    obtain ⟨sv, hsv, hpv⟩ := parseValue_flat v (hflat (k, v) (by simp))
    rw [serializeMembers_cons_flat k v rest sv hsv]
    by_cases hr : rest = []
    · subst hr
      simp only [serializeMembers, List.append_nil, List.cons_append, List.append_assoc]
      rw [parseMembers]
      simp only [if_true, parseStringBody_quoteJSONBody, skipSpace_cons ':' _ (by rfl), hpv,
        skipSpace_cons '}' _ (by rfl)]
      simp [assignProps]
    · obtain ⟨t, ht⟩ := serializeMembers_flat_head rest hr hflat'
      have hih := ih hr hflat' (f' + 1) (by simp at hfuel ⊢; omega) (setProp k v acc)
      rw [ht] at hih ⊢
      simp only [List.cons_append, List.append_assoc]
      rw [parseMembers]
      simp only [if_true, parseStringBody_quoteJSONBody, skipSpace_cons ':' _ (by rfl), hpv,
        skipSpace_cons ',' _ (by rfl), skipSpace_cons '"' _ (by rfl)]
      simp only [List.cons_append] at hih
      simp [hih, assignProps]

theorem serializeMembers_length (fields : JSObject) (hflat : ∀ e ∈ fields, isFlat e.2 = true) :
    fields.length ≤ (serializeMembers fields).length := by
  induction fields with
  | nil => simp
  | cons e rest ih =>
    obtain ⟨k, v⟩ := e
    obtain ⟨sv, hsv, _⟩ := parseValue_flat v (hflat (k, v) (by simp))
    have hr := ih (fun e he => hflat e (by simp [he]))
    rw [serializeMembers_cons_flat k v rest sv hsv]
    cases hm : serializeMembers rest with
    | nil =>
      rw [hm] at hr
      simp only [List.length_nil] at hr
      simp only [List.length_cons, List.length_append]
      omega
    | cons c cs =>
      rw [hm] at hr
      simp only [List.length_cons] at hr
      simp only [List.length_cons, List.length_append]
      omega

theorem parse_stringify_flat (fields : JSObject) (hflat : ∀ e ∈ fields, isFlat e.2 = true) :
    ∃ text, JSON.stringify (.obj fields) = .str text ∧
      JSON.parse text = some (.obj (assignProps [] fields)) := by
  refine ⟨String.mk ('{' :: (serializeMembers fields ++ ['}'])), rfl, ?_⟩
  have hlen := serializeMembers_length fields hflat
  unfold JSON.parse
  simp only [List.length_cons, List.length_append, List.length_nil]
  by_cases hne : fields = []
  · subst hne
    simp [serializeMembers, parseValue, skipSpace, isJSONSpace, assignProps]
  · obtain ⟨t, ht⟩ := serializeMembers_flat_head fields hne hflat
    rw [ht] at hlen
    simp only [List.length_cons] at hlen
    have hpm := parseMembers_flat fields hne hflat (t.length + 1 + 2) (by omega) [] []
    rw [ht] at hpm
    rw [parseValue, skipSpace_cons '{' _ (by rfl)]
    simp only [if_true, ht, List.cons_append, skipSpace_cons '"' _ (by rfl)]
    simp only [List.cons_append] at hpm
    simp [hpm, skipSpace]

/-! ## `JSON.parse` undoes `JSON.stringify` on every JSON value -/

theorem digitChar_isDigit (k : Nat) (h : k < 10) :
    (Nat.digitChar k).isDigit = true ∧ (Nat.digitChar k).toNat - 48 = k ∧
      (Nat.digitChar k = '0' → k = 0) := by
  interval_cases k <;> decide

theorem digitsValue_append (a : List Char) (c : Char) :
    digitsValue (a ++ [c]) = 10 * digitsValue a + (c.toNat - 48) := by
  simp [digitsValue, List.foldl_append]

theorem toDigitsCore_spec (fuel : Nat) : ∀ (n : Nat) (ds : List Char), n < fuel →
    ∃ body, Nat.toDigitsCore 10 fuel n ds = body ++ ds ∧ body ≠ [] ∧
      (∀ c ∈ body, c.isDigit = true) ∧ digitsValue body = n ∧
      (n ≠ 0 → body.head? ≠ some '0') := by
  induction fuel with
  | zero => intro n ds h; omega
  | succ fuel ih =>
    intro n ds h
    obtain ⟨hd1, hd2, hd3⟩ := digitChar_isDigit (n % 10) (Nat.mod_lt _ (by decide))
    rw [Nat.toDigitsCore]
    by_cases h0 : n / 10 = 0
    · simp only [h0, if_true]
      refine ⟨[Nat.digitChar (n % 10)], rfl, by simp, by simpa using hd1, ?_, ?_⟩
      · simp only [digitsValue, List.foldl_cons, List.foldl_nil]
        omega
      · intro hn hh
        simp only [List.head?_cons, Option.some.injEq] at hh
        have := hd3 hh
        omega
    · simp only [h0, if_false]
      obtain ⟨body, hb1, hb2, hb3, hb4, hb5⟩ := ih (n / 10) (Nat.digitChar (n % 10) :: ds) (by omega)
      refine ⟨body ++ [Nat.digitChar (n % 10)], by rw [hb1]; simp, by simp, ?_, ?_, ?_⟩
      · intro c hc
        rcases List.mem_append.1 hc with hc | hc
        · exact hb3 c hc
        · rw [List.mem_singleton] at hc
          rw [hc]; exact hd1
      · rw [digitsValue_append, hb4, hd2]
        omega
      · intro _
        cases body with
        | nil => exact absurd rfl hb2
        | cons b bs => simpa using hb5 h0

theorem toDigits_spec (n : Nat) :
    Nat.toDigits 10 n ≠ [] ∧ (∀ c ∈ Nat.toDigits 10 n, c.isDigit = true) ∧
      digitsValue (Nat.toDigits 10 n) = n ∧
      (n ≠ 0 → (Nat.toDigits 10 n).head? ≠ some '0') := by
  obtain ⟨body, h1, h2, h3, h4, h5⟩ := toDigitsCore_spec (n + 1) n [] (by omega)
  rw [List.append_nil] at h1
  unfold Nat.toDigits
  rw [h1]
  exact ⟨h2, h3, h4, h5⟩

theorem takeWhile_digits (ds rest : List Char) (h : ∀ c ∈ ds, c.isDigit = true)
    (hr : ∀ c r, rest = c :: r → c.isDigit = false) :
    (ds ++ rest).takeWhile Char.isDigit = ds ∧ (ds ++ rest).dropWhile Char.isDigit = rest := by
  induction ds with
  | nil =>
    cases rest with
    | nil => simp
    | cons c r => simp [hr c r rfl]
  | cons d ds ih =>
    have hd := h d (by simp)
    have := ih (fun c hc => h c (by simp [hc]))
    simp [hd, this.1, this.2]
theorem delimited_head (tail : List Char) (h : delimited tail = true) (c : Char) (r : List Char)
    (hc : tail = c :: r) : c = ',' ∨ c = '}' ∨ c = ']' := by
  subst hc
  simpa [delimited, or_assoc] using h

theorem parseExponent_delimited (tail : List Char) (h : delimited tail = true) :
    parseExponent tail = some (0, tail) := by
  cases tail with
  | nil => rfl
  | cons c r =>
    have hc := delimited_head _ h c r rfl
    have hne : ¬ (c = 'e' ∨ c = 'E') := by
      rcases hc with rfl | rfl | rfl <;> decide
    simp only [parseExponent, if_neg hne]

theorem parseFraction_plain (cs : List Char) (h : ∀ c r, cs = c :: r → c ≠ '.') :
    parseFraction cs = some ([], cs) := by
  cases cs with
  | nil => rfl
  | cons c r => simp only [parseFraction, if_neg (h c r rfl)]

theorem delimited_not_digit (tail : List Char) (h : delimited tail = true) :
    ∀ c r, tail = c :: r → c.isDigit = false := by
  intro c r hc
  rcases delimited_head _ h c r hc with rfl | rfl | rfl <;> decide

theorem intDigits_natAbs (e : Int) :
    (0 ≤ e ∧ intDigits e = Nat.toDigits 10 e.natAbs) ∨
      (e < 0 ∧ intDigits e = '-' :: Nat.toDigits 10 e.natAbs) := by
  unfold intDigits
  by_cases h : e < 0
  · exact Or.inr ⟨h, by rw [if_pos h]⟩
  · exact Or.inl ⟨by omega, by rw [if_neg h]⟩

theorem toDigits_head (n : Nat) : ∃ d ds, Nat.toDigits 10 n = d :: ds ∧ d.isDigit = true := by
  obtain ⟨h1, h2, _, _⟩ := toDigits_spec n
  cases hd : Nat.toDigits 10 n with
  | nil => exact absurd hd h1
  | cons d ds => exact ⟨d, ds, rfl, h2 d (by rw [hd]; simp)⟩

theorem parseExponent_digits (e : Int) (tail : List Char) (h : delimited tail = true) :
    parseExponent ('e' :: (intDigits e ++ tail)) = some (e, tail) := by
  obtain ⟨_, hdig, hval, _⟩ := toDigits_spec e.natAbs
  obtain ⟨hne, _⟩ := toDigits_spec e.natAbs
  have htw := takeWhile_digits (Nat.toDigits 10 e.natAbs) tail hdig (delimited_not_digit tail h)
  obtain ⟨d, ds, hd, hdd⟩ := toDigits_head e.natAbs
  have hdm : d ≠ '-' := by rintro rfl; exact absurd hdd (by decide)
  have hdp : d ≠ '+' := by rintro rfl; exact absurd hdd (by decide)
  rcases intDigits_natAbs e with ⟨h0, he⟩ | ⟨h0, he⟩
  · rw [he]
    unfold parseExponent
    simp only [true_or, if_true]
    rw [hd] at htw ⊢
    simp only [List.cons_append, if_neg hdm, if_neg hdp] at htw ⊢
    rw [htw.1, htw.2]
    simp only [reduceCtorEq, if_false, Bool.false_eq_true]
    rw [← hd, hval]
    congr 2
    omega
  · rw [he]
    unfold parseExponent
    simp only [true_or, if_true, List.cons_append]
    rw [htw.1, htw.2]
    simp only [hne, if_false, if_true]
    rw [hval]
    congr 2
    omega

theorem parseNumber_digits (n : Nat) (rest tail : List Char) (e : Int)
    (hdigit : ∀ c r, rest = c :: r → c.isDigit = false)
    (hdot : ∀ c r, rest = c :: r → c ≠ '.')
    (hexp : parseExponent rest = some (e, tail)) :
    parseNumber (Nat.toDigits 10 n ++ rest) = some (.num n e, tail) ∧
    parseNumber ('-' :: (Nat.toDigits 10 n ++ rest)) = some (.num (-(n : Int)) e, tail) := by
  obtain ⟨hne, hdig, hval, hzero⟩ := toDigits_spec n
  have htw := takeWhile_digits (Nat.toDigits 10 n) rest hdig hdigit
  have hlead : ¬ ((Nat.toDigits 10 n).head? = some '0' ∧ (Nat.toDigits 10 n).length ≠ 1) := by
    rintro ⟨h1, h2⟩
    by_cases hn : n = 0
    · subst hn
      exact h2 rfl
    · exact hzero hn h1
  obtain ⟨d, ds, hd, hdd⟩ := toDigits_head n
  have hdm : d ≠ '-' := by rintro rfl; exact absurd hdd (by decide)
  rw [hd] at htw hlead hval hne
  rw [hd]
  constructor
  · unfold parseNumber
    simp only [List.cons_append, if_neg hdm] at htw ⊢
    simp only [htw.1, htw.2, hne, if_false, hlead, parseFraction_plain rest hdot, hexp,
      List.append_nil, hval, Bool.false_eq_true, List.length_nil]
    simp
  · unfold parseNumber
    simp only [List.cons_append] at htw ⊢
    simp only [if_true, htw.1, htw.2, hne, if_false, hlead, parseFraction_plain rest hdot, hexp,
      List.append_nil, hval, List.length_nil]
    simp

theorem parseNumber_numberToJSON (m e : Int) (tail : List Char) (h : m ≠ 0 ∨ e = 0)
    (ht : delimited tail = true) :
    parseNumber (numberToJSON m e ++ tail) = some (.num m e, tail) := by
  have hdot : ∀ c r, tail = c :: r → c ≠ '.' := by
    intro c r hc
    rcases delimited_head _ ht c r hc with rfl | rfl | rfl <;> decide
  have hplain := parseNumber_digits m.natAbs tail tail 0 (delimited_not_digit tail ht) hdot
    (parseExponent_delimited tail ht)
  have hexp := parseNumber_digits m.natAbs ('e' :: (intDigits e ++ tail)) tail e
    (by intro c r hc; injection hc with hc _; subst hc; decide)
    (by intro c r hc; injection hc with hc _; subst hc; decide)
    (parseExponent_digits e tail ht)
  unfold numberToJSON
  by_cases hm : m = 0
  · subst hm
    have he : e = 0 := by rcases h with h | h; exact absurd rfl h; exact h
    subst he
    rw [if_pos rfl]
    exact hplain.1
  · rw [if_neg hm]
    by_cases he : e = 0
    · subst he
      rw [if_pos rfl]
      rcases intDigits_natAbs m with ⟨h0, hi⟩ | ⟨h0, hi⟩
      · rw [hi, hplain.1]
        congr 3
        omega
      · rw [hi, List.cons_append, hplain.2]
        congr 3
        omega
    · rw [if_neg he]
      rcases intDigits_natAbs m with ⟨h0, hi⟩ | ⟨h0, hi⟩
      · rw [hi]
        simp only [List.append_assoc, List.cons_append]
        rw [hexp.1]
        congr 3
        omega
      · rw [hi]
        simp only [List.append_assoc, List.cons_append]
        rw [hexp.2]
        congr 3
        omega
theorem readsBack_flat (v : JSValue) (h : isFlat v = true) : ReadsBack v := by
  obtain ⟨sv, hsv, hpv⟩ := parseValue_flat v h
  obtain ⟨c, cs, hc, hsp⟩ := serializeJSON_flat_head v h
  have hsv2 : sv = c :: cs := Option.some.inj (hsv.symm.trans hc)
  have hb : c ≠ ']' := by
    cases v with
    | null => injection hc with hc; injection hc with hc _; rw [← hc]; decide
    | bool b =>
      cases b <;> (injection hc with hc; injection hc with hc _; rw [← hc]; decide)
    | str s => injection hc with hc; injection hc with hc _; rw [← hc]; decide
    | _ => simp [isFlat] at h
  have hsize : jsonSize v = 1 := by
    cases v <;> first | rfl | simp [isFlat] at h
  refine ⟨sv, hsv, ⟨c, cs, hsv2, hsp, hb⟩, ?_, ?_⟩
  · rw [hsize, hsv2]; simp
  · intro fuel tail hf _
    obtain ⟨f, rfl⟩ : ∃ f, fuel = f + 1 := ⟨fuel - 1, by omega⟩
    exact hpv f tail

theorem numberToJSON_head (m e : Int) :
    ∃ c cs, numberToJSON m e = c :: cs ∧ (c = '-' ∨ c.isDigit = true) := by
  unfold numberToJSON
  obtain ⟨d, ds, hd, hdd⟩ := toDigits_head m.natAbs
  split_ifs
  · exact ⟨'0', [], rfl, Or.inr (by decide)⟩
  · rcases intDigits_natAbs m with ⟨_, hi⟩ | ⟨_, hi⟩
    · rw [hi, hd]; exact ⟨d, ds, rfl, Or.inr hdd⟩
    · rw [hi]; exact ⟨'-', _, rfl, Or.inl rfl⟩
  · rcases intDigits_natAbs m with ⟨_, hi⟩ | ⟨_, hi⟩
    · rw [hi, hd]; exact ⟨d, _, rfl, Or.inr hdd⟩
    · rw [hi]; exact ⟨'-', _, rfl, Or.inl rfl⟩

theorem parseValue_number (fuel : Nat) (c : Char) (rest : List Char)
    (hc : c = '-' ∨ c.isDigit = true) :
    parseValue (fuel + 1) (c :: rest) = parseNumber (c :: rest) := by
  have hall : isJSONSpace c = false ∧ c ≠ '{' ∧ c ≠ '[' ∧ c ≠ '"' ∧ c ≠ 't' ∧ c ≠ 'f' ∧
      c ≠ 'n' := by
    rcases hc with rfl | hd
    · decide
    · refine ⟨?_, ?_, ?_, ?_, ?_, ?_, ?_⟩
      · cases hs : isJSONSpace c with
        | false => rfl
        | true =>
          simp only [isJSONSpace, Bool.or_eq_true, decide_eq_true_eq] at hs
          rcases hs with ((rfl | rfl) | rfl) | rfl <;> exact absurd hd (by decide)
      all_goals (rintro rfl; exact absurd hd (by decide))
  obtain ⟨h0, h1, h2, h3, h4, h5, h6⟩ := hall
  rw [parseValue, skipSpace_cons c rest h0]
  simp only [if_neg h1, if_neg h2, if_neg h3, if_neg h4, if_neg h5, if_neg h6]

theorem readsBack_num (m e : Int) (h : isJSONValue (.num m e) = true) :
    ReadsBack (.num m e) := by
  obtain ⟨c, cs, hc, hcd⟩ := numberToJSON_head m e
  have hme : m ≠ 0 ∨ e = 0 := by
    simpa [isJSONValue] using h
  have hsp : isJSONSpace c = false ∧ c ≠ ']' := by
    rcases hcd with rfl | hd
    · decide
    · constructor
      · cases hs : isJSONSpace c with
        | false => rfl
        | true =>
          simp only [isJSONSpace, Bool.or_eq_true, decide_eq_true_eq] at hs
          rcases hs with ((rfl | rfl) | rfl) | rfl <;> exact absurd hd (by decide)
      · rintro rfl; exact absurd hd (by decide)
  refine ⟨numberToJSON m e, rfl, ⟨c, cs, hc, hsp.1, hsp.2⟩, ?_, ?_⟩
  · rw [hc]; simp [jsonSize]
  · intro fuel tail hf ht
    obtain ⟨f, rfl⟩ : ∃ f, fuel = f + 1 := ⟨fuel - 1, by simp [jsonSize] at hf; omega⟩
    have hp := parseNumber_numberToJSON m e tail hme ht
    rw [hc] at hp ⊢
    rw [List.cons_append] at hp ⊢
    rw [parseValue_number f c _ hcd, hp]

theorem serializeItems_cons (v w : JSValue) (rest : List JSValue) (sv : List Char)
    (h : serializeJSON v = some sv) :
    serializeItems (v :: w :: rest) = sv ++ ',' :: serializeItems (w :: rest) := by
  rw [serializeItems, h]
  rfl

theorem serializeItems_single (v : JSValue) (sv : List Char) (h : serializeJSON v = some sv) :
    serializeItems [v] = sv := by
  rw [serializeItems, h]
  rfl

theorem itemsReadBack_cons (v : JSValue) (rest : List JSValue) (hv : ReadsBack v)
    (hr : rest ≠ [] → ItemsReadBack rest) : ItemsReadBack (v :: rest) := by
  obtain ⟨sv, hsv, ⟨c, cs, hc, hsp, hb⟩, hlen, hpv⟩ := hv
  cases rest with
  | nil =>
    rw [ItemsReadBack, serializeItems_single v sv hsv]
    refine ⟨⟨c, cs, hc, hsp, hb⟩, by simp only [jsonSizeItems]; omega, ?_⟩
    intro fuel acc tail hf
    obtain ⟨f, rfl⟩ : ∃ f, fuel = f + 1 := ⟨fuel - 1, by simp only [jsonSizeItems] at hf; omega⟩
    rw [parseItems, hpv f (']' :: tail) (by simp only [jsonSizeItems] at hf; omega) (by rfl)]
    simp only [skipSpace_cons ']' _ (by rfl)]
    simp
  | cons w rest' =>
    obtain ⟨⟨c', cs', hc', _, _⟩, hlen', hpr⟩ := hr (by simp)
    rw [ItemsReadBack, serializeItems_cons v w rest' sv hsv]
    refine ⟨⟨c, cs ++ ',' :: serializeItems (w :: rest'), by rw [hc]; rfl, hsp, hb⟩, ?_, ?_⟩
    · simp only [jsonSizeItems, List.length_append, List.length_cons] at hlen' ⊢
      omega
    · intro fuel acc tail hf
      obtain ⟨f, rfl⟩ : ∃ f, fuel = f + 1 :=
        ⟨fuel - 1, by simp only [jsonSizeItems] at hf; omega⟩
      have hf1 : jsonSize v ≤ f := by simp only [jsonSizeItems] at hf; omega
      have hf2 : jsonSizeItems (w :: rest') ≤ f := by
        simp only [jsonSizeItems] at hf ⊢; omega
      rw [parseItems, List.append_assoc, List.cons_append,
        hpv f (',' :: (serializeItems (w :: rest') ++ ']' :: tail)) hf1 (by rfl)]
      simp only [skipSpace_cons ',' _ (by rfl), if_true]
      rw [hpr f (acc ++ [v]) tail hf2]
      simp

theorem fieldsReadBack_cons (k : String) (v : JSValue) (rest : JSObject) (hv : ReadsBack v)
    (hr : rest ≠ [] → FieldsReadBack rest) : FieldsReadBack ((k, v) :: rest) := by
  obtain ⟨sv, hsv, ⟨c, cs, hc, hsp, hb⟩, hlen, hpv⟩ := hv
  rw [FieldsReadBack, serializeMembers_cons_flat k v rest sv hsv]
  cases rest with
  | nil =>
    simp only [serializeMembers, List.append_nil]
    refine ⟨⟨_, rfl⟩, by
      simp only [jsonSizeFields, List.length_cons, List.length_append]; omega, ?_⟩
    intro fuel acc tail hf
    obtain ⟨f, rfl⟩ : ∃ f, fuel = f + 1 := ⟨fuel - 1, by simp only [jsonSizeFields] at hf; omega⟩
    have hf1 : jsonSize v ≤ f := by simp only [jsonSizeFields] at hf; omega
    simp only [List.cons_append, List.append_assoc]
    rw [parseMembers]
    simp only [if_true, parseStringBody_quoteJSONBody, skipSpace_cons ':' _ (by rfl),
      hpv f ('}' :: tail) hf1 (by rfl), skipSpace_cons '}' _ (by rfl)]
    simp [assignProps]
  | cons e rest' =>
    obtain ⟨⟨t, ht⟩, hlen', hpr⟩ := hr (by simp)
    rw [ht] at hlen' hpr ⊢
    refine ⟨⟨_, rfl⟩, by
      simp only [jsonSizeFields, List.length_cons, List.length_append] at hlen' ⊢; omega, ?_⟩
    intro fuel acc tail hf
    obtain ⟨f, rfl⟩ : ∃ f, fuel = f + 1 := ⟨fuel - 1, by simp only [jsonSizeFields] at hf; omega⟩
    have hf1 : jsonSize v ≤ f := by simp only [jsonSizeFields] at hf; omega
    have hf2 : jsonSizeFields (e :: rest') ≤ f := by
      simp only [jsonSizeFields] at hf ⊢; omega
    have hih := hpr f (setProp k v acc) tail hf2
    simp only [List.cons_append, List.append_assoc]
    rw [parseMembers]
    simp only [if_true, parseStringBody_quoteJSONBody, skipSpace_cons ':' _ (by rfl),
      hpv f (',' :: '"' :: (t ++ '}' :: tail)) hf1 (by rfl),
      skipSpace_cons ',' _ (by rfl), skipSpace_cons '"' _ (by rfl)]
    simp only [List.cons_append] at hih
    simp [hih, assignProps]
theorem readsBack_arr (items : List JSValue) (h : items ≠ [] → ItemsReadBack items) :
    ReadsBack (.arr items) := by
  refine ⟨'[' :: (serializeItems items ++ [']']), rfl, ⟨'[', _, rfl, by rfl, by decide⟩, ?_, ?_⟩
  · cases items with
    | nil => simp [jsonSize, jsonSizeItems]
    | cons v rest =>
      obtain ⟨_, hlen, _⟩ := h (by simp)
      simp only [jsonSize, List.length_cons, List.length_append, List.length_nil] at hlen ⊢
      omega
  · intro fuel tail hf _
    obtain ⟨f, rfl⟩ : ∃ f, fuel = f + 1 := ⟨fuel - 1, by simp only [jsonSize] at hf; omega⟩
    have e1 : ('[' = '{') = False := by decide
    rw [List.cons_append, List.append_assoc, parseValue, skipSpace_cons '[' _ (by rfl)]
    simp only [List.singleton_append, e1, if_false, if_true]
    cases items with
    | nil =>
      simp only [serializeItems, List.nil_append, skipSpace_cons ']' _ (by rfl), if_true]
    | cons v rest =>
      obtain ⟨⟨c, cs, hc, hsp, hb⟩, _, hp⟩ := h (by simp)
      have hp2 := hp f [] tail (by simp only [jsonSize] at hf; omega)
      rw [hc] at hp2 ⊢
      rw [List.cons_append] at hp2 ⊢
      simp only [skipSpace_cons c _ hsp, if_neg hb]
      rw [hp2]
      rfl

theorem readsBack_obj (fields : JSObject) (hk : keysInOrder (fields.map Prod.fst) = true)
    (h : fields ≠ [] → FieldsReadBack fields) : ReadsBack (.obj fields) := by
  refine ⟨'{' :: (serializeMembers fields ++ ['}']), rfl, ⟨'{', _, rfl, by rfl, by decide⟩,
    ?_, ?_⟩
  · cases fields with
    | nil => simp [jsonSize, jsonSizeFields]
    | cons e rest =>
      obtain ⟨_, hlen, _⟩ := h (by simp)
      simp only [jsonSize, List.length_cons, List.length_append, List.length_nil] at hlen ⊢
      omega
  · intro fuel tail hf _
    obtain ⟨f, rfl⟩ : ∃ f, fuel = f + 1 := ⟨fuel - 1, by simp only [jsonSize] at hf; omega⟩
    rw [List.cons_append, List.append_assoc, parseValue, skipSpace_cons '{' _ (by rfl)]
    simp only [List.singleton_append, if_true]
    cases fields with
    | nil =>
      simp only [serializeMembers, List.nil_append, skipSpace_cons '}' _ (by rfl), if_true]
    | cons e rest =>
      obtain ⟨⟨t, ht⟩, _, hp⟩ := h (by simp)
      have hp2 := hp f [] tail (by simp only [jsonSize] at hf; omega)
      rw [ht] at hp2 ⊢
      rw [List.cons_append] at hp2 ⊢
      simp only [skipSpace_cons '"' _ (by rfl)]
      rw [if_neg (by decide), hp2, assignProps_nil _ hk]

mutual
theorem readsBack_value : ∀ (v : JSValue), isJSONValue v = true → ReadsBack v
  | .undefined, h => by simp [isJSONValue] at h
  | .null, _ => readsBack_flat .null rfl
  | .bool b, _ => readsBack_flat (.bool b) rfl
  | .num m e, h => readsBack_num m e h
  | .str s, _ => readsBack_flat (.str s) rfl
  | .fn _, h => by simp [isJSONValue] at h
  | .native _, h => by simp [isJSONValue] at h
  | .arr items, h =>
    readsBack_arr items (fun hne => readsBack_items items (by simpa [isJSONValue] using h) hne)
  | .obj fields, h =>
    readsBack_obj fields (by
        simp only [isJSONValue, Bool.and_eq_true] at h
        exact h.1)
      (fun hne => readsBack_fields fields (by
        simp only [isJSONValue, Bool.and_eq_true] at h
        exact h.2) hne)
theorem readsBack_items : ∀ (items : List JSValue), allJSONItems items = true → items ≠ [] →
    ItemsReadBack items
  | [], _, hne => absurd rfl hne
  | v :: rest, h, _ =>
    itemsReadBack_cons v rest
      (readsBack_value v (by
        simp only [allJSONItems, Bool.and_eq_true] at h
        exact h.1))
      (fun hne => readsBack_items rest (by
        simp only [allJSONItems, Bool.and_eq_true] at h
        exact h.2) hne)
theorem readsBack_fields : ∀ (fields : List (String × JSValue)),
    allJSONFields fields = true → fields ≠ [] → FieldsReadBack fields
  | [], _, hne => absurd rfl hne
  | (k, v) :: rest, h, _ =>
    fieldsReadBack_cons k v rest
      (readsBack_value v (by
        simp only [allJSONFields, Bool.and_eq_true] at h
        exact h.1))
      (fun hne => readsBack_fields rest (by
        simp only [allJSONFields, Bool.and_eq_true] at h
        exact h.2) hne)
end

theorem parse_stringify (v : JSValue) (h : isJSONValue v = true) :
    ∃ text, JSON.stringify v = .str text ∧ JSON.parse text = some v := by
  obtain ⟨sv, hsv, _, hlen, hp⟩ := readsBack_value v h
  refine ⟨String.mk sv, by simp only [JSON.stringify, hsv], ?_⟩
  have := hp (sv.length + 1) [] (by omega) rfl
  rw [List.append_nil] at this
  simp only [JSON.parse, this, skipSpace]
  rfl

/-! ## Blockers and handlers leave the cookies of the widget in place -/

theorem Kept.refl (w : World) : Kept w w :=
  ⟨rfl, rfl, rfl, rfl, rfl, rfl, rfl, List.Sublist.refl _, fun _ he _ => he⟩

theorem Kept.trans {a b c : World} (h1 : Kept a b) (h2 : Kept b c) : Kept a c :=
  ⟨h2.config.trans h1.config, h2.consentState.trans h1.consentState,
    h2.currentModal.trans h1.currentModal, h2.modals.trans h1.modals, h2.now.trans h1.now,
    h2.nowISO.trans h1.nowISO, h2.accepts.trans h1.accepts, h2.sublist.trans h1.sublist,
    fun e he hn => h2.own e (h1.own e he hn) hn⟩

theorem Kept.wf {w w' : World} (h : Kept w w') (hwf : WellFormedJar w.cookies) :
    WellFormedJar w'.cookies :=
  ⟨hwf.names_nodup.sublist (h.sublist.map _),
    fun e he => hwf.name_semicolon e (h.sublist.subset he),
    fun e he => hwf.name_equals e (h.sublist.subset he),
    fun e he => hwf.value_semicolon e (h.sublist.subset he)⟩

theorem getCookie_eq_of_mem (name : String) (jar jar' : CookieJar)
    (hname : ∀ x ∈ name.data, x ≠ '=') (hwf : WellFormedJar jar) (hwf' : WellFormedJar jar')
    (hsub : ∀ e ∈ jar', e ∈ jar) (hown : ∀ e ∈ jar, e.1 = name → e ∈ jar') :
    getCookie name jar' = getCookie name jar := by
  by_cases h : ∃ v, (name, v) ∈ jar
  · obtain ⟨v, hv⟩ := h
    rw [getCookie_present name v jar hname hwf hv,
      getCookie_present name v jar' hname hwf' (hown _ hv rfl)]
  · have habs : ∀ e ∈ jar, e.1 ≠ name := by
      intro e he hn
      apply h
      exact ⟨e.2, by rw [← hn]; exact he⟩
    rw [getCookie_absent name jar hname hwf habs,
      getCookie_absent name jar' hname hwf' (fun e he => habs e (hsub e he))]

theorem Kept.getCookie_state {w w' : World} (h : Kept w w') (hwf : WellFormedJar w.cookies) :
    getCookie "cookie_consent_state" w'.cookies = getCookie "cookie_consent_state" w.cookies :=
  getCookie_eq_of_mem _ _ _ (by decide) hwf (h.wf hwf) (fun _ he => h.sublist.subset he)
    (fun e he hn => h.own e he (Or.inl hn))

theorem Kept.getCookie_token {w w' : World} (h : Kept w w') (hwf : WellFormedJar w.cookies) :
    getCookie "cookie_consent_token" w'.cookies = getCookie "cookie_consent_token" w.cookies :=
  getCookie_eq_of_mem _ _ _ (by decide) hwf (h.wf hwf) (fun _ he => h.sublist.subset he)
    (fun e he hn => h.own e he (Or.inr hn))

theorem Kept.loadConsentState {w w' : World} (h : Kept w w') (hwf : WellFormedJar w.cookies) :
    loadConsentState w' = loadConsentState w := by
  unfold CookieConsent.loadConsentState
  rw [h.getCookie_state hwf]

theorem deleteCookie_kept (n : String) (w : World) (h0 : ∀ x ∈ n.data, x ≠ ';')
    (h1 : parsedName n.data ≠ "cookie_consent_state")
    (h2 : parsedName n.data ≠ "cookie_consent_token") : Kept w (deleteCookie n w) := by
  cases ha : w.acceptsDomain with
  | false =>
    rw [deleteCookie_rejected n w ha]
    exact Kept.refl w
  | true =>
  refine ⟨rfl, rfl, rfl, rfl, rfl, rfl, rfl, ?_, ?_⟩
  · rw [deleteCookie_cookies n w ha h0, eraseCookie_eq_filter]; exact List.filter_sublist _
  · intro e he hn
    rw [deleteCookie_cookies n w ha h0, mem_eraseCookie]
    refine ⟨he, ?_⟩
    rcases hn with hn | hn
    · rw [hn]; exact fun h => h1 h.symm
    · rw [hn]; exact fun h => h2 h.symm

theorem deleteCookies_kept (names : List String) (w : World)
    (h : ∀ n ∈ names, (∀ x ∈ n.data, x ≠ ';') ∧ parsedName n.data ≠ "cookie_consent_state" ∧
      parsedName n.data ≠ "cookie_consent_token") : Kept w (deleteCookies names w) := by
  unfold deleteCookies
  induction names generalizing w with
  | nil => exact Kept.refl w
  | cons n rest ih =>
    rw [List.foldl_cons]
    exact (deleteCookie_kept n w (h n (by simp)).1 (h n (by simp)).2.1 (h n (by simp)).2.2).trans
      (ih _ (fun m hm => h m (by simp [hm])))

theorem removeElements_kept (p : Element → Bool) (w : World) : Kept w (removeElements p w) :=
  ⟨rfl, rfl, rfl, rfl, rfl, rfl, rfl, List.Sublist.refl _, fun _ he _ => he⟩
theorem splitScan_subset (sep : List Char) (k : Nat) (l cur part : List Char)
    (h : part ∈ splitScan sep k l cur) : ∀ x ∈ part, x ∈ l ∨ x ∈ cur := by
  induction l generalizing k cur with
  | nil =>
    simp only [splitScan, List.mem_singleton] at h
    intro x hx
    rw [h, List.mem_reverse] at hx
    exact Or.inr hx
  | cons c cs ih =>
    cases k with
    | succ k =>
      rw [splitScan] at h
      intro x hx
      rcases ih k cur h x hx with h' | h'
      · exact Or.inl (by simp [h'])
      · exact Or.inr h'
    | zero =>
      rw [splitScan] at h
      split_ifs at h
      · rcases List.mem_cons.1 h with h' | h'
        · intro x hx
          rw [h', List.mem_reverse] at hx
          exact Or.inr hx
        · intro x hx
          rcases ih _ [] h' x hx with h'' | h''
          · exact Or.inl (by simp [h''])
          · simp at h''
      · intro x hx
        rcases ih 0 (c :: cur) h x hx with h' | h'
        · exact Or.inl (by simp [h'])
        · rcases List.mem_cons.1 h' with h'' | h''
          · exact Or.inl (by simp [h''])
          · exact Or.inr h''

theorem splitScan_free (a : Char) (l cur part : List Char)
    (h : part ∈ splitScan [a] 0 l cur) (hcur : ∀ x ∈ cur, x ≠ a) : ∀ x ∈ part, x ≠ a := by
  induction l generalizing cur with
  | nil =>
    simp only [splitScan, List.mem_singleton] at h
    intro x hx
    rw [h, List.mem_reverse] at hx
    exact hcur x hx
  | cons c cs ih =>
    rw [splitScan] at h
    by_cases hc : a = c
    · have hp : [a].isPrefixOf (c :: cs) = true := by
        subst hc
        simp [List.isPrefixOf_cons₂, List.isPrefixOf]
      rw [hp] at h
      simp only [if_true, List.length_singleton, Nat.sub_self, List.mem_cons] at h
      rcases h with h' | h'
      · intro x hx
        rw [h', List.mem_reverse] at hx
        exact hcur x hx
      · exact ih [] h' (by simp)
    · have hp : [a].isPrefixOf (c :: cs) = false := by
        simp [List.isPrefixOf_cons₂, hc]
      rw [hp] at h
      simp only [Bool.false_eq_true, if_false] at h
      refine ih (c :: cur) h ?_
      intro x hx
      rcases List.mem_cons.1 hx with h' | h'
      · rw [h']; exact fun e => hc e.symm
      · exact hcur x h'

theorem mem_jsTrim (l : List Char) (x : Char) (h : x ∈ jsTrim l) : x ∈ l := by
  unfold jsTrim at h
  rw [List.mem_reverse] at h
  have h1 := (List.dropWhile_sublist isTrimSpace).subset h
  rw [List.mem_reverse] at h1
  exact (List.dropWhile_sublist isTrimSpace).subset h1

theorem listedCookieNames_clean (jar : CookieJar) (n : String)
    (h : n ∈ listedCookieNames jar) : ∀ x ∈ n.data, x ≠ ';' ∧ x ≠ '=' := by
  unfold listedCookieNames at h
  rw [List.mem_map] at h
  obtain ⟨c, hc, rfl⟩ := h
  have hc' : c ∈ splitScan [';'] 0 (cookieText jar) [] := by simpa [jsSplit] using hc
  have hfree := splitScan_free ';' _ [] c hc' (by simp)
  intro x hx
  simp only at hx
  cases hs : jsSplit (jsTrim c) ['='] with
  | nil => rw [hs] at hx; simp at hx
  | cons p ps =>
    rw [hs] at hx
    simp only [List.headD_cons] at hx
    have hp : p ∈ splitScan ['='] 0 (jsTrim c) [] := by
      have : p ∈ jsSplit (jsTrim c) ['='] := by rw [hs]; simp
      simpa [jsSplit] using this
    refine ⟨?_, splitScan_free '=' _ [] p hp (by simp) x hx⟩
    rcases splitScan_subset _ _ _ _ p hp x hx with h' | h'
    · exact hfree x (mem_jsTrim _ _ h')
    · simp at h'

theorem parsedName_clean (n : List Char) (h : ∀ x ∈ n, x ≠ ';' ∧ x ≠ '=') :
    parsedName n = String.mk (trimWSP n) := by
  have h1 : (n ++ ['=']).takeWhile (· ≠ ';') = n ++ ['='] := by
    rw [List.takeWhile_eq_self_iff]
    intro x hx
    rcases List.mem_append.1 hx with h' | h'
    · simpa using (h x h').1
    · simp only [List.mem_singleton] at h'; rw [h']; decide
  have h2 : (n ++ ['=']).takeWhile (· ≠ '=') = n :=
    takeWhile_stop _ n [] '=' (fun x hx => by simpa using (h x hx).2) (by simp)
  rw [parsedName, h1, h2]

theorem mem_dropWhile_of_not (p : Char → Bool) (l : List Char) (x : Char) (hx : x ∈ l)
    (hp : p x = false) : x ∈ l.dropWhile p := by
  have h := List.takeWhile_append_dropWhile p l
  rw [← h] at hx
  rcases List.mem_append.1 hx with h' | h'
  · have := List.mem_takeWhile_imp h'
    rw [hp] at this
    exact absurd this (by simp)
  · exact h'

theorem mem_trimWSP_of_not (l : List Char) (x : Char) (hx : x ∈ l) (hp : isWSP x = false) :
    x ∈ trimWSP l := by
  unfold trimWSP
  rw [List.mem_reverse]
  apply mem_dropWhile_of_not _ _ _ _ hp
  rw [List.mem_reverse]
  exact mem_dropWhile_of_not _ _ _ hx hp

theorem includes_mem (l sub : List Char) (h : includes l sub = true) : ∀ x ∈ sub, x ∈ l := by
  induction l with
  | nil =>
    simp only [includes, List.isEmpty_eq_true] at h
    rw [h]; simp
  | cons c cs ih =>
    rw [includes, Bool.or_eq_true] at h
    rcases h with h | h
    · rw [List.isPrefixOf_iff_prefix] at h
      exact fun x hx => h.subset hx
    · exact fun x hx => List.mem_cons_of_mem _ (ih h x hx)

theorem gaPattern_mem (cookie : String) (hc : cookie ∈ gaCookies) (s : List Char)
    (h : regexTest (replaceFirst ['*'] ['.', '*'] cookie.data) s = true) : 'g' ∈ s := by
  simp only [gaCookies, List.mem_cons, List.mem_singleton, List.not_mem_nil, or_false] at hc
  rcases hc with rfl | rfl | rfl | rfl
  · exact includes_mem s "_ga".data h 'g' (by decide)
  · exact includes_mem s "_ga_".data h 'g' (by decide)
  · exact includes_mem s "_gid".data h 'g' (by decide)
  · exact includes_mem s "_gat".data h 'g' (by decide)
theorem parsedName_ne_of_g (n : String) (hclean : ∀ x ∈ n.data, x ≠ ';' ∧ x ≠ '=')
    (hg : 'g' ∈ n.data) :
    parsedName n.data ≠ "cookie_consent_state" ∧ parsedName n.data ≠ "cookie_consent_token" := by
  have hmem : 'g' ∈ (parsedName n.data).data := by
    rw [parsedName_clean _ hclean]
    exact mem_trimWSP_of_not _ _ hg (by rfl)
  constructor
  · intro h
    rw [h] at hmem
    exact absurd hmem (by decide)
  · intro h
    rw [h] at hmem
    exact absurd hmem (by decide)

theorem foldl_deleteMatching_kept (pattern : List Char) (names : List String) (w : World)
    (h0 : ∀ n ∈ names, ∀ x ∈ n.data, x ≠ ';')
    (h : ∀ n ∈ names, regexTest pattern n.data = true →
      parsedName n.data ≠ "cookie_consent_state" ∧ parsedName n.data ≠ "cookie_consent_token") :
    Kept w (names.foldl
      (fun acc n => if regexTest pattern n.data then deleteCookie n acc else acc) w) := by
  induction names generalizing w with
  | nil => exact Kept.refl w
  | cons n rest ih =>
    rw [List.foldl_cons]
    have hrest := fun m hm => h m (List.mem_cons_of_mem _ hm)
    have hrest0 := fun m hm => h0 m (List.mem_cons_of_mem _ hm)
    by_cases ht : regexTest pattern n.data = true
    · rw [if_pos ht]
      have hn := h n (by simp) ht
      exact (deleteCookie_kept n w (h0 n (by simp)) hn.1 hn.2).trans (ih _ hrest0 hrest)
    · rw [if_neg ht]
      exact ih _ hrest0 hrest

theorem deleteMatching_kept (w : World) (cookie : String) (hc : cookie ∈ gaCookies) :
    Kept w (deleteMatching w cookie) := by
  unfold deleteMatching
  apply foldl_deleteMatching_kept
  · intro n hn x hx
    exact (listedCookieNames_clean _ n hn x hx).1
  intro n hn ht
  exact parsedName_ne_of_g n (listedCookieNames_clean _ n hn) (gaPattern_mem cookie hc _ ht)

theorem foldl_gaCookies_kept (cookies : List String) (hc : ∀ c ∈ cookies, c ∈ gaCookies)
    (w : World) : Kept w (cookies.foldl deleteMatching w) := by
  induction cookies generalizing w with
  | nil => exact Kept.refl w
  | cons c rest ih =>
    rw [List.foldl_cons]
    exact (deleteMatching_kept w c (hc c (by simp))).trans
      (ih (fun m hm => hc m (List.mem_cons_of_mem _ hm)) _)

theorem blockGoogleAnalytics_kept (w : World) : Kept w (blockGoogleAnalytics w) :=
  (foldl_gaCookies_kept gaCookies (fun _ h => h) w).trans (removeElements_kept _ _)

theorem blockGoogleAdSense_kept (w : World) : Kept w (blockGoogleAdSense w) :=
  ((deleteCookies_kept _ w (by decide)).trans (removeElements_kept _ _)).trans
    (removeElements_kept _ _)

theorem blockFacebook_kept (w : World) : Kept w (blockFacebook w) := by
  have h := (deleteCookies_kept ["_fbp", "fr"] w (by decide)).trans
    (removeElements_kept (scriptFrom ["connect.facebook.net"]) _)
  exact ⟨h.config, h.consentState, h.currentModal, h.modals, h.now, h.nowISO, h.accepts, h.sublist, h.own⟩

theorem blockTwitter_kept (w : World) : Kept w (blockTwitter w) := by
  have h := (deleteCookies_kept ["personalization_id", "guest_id"] w (by decide)).trans
    (removeElements_kept (scriptFrom ["platform.twitter.com"]) _)
  exact ⟨h.config, h.consentState, h.currentModal, h.modals, h.now, h.nowISO, h.accepts, h.sublist, h.own⟩

theorem blockFirebase_kept (w : World) : Kept w (blockFirebase w) :=
  (deleteCookies_kept _ w (by decide)).trans (removeElements_kept _ _)

theorem blockersFor_kept (state : JSValue) (w : World) : Kept w (blockersFor state w) := by
  unfold blockersFor
  simp only
  have step : ∀ (c : Bool) (f : World → World) (a : World), (∀ x, Kept x (f x)) →
      Kept a (if c = true then f a else a) := by
    intro c f a hf
    split_ifs
    · exact hf a
    · exact Kept.refl a
  exact ((((step _ _ _ blockGoogleAnalytics_kept).trans
    (step _ _ _ blockGoogleAdSense_kept)).trans
    (step _ _ _ blockFacebook_kept)).trans
    (step _ _ _ blockTwitter_kept)).trans
    (step _ _ _ blockFirebase_kept)

theorem applyThirdPartyBlockers_eq (w : World) :
    applyThirdPartyBlockers w
      = if w.consentState.isNullish = true then none
        else some (blockersFor w.consentState w) := rfl

theorem isNullish_of_truthy (v : JSValue) (h : v.truthy = true) : v.isNullish = false := by
  cases v <;> simp_all [JSValue.truthy, JSValue.isNullish]

theorem applyThirdPartyBlockers_kept (w w' : World) (h : applyThirdPartyBlockers w = some w') :
    Kept w w' := by
  rw [applyThirdPartyBlockers_eq] at h
  split_ifs at h
  injection h with h
  rw [← h]
  exact blockersFor_kept _ w

theorem applyHandler_kept (w : World) (entry : String × JSValue) : Kept w (applyHandler w entry) := by
  unfold applyHandler
  split_ifs <;> exact ⟨rfl, rfl, rfl, rfl, rfl, rfl, rfl, List.Sublist.refl _, fun _ he _ => he⟩

theorem foldl_applyHandler_kept (handlers : JSObject) (w : World) :
    Kept w (handlers.foldl applyHandler w) := by
  induction handlers generalizing w with
  | nil => exact Kept.refl w
  | cons e rest ih =>
    rw [List.foldl_cons]
    exact (applyHandler_kept w e).trans (ih _)

theorem applyConsentState_eq (w : World) (h : w.consentState.truthy = true) :
    applyConsentState w
      = blockersFor w.consentState (w.config.thirdPartyHandlers.foldl applyHandler w) := by
  have hk := foldl_applyHandler_kept w.config.thirdPartyHandlers w
  have hn : (w.config.thirdPartyHandlers.foldl applyHandler w).consentState.isNullish
      = false := by
    rw [hk.consentState]
    exact isNullish_of_truthy _ h
  unfold applyConsentState
  simp only [h, Bool.not_true, Bool.false_eq_true, if_false]
  rw [applyThirdPartyBlockers_eq, hn, hk.consentState]
  rfl

theorem applyConsentState_kept (w : World) : Kept w (applyConsentState w) := by
  by_cases h : w.consentState.truthy = true
  · rw [applyConsentState_eq w h]
    exact (foldl_applyHandler_kept _ w).trans (blockersFor_kept _ _)
  · unfold applyConsentState
    rw [if_pos (by simpa using h)]
    exact Kept.refl w

/-! ## What `saveConsentState` leaves in the cookie jar -/

theorem wf_nil : WellFormedJar [] := ⟨by simp, by simp, by simp, by simp⟩

theorem wf_visited : WellFormedJar visitedPage.cookies :=
  ⟨by decide, by decide, by decide, by decide⟩

theorem cleanName_state : CleanName "cookie_consent_state".data := ⟨by decide, by decide, by rfl⟩

theorem cleanName_token : CleanName "cookie_consent_token".data := ⟨by decide, by decide, by rfl⟩

theorem generateAndSaveConsentToken_cookies (state : JSValue) (w : World) :
    (generateAndSaveConsentToken state w).cookies =
      assignCookie w.now w.acceptsDomain
        ("cookie_consent_token".data ++ '=' :: consentTokenText state w)
        (expiryTime w.now w.config.cookieExpiryDays) w.cookies := by
  unfold generateAndSaveConsentToken
  simp only
  split_ifs <;> rfl

theorem generateAndSaveConsentToken_frame (state : JSValue) (w : World) :
    (generateAndSaveConsentToken state w).config = w.config ∧
    (generateAndSaveConsentToken state w).consentState = w.consentState ∧
    (generateAndSaveConsentToken state w).currentModal = w.currentModal ∧
    (generateAndSaveConsentToken state w).modals = w.modals ∧
    (generateAndSaveConsentToken state w).now = w.now ∧
    (generateAndSaveConsentToken state w).nowISO = w.nowISO ∧
    (generateAndSaveConsentToken state w).acceptsDomain = w.acceptsDomain := by
  unfold generateAndSaveConsentToken
  simp only
  split_ifs <;> exact ⟨rfl, rfl, rfl, rfl, rfl, rfl, rfl⟩

theorem saveConsentState_rejected (state : JSValue) (w : World)
    (hdom : w.acceptsDomain = false) : (saveConsentState state w).cookies = w.cookies := by
  have hset : (setCookie "cookie_consent_state" (stateCookieValue state)
      w.config.cookieExpiryDays w).cookies = w.cookies := by
    simp only [setCookie, hdom, assignCookie_rejected]
  have hacc : (setCookie "cookie_consent_state" (stateCookieValue state)
      w.config.cookieExpiryDays w).acceptsDomain = false := hdom
  unfold saveConsentState
  simp only
  split_ifs with h
  · rw [generateAndSaveConsentToken_cookies]
    show assignCookie _ (setCookie "cookie_consent_state" (stateCookieValue state)
      w.config.cookieExpiryDays w).acceptsDomain _ _ _ = _
    rw [hacc, assignCookie_rejected]
    exact hset
  · show (deleteCookie "cookie_consent_token" (setCookie "cookie_consent_state"
      (stateCookieValue state) w.config.cookieExpiryDays w)).cookies = _
    rw [deleteCookie_rejected _ _ hacc]
    exact hset

theorem saveConsentState_cookies (state : JSValue) (w : World)
    (hdom : w.acceptsDomain = true) :
    (saveConsentState state w).cookies =
      if (getProp state "analytical").truthy = true then
        assignCookie w.now true ("cookie_consent_token".data ++ '=' ::
            consentTokenText state (setCookie "cookie_consent_state" (stateCookieValue state)
              w.config.cookieExpiryDays w))
          (expiryTime w.now w.config.cookieExpiryDays)
          (assignCookie w.now true
            ("cookie_consent_state".data ++ '=' :: (stateCookieValue state).data)
            (expiryTime w.now w.config.cookieExpiryDays) w.cookies)
      else
        eraseCookie "cookie_consent_token"
          (assignCookie w.now true
            ("cookie_consent_state".data ++ '=' :: (stateCookieValue state).data)
            (expiryTime w.now w.config.cookieExpiryDays) w.cookies) := by
  have hacc : (setCookie "cookie_consent_state" (stateCookieValue state)
      w.config.cookieExpiryDays w).acceptsDomain = true := hdom
  have hset : (setCookie "cookie_consent_state" (stateCookieValue state)
      w.config.cookieExpiryDays w).cookies = assignCookie w.now true
        ("cookie_consent_state".data ++ '=' :: (stateCookieValue state).data)
        (expiryTime w.now w.config.cookieExpiryDays) w.cookies := by
    simp only [setCookie, hdom]
    rfl
  unfold saveConsentState
  simp only
  split_ifs with h
  · rw [generateAndSaveConsentToken_cookies]
    show assignCookie _ (setCookie "cookie_consent_state" (stateCookieValue state)
      w.config.cookieExpiryDays w).acceptsDomain _ _ (setCookie "cookie_consent_state"
      (stateCookieValue state) w.config.cookieExpiryDays w).cookies = _
    rw [hacc, hset]
    rfl
  · show (deleteCookie "cookie_consent_token" (setCookie "cookie_consent_state"
      (stateCookieValue state) w.config.cookieExpiryDays w)).cookies = _
    rw [deleteCookie_cookies _ _ hacc (by decide), hset]
    rfl

theorem saveConsentState_frame (state : JSValue) (w : World) :
    (saveConsentState state w).config = w.config ∧
    (saveConsentState state w).consentState = w.consentState ∧
    (saveConsentState state w).currentModal = w.currentModal ∧
    (saveConsentState state w).modals = w.modals ∧
    (saveConsentState state w).now = w.now ∧
    (saveConsentState state w).nowISO = w.nowISO ∧
    (saveConsentState state w).acceptsDomain = w.acceptsDomain := by
  unfold saveConsentState
  simp only
  split_ifs
  · exact generateAndSaveConsentToken_frame _ _
  · exact ⟨rfl, rfl, rfl, rfl, rfl, rfl, rfl⟩

theorem saveConsentState_wf (state : JSValue) (w : World) (hwf : WellFormedJar w.cookies) :
    WellFormedJar (saveConsentState state w).cookies := by
  cases hdom : w.acceptsDomain with
  | false =>
    rw [saveConsentState_rejected state w hdom]
    exact hwf
  | true =>
    rw [saveConsentState_cookies state w hdom]
    split_ifs
    · exact assignCookie_wf _ _ _ _ _ (assignCookie_wf _ _ _ _ _ hwf)
    · exact eraseCookie_wf _ _ (assignCookie_wf _ _ _ _ _ hwf)

theorem expiryTime_pos (now : Nat) (days : Int) (h : 0 < days) : ¬ expiryTime now days ≤ now := by
  unfold expiryTime; omega

theorem expiryTime_nonpos (now : Nat) (days : Int) (h : days ≤ 0) : expiryTime now days ≤ now := by
  unfold expiryTime; omega

theorem stateCookieValue_plain (state : JSValue) :
    ∀ x ∈ (stateCookieValue state).data, x ≠ ';' := by
  intro x hx
  simpa using encodeURIChars_semicolon _ x hx

theorem stateCookieValue_store (state : JSValue) (now : Nat) (days : Int) (jar : CookieJar)
    (h : 0 < days) :
    assignCookie now true ("cookie_consent_state".data ++ '=' :: (stateCookieValue state).data)
      (expiryTime now days) jar
      = storeCookie "cookie_consent_state" (stateCookieValue state) jar := by
  rw [assignCookie_clean _ _ _ _ _ cleanName_state (stateCookieValue_plain state),
    if_neg (expiryTime_pos now days h)]
  have h2 : ∀ x ∈ (stateCookieValue state).data, isWSP x = false := encodeURIChars_isWSP _
  rw [trimWSP_eq_self _ h2]

theorem token_write_keeps (now : Nat) (v : List Char) (expires : Int) (jar : CookieJar)
    (e : String × String) (hne : e.1 ≠ "cookie_consent_token") :
    e ∈ assignCookie now true ("cookie_consent_token".data ++ '=' :: v) expires jar ↔ e ∈ jar := by
  rcases assignCookie_named now true _ v expires jar cleanName_token with h | h | ⟨value, _, h⟩
  · rw [h]
  · rw [h, mem_eraseCookie]
    exact ⟨fun h => h.1, fun h => ⟨h, hne⟩⟩
  · rw [h]
    exact mem_storeCookie_other _ _ _ _ hne

theorem saveConsentState_state_mem (state : JSValue) (w : World)
    (hdom : w.acceptsDomain = true) (h : 0 < w.config.cookieExpiryDays) :
    ("cookie_consent_state", stateCookieValue state) ∈ (saveConsentState state w).cookies := by
  have hne : ("cookie_consent_state", stateCookieValue state).1 ≠ "cookie_consent_token" := by
    show "cookie_consent_state" ≠ "cookie_consent_token"
    decide
  rw [saveConsentState_cookies state w hdom, stateCookieValue_store _ _ _ _ h]
  split_ifs
  · exact (token_write_keeps _ _ _ _ _ hne).2 (mem_storeCookie_self _ _ _)
  · rw [mem_eraseCookie]
    exact ⟨mem_storeCookie_self _ _ _, hne⟩

theorem saveConsentState_token_mem (state : JSValue) (w : World)
    (hdom : w.acceptsDomain = true)
    (h : 0 < w.config.cookieExpiryDays) (ha : (getProp state "analytical").truthy = true)
    (hsemi : ∀ x ∈ consentTokenText state w, x ≠ ';') :
    ∃ v, ("cookie_consent_token", v) ∈ (saveConsentState state w).cookies := by
  have htext : consentTokenText state (setCookie "cookie_consent_state" (stateCookieValue state)
      w.config.cookieExpiryDays w) = consentTokenText state w := rfl
  rw [saveConsentState_cookies state w hdom, if_pos ha, htext,
    assignCookie_clean _ _ _ _ _ cleanName_token hsemi, if_neg (expiryTime_pos _ _ h)]
  exact ⟨_, mem_storeCookie_self _ _ _⟩

theorem saveConsentState_token_absent (state : JSValue) (w : World)
    (hdom : w.acceptsDomain = true)
    (ha : (getProp state "analytical").truthy = false) :
    ∀ e ∈ (saveConsentState state w).cookies, e.1 ≠ "cookie_consent_token" := by
  rw [saveConsentState_cookies state w hdom, if_neg (by simp [ha])]
  intro e he
  exact ((mem_eraseCookie _ _ _).1 he).2

theorem saveConsentState_expired (state : JSValue) (w : World)
    (hdom : w.acceptsDomain = true) (h : w.config.cookieExpiryDays ≤ 0) :
    ∀ e ∈ (saveConsentState state w).cookies, e.1 ≠ "cookie_consent_state" := by
  rw [saveConsentState_cookies state w hdom]
  have hs : ∀ e ∈ assignCookie w.now true
      ("cookie_consent_state".data ++ '=' :: (stateCookieValue state).data)
      (expiryTime w.now w.config.cookieExpiryDays) w.cookies, e.1 ≠ "cookie_consent_state" := by
    rw [assignCookie_clean _ _ _ _ _ cleanName_state (stateCookieValue_plain state),
      if_pos (expiryTime_nonpos _ _ h)]
    intro e he
    exact ((mem_eraseCookie _ _ _).1 he).2
  split_ifs
  · intro e he hn
    have hne : e.1 ≠ "cookie_consent_token" := by
      rw [hn]
      decide
    exact hs e ((token_write_keeps _ _ _ _ e hne).1 he) hn
  · intro e he
    exact hs e ((mem_eraseCookie _ _ _).1 he).1

/-! ## Adopting a consent state -/

theorem closeModal_frame (w : World) :
    (closeModal w).cookies = w.cookies ∧ (closeModal w).consentState = w.consentState ∧
    (closeModal w).config = w.config ∧ (closeModal w).now = w.now := by
  unfold closeModal
  cases w.modals <;> exact ⟨rfl, rfl, rfl, rfl⟩

theorem saveAndApplyConsent_cookies (state : JSValue) (w : World) :
    (saveAndApplyConsent state w).cookies =
      (applyConsentState (saveConsentState state { w with consentState := state })).cookies := by
  unfold saveAndApplyConsent
  simp only
  split_ifs
  · exact (closeModal_frame _).1
  · exact (closeModal_frame _).1

theorem saveAndApplyConsent_consentState (state : JSValue) (w : World) :
    (saveAndApplyConsent state w).consentState = state := by
  unfold saveAndApplyConsent
  simp only
  have h : (closeModal (applyConsentState (saveConsentState state
      { w with consentState := state }))).consentState = state := by
    rw [(closeModal_frame _).2.1, (applyConsentState_kept _).consentState,
      (saveConsentState_frame _ _).2.1]
  split_ifs
  · exact h
  · exact h

theorem saveAndApplyConsent_config (state : JSValue) (w : World) :
    (saveAndApplyConsent state w).config = w.config := by
  unfold saveAndApplyConsent
  simp only
  have h : (closeModal (applyConsentState (saveConsentState state
      { w with consentState := state }))).config = w.config := by
    rw [(closeModal_frame _).2.2.1, (applyConsentState_kept _).config,
      (saveConsentState_frame _ _).1]
  split_ifs
  · exact h
  · exact h

theorem saveAndApplyConsent_wf (state : JSValue) (w : World) (hwf : WellFormedJar w.cookies) :
    WellFormedJar (saveAndApplyConsent state w).cookies := by
  rw [saveAndApplyConsent_cookies]
  exact (applyConsentState_kept _).wf (saveConsentState_wf state _ hwf)

theorem saveAndApplyConsent_getCookie_state (state : JSValue) (w : World)
    (hwf : WellFormedJar w.cookies) :
    getCookie "cookie_consent_state" (saveAndApplyConsent state w).cookies =
      getCookie "cookie_consent_state"
        (saveConsentState state { w with consentState := state }).cookies := by
  rw [saveAndApplyConsent_cookies]
  exact (applyConsentState_kept _).getCookie_state (saveConsentState_wf state _ hwf)

theorem saveAndApplyConsent_getCookie_token (state : JSValue) (w : World)
    (hwf : WellFormedJar w.cookies) :
    getCookie "cookie_consent_token" (saveAndApplyConsent state w).cookies =
      getCookie "cookie_consent_token"
        (saveConsentState state { w with consentState := state }).cookies := by
  rw [saveAndApplyConsent_cookies]
  exact (applyConsentState_kept _).getCookie_token (saveConsentState_wf state _ hwf)

theorem getCookie_state_saved (state : JSValue) (w : World) (hwf : WellFormedJar w.cookies)
    (hdom : w.acceptsDomain = true) (h : 0 < w.config.cookieExpiryDays) :
    getCookie "cookie_consent_state" (saveConsentState state w).cookies
      = some (stateCookieValue state) :=
  getCookie_present _ _ _ (by decide) (saveConsentState_wf state w hwf)
    (saveConsentState_state_mem state w hdom h)

theorem getCookie_token_saved (state : JSValue) (w : World) (hwf : WellFormedJar w.cookies)
    (hdom : w.acceptsDomain = true)
    (h : 0 < w.config.cookieExpiryDays) (ha : (getProp state "analytical").truthy = true)
    (hsemi : ∀ x ∈ consentTokenText state w, x ≠ ';') :
    ∃ v, getCookie "cookie_consent_token" (saveConsentState state w).cookies = some v := by
  obtain ⟨v, hv⟩ := saveConsentState_token_mem state w hdom h ha hsemi
  exact ⟨v, getCookie_present _ _ _ (by decide) (saveConsentState_wf state w hwf) hv⟩

theorem getCookie_token_deleted (state : JSValue) (w : World) (hwf : WellFormedJar w.cookies)
    (hdom : w.acceptsDomain = true)
    (ha : (getProp state "analytical").truthy = false) :
    getCookie "cookie_consent_token" (saveConsentState state w).cookies = none :=
  getCookie_absent _ _ (by decide) (saveConsentState_wf state w hwf)
    (saveConsentState_token_absent state w hdom ha)

theorem getCookie_expired (state : JSValue) (w : World) (hwf : WellFormedJar w.cookies)
    (hdom : w.acceptsDomain = true) (h : w.config.cookieExpiryDays ≤ 0) :
    getCookie "cookie_consent_state" (saveConsentState state w).cookies = none :=
  getCookie_absent _ _ (by decide) (saveConsentState_wf state w hwf)
    (fun e he => saveConsentState_expired state w hdom h e he)

theorem loadConsentState_of_cookie (w : World) (state : JSValue) (text : String)
    (hs : JSON.stringify state = .str text) (hp : JSON.parse text = some state)
    (hc : getCookie "cookie_consent_state" w.cookies = some (stateCookieValue state)) :
    loadConsentState w = state := by
  have hv : stateCookieValue state = encodeURIComponent text := by
    unfold stateCookieValue
    rw [hs]
    rfl
  have hd := decodeURIComponent_encodeURIComponent text
  have hne : encodeURIComponent text ≠ "" := by
    intro he
    rw [he] at hd
    have ht : text = "" := by
      have : decodeURIComponent "" = some "" := rfl
      rw [this] at hd
      exact (Option.some.inj hd).symm
    rw [ht] at hp
    exact absurd hp (by simp [JSON.parse, parseValue, skipSpace])
  unfold loadConsentState
  rw [hc, hv]
  simp only [if_neg hne, hd, hp]

theorem consentState_roundtrip (s : ConsentState) :
    ∃ text, JSON.stringify s.toJS = .str text ∧ JSON.parse text = some s.toJS := by
  obtain ⟨text, h1, h2⟩ := parse_stringify_flat
    [("functional", .bool s.functional), ("analytical", .bool s.analytical),
      ("performance", .bool s.performance), ("advertising", .bool s.advertising),
      ("social", .bool s.social), ("other", .bool s.other),
      ("timestamp", .str s.timestamp), ("language", .str s.language)]
    (by intro e he; simp at he; rcases he with h | h | h | h | h | h | h | h <;> (rw [h]; rfl))
  exact ⟨text, h1, h2⟩

theorem saveAndApplyConsent_state_present (state : JSValue) (w : World)
    (hjar : WellFormedJar w.cookies) (hdom : w.acceptsDomain = true)
    (hexp : 0 < w.config.cookieExpiryDays) :
    getCookie "cookie_consent_state" (saveAndApplyConsent state w).cookies
      = some (stateCookieValue state) := by
  rw [saveAndApplyConsent_getCookie_state state w hjar]
  exact getCookie_state_saved state { w with consentState := state } hjar hdom hexp

theorem saveAndApplyConsent_token_present (state : JSValue) (w : World)
    (hjar : WellFormedJar w.cookies) (hdom : w.acceptsDomain = true)
    (hexp : 0 < w.config.cookieExpiryDays)
    (ha : (getProp state "analytical").truthy = true)
    (hsemi : ∀ x ∈ consentTokenText state w, x ≠ ';') :
    ∃ v, getCookie "cookie_consent_token" (saveAndApplyConsent state w).cookies = some v := by
  rw [saveAndApplyConsent_getCookie_token state w hjar]
  exact getCookie_token_saved state { w with consentState := state } hjar hdom hexp ha hsemi

theorem saveAndApplyConsent_token_deleted (state : JSValue) (w : World)
    (hjar : WellFormedJar w.cookies) (hdom : w.acceptsDomain = true)
    (ha : (getProp state "analytical").truthy = false) :
    getCookie "cookie_consent_token" (saveAndApplyConsent state w).cookies = none := by
  rw [saveAndApplyConsent_getCookie_token state w hjar]
  exact getCookie_token_deleted state { w with consentState := state } hjar hdom ha

theorem saveAndApplyConsent_acceptsDomain (state : JSValue) (w : World) :
    (saveAndApplyConsent state w).acceptsDomain = w.acceptsDomain := by
  have hclose : ∀ x : World, (closeModal x).acceptsDomain = x.acceptsDomain := by
    intro x
    unfold closeModal
    cases x.modals <;> rfl
  have h : (closeModal (applyConsentState (saveConsentState state
      { w with consentState := state }))).acceptsDomain = w.acceptsDomain := by
    rw [hclose, (applyConsentState_kept _).accepts, (saveConsentState_frame _ _).2.2.2.2.2.2]
    rfl
  unfold saveAndApplyConsent
  simp only
  split_ifs
  · exact h
  · exact h

theorem saveAndApplyConsent_rejected (state : JSValue) (w : World)
    (hjar : WellFormedJar w.cookies) (hdom : w.acceptsDomain = false) :
    getCookie "cookie_consent_state" (saveAndApplyConsent state w).cookies
      = getCookie "cookie_consent_state" w.cookies ∧
    getCookie "cookie_consent_token" (saveAndApplyConsent state w).cookies
      = getCookie "cookie_consent_token" w.cookies := by
  rw [saveAndApplyConsent_getCookie_state state w hjar,
    saveAndApplyConsent_getCookie_token state w hjar,
    saveConsentState_rejected state { w with consentState := state } hdom]
  exact ⟨rfl, rfl⟩


/-! ## Claims about the consent state model -/

/-- C1 (counterexample): `createConsentState({ functional: false })` returns a state whose
`functional` field is `false`, not `true`. -/
theorem createConsentState_functional_false :
    getProp (createConsentState samplePage (.obj [("functional", .bool false)])) "functional"
      = .bool false := by
  rfl

/-- C1 (amended): for every object of category booleans, `createConsentState` returns the same
six category values, `functional` included, followed by the timestamp of the clock and the
configured locale as language; nothing forces `functional` to `true`. -/
theorem createConsentState_keeps_categories (w : World) (f a p ad s o : Bool) :
    createConsentState w (categoryObject f a p ad s o)
      = (ConsentState.mk f a p ad s o w.nowISO w.config.locale).toJS ∧
    getProp (createConsentState w (categoryObject f a p ad s o)) "functional" = .bool f := by
  have h : createConsentState w (categoryObject f a p ad s o)
      = (ConsentState.mk f a p ad s o w.nowISO w.config.locale).toJS := rfl
  exact ⟨h, by rw [h]; rfl⟩

/-- C2 (counterexample): on the host `localhost` with `domain: 'example.com'` and the default
expiry of 365 days, the browser ignores the write of `saveConsentState(s)`: on a fresh page
`loadConsentState()` then returns `null`, and on a page that holds an earlier state the earlier
state, not `s`. -/
theorem load_save_foreign_domain :
    0 < foreignFreshPage.config.cookieExpiryDays ∧
    loadConsentState (saveConsentState sampleState.toJS foreignFreshPage) = .null ∧
    loadConsentState (saveConsentState sampleState.toJS foreignDomainPage)
      = .obj [("functional", .bool false)] := by
  exact ⟨by decide, rfl, rfl⟩

/-- C2 (amended): for every well-formed consent state, a jar as the browser keeps it, a
positive expiry and a configured domain that the browser accepts for the host of the page,
`loadConsentState()` after `saveConsentState(s)` returns `s`. -/
theorem load_save_roundtrip (s : ConsentState) (w : World) (hjar : WellFormedJar w.cookies)
    (hexp : 0 < w.config.cookieExpiryDays) (hdom : w.acceptsDomain = true) :
    loadConsentState (saveConsentState s.toJS w) = s.toJS := by
  obtain ⟨text, hs, hp⟩ := consentState_roundtrip s
  exact loadConsentState_of_cookie _ _ text hs hp (getCookie_state_saved _ w hjar hdom hexp)

/-- C2 (witness): the round trip on a page that already holds four cookies, with the default
domain, the host name of the page. -/
theorem load_save_roundtrip_witness :
    WellFormedJar visitedPage.cookies ∧ 0 < visitedPage.config.cookieExpiryDays ∧
      visitedPage.acceptsDomain = true ∧
      loadConsentState (saveConsentState sampleState.toJS visitedPage) = sampleState.toJS :=
  ⟨wf_visited, by decide, by decide,
    load_save_roundtrip sampleState visitedPage wf_visited (by decide) (by decide)⟩

/-- C3 (counterexample): with `cookieExpiryDays: -1` the token cookie is absent after
`saveConsentState(s)` although `s.analytical` is `true`; so it is on the host `localhost` with
`domain: 'example.com'` and the default expiry; and so it is with the default configuration
and `customData: { note: 'a;max-age=0;b' }`, where the browser cuts the cookie value at the
first semicolon and reads `max-age=0` as an attribute of the cookie, which removes it. -/
theorem token_absent_when_expired :
    sampleState.analytical = true ∧
      getCookie "cookie_consent_token" (saveConsentState sampleState.toJS expiredPage).cookies
        = none ∧
      getCookie "cookie_consent_token"
        (saveConsentState sampleState.toJS foreignFreshPage).cookies = none ∧
      0 < maxAgeDataPage.config.cookieExpiryDays ∧ maxAgeDataPage.acceptsDomain = true ∧
      getCookie "cookie_consent_token"
        (saveConsentState sampleState.toJS maxAgeDataPage).cookies = none := by
  exact ⟨rfl, rfl, rfl, by decide, by decide, by decide!⟩

/-- C3 (amended): when the browser accepts the configured domain for the host of the page, the
configured expiry is positive and the JSON text of the token record has no semicolon, the token
cookie is present after `saveConsentState(s)` if and only if `s.analytical` is `true`; whatever
the expiry and the text, it is absent when `s.analytical` is `false`, also if it existed
before. -/
theorem token_cookie_iff_analytical (s : ConsentState) (w : World)
    (hjar : WellFormedJar w.cookies) (hdom : w.acceptsDomain = true) :
    (0 < w.config.cookieExpiryDays → (∀ x ∈ consentTokenText s.toJS w, x ≠ ';') →
      (cookiePresent "cookie_consent_token" (saveConsentState s.toJS w) ↔ s.analytical = true)) ∧
    (s.analytical = false →
      getCookie "cookie_consent_token" (saveConsentState s.toJS w).cookies = none) := by
  have hfalse : s.analytical = false →
      getCookie "cookie_consent_token" (saveConsentState s.toJS w).cookies = none :=
    fun ha => getCookie_token_deleted _ w hjar hdom (by rw [← ha]; rfl)
  refine ⟨fun hexp hsemi => ⟨fun hp => ?_, fun ha => ?_⟩, hfalse⟩
  · cases ha : s.analytical with
    | true => rfl
    | false =>
      unfold cookiePresent at hp
      rw [hfalse ha] at hp
      exact absurd hp (by simp)
  · obtain ⟨v, hv⟩ := getCookie_token_saved s.toJS w hjar hdom hexp (by rw [← ha]; rfl) hsemi
    unfold cookiePresent
    rw [hv]
    rfl

/-- C3 (witness): on a page that holds a token cookie of an earlier acceptance. -/
theorem token_cookie_iff_analytical_witness :
    WellFormedJar visitedPage.cookies ∧ visitedPage.acceptsDomain = true ∧
    (0 < visitedPage.config.cookieExpiryDays →
      (∀ x ∈ consentTokenText sampleState.toJS visitedPage, x ≠ ';') →
      (cookiePresent "cookie_consent_token" (saveConsentState sampleState.toJS visitedPage)
        ↔ sampleState.analytical = true)) ∧
    (sampleState.analytical = false →
      getCookie "cookie_consent_token" (saveConsentState sampleState.toJS visitedPage).cookies
        = none) :=
  ⟨wf_visited, by decide,
    token_cookie_iff_analytical sampleState visitedPage wf_visited (by decide)⟩

/-- C4 (counterexample): with `cookieExpiryDays: -1` neither cookie is present after
`acceptAllConsent()`, and neither is on the host `localhost` with `domain: 'example.com'` and
the default expiry; with the default configuration and `customData: { note: 'a;max-age=0;b' }`
the token cookie is absent, because the browser cuts its value at the first semicolon and reads
`max-age=0` as an attribute of the cookie. -/
theorem acceptAllConsent_expired :
    getCookie "cookie_consent_state" (acceptAllConsent expiredPage).cookies = none ∧
    getCookie "cookie_consent_token" (acceptAllConsent expiredPage).cookies = none ∧
    getCookie "cookie_consent_state" (acceptAllConsent foreignFreshPage).cookies = none ∧
    getCookie "cookie_consent_token" (acceptAllConsent foreignFreshPage).cookies = none ∧
    0 < maxAgeDataPage.config.cookieExpiryDays ∧ maxAgeDataPage.acceptsDomain = true ∧
    getCookie "cookie_consent_token" (acceptAllConsent maxAgeDataPage).cookies = none := by
  exact ⟨rfl, rfl, rfl, rfl, by decide, by decide, by decide!⟩

/-- C4 (amended): after `acceptAllConsent()` the consent state in memory has all six
categories `true`; when the configured expiry is positive and the browser accepts the
configured domain for the host of the page, the state cookie is present, and so is the token
cookie when the JSON text of the token record has no semicolon. -/
theorem acceptAllConsent_adopts (w : World) (hjar : WellFormedJar w.cookies) :
    (∀ c ∈ allCategories, getProp (acceptAllConsent w).consentState c = .bool true) ∧
    (0 < w.config.cookieExpiryDays → w.acceptsDomain = true →
      cookiePresent "cookie_consent_state" (acceptAllConsent w) ∧
      ((∀ x ∈ consentTokenText (acceptAllConsent w).consentState w, x ≠ ';') →
        cookiePresent "cookie_consent_token" (acceptAllConsent w))) := by
  have hstate : (acceptAllConsent w).consentState
      = (ConsentState.mk true true true true true true w.nowISO w.config.locale).toJS :=
    saveAndApplyConsent_consentState _ w
  refine ⟨?_, fun hexp hdom => ⟨?_, fun hsemi => ?_⟩⟩
  · intro c hc
    rw [hstate]
    simp only [allCategories, optionalCategories, List.mem_cons, List.mem_singleton,
      List.not_mem_nil, or_false] at hc
    rcases hc with rfl | rfl | rfl | rfl | rfl | rfl <;> rfl
  · have h := saveAndApplyConsent_state_present
      (createConsentState w (categoryObject true true true true true true)) w hjar hdom hexp
    exact (congrArg Option.isSome h).trans rfl
  · rw [hstate] at hsemi
    obtain ⟨v, hv⟩ := saveAndApplyConsent_token_present
      (createConsentState w (categoryObject true true true true true true)) w hjar hdom hexp rfl
      hsemi
    exact (congrArg Option.isSome hv).trans rfl

/-- C4 (witness): on a page that holds cookies already. -/
theorem acceptAllConsent_adopts_witness :
    WellFormedJar visitedPage.cookies ∧
    (∀ c ∈ allCategories, getProp (acceptAllConsent visitedPage).consentState c = .bool true) ∧
    (0 < visitedPage.config.cookieExpiryDays → visitedPage.acceptsDomain = true →
      cookiePresent "cookie_consent_state" (acceptAllConsent visitedPage) ∧
      ((∀ x ∈ consentTokenText (acceptAllConsent visitedPage).consentState visitedPage,
          x ≠ ';') →
        cookiePresent "cookie_consent_token" (acceptAllConsent visitedPage))) :=
  ⟨wf_visited, acceptAllConsent_adopts visitedPage wf_visited⟩

/-- C5: after `rejectAllConsent()` the consent state has `functional = true` and the five other
categories `false`, and `getCookie('cookie_consent_token')` returns `null`, also when a token
cookie was stored before, under a domain that the browser accepts for the host of the page. -/
theorem rejectAllConsent_rejects (w : World) (hjar : WellFormedJar w.cookies)
    (htoken : getCookie "cookie_consent_token" w.cookies ≠ none → w.acceptsDomain = true) :
    getProp (rejectAllConsent w).consentState "functional" = .bool true ∧
    (∀ c ∈ optionalCategories, getProp (rejectAllConsent w).consentState c = .bool false) ∧
    getCookie "cookie_consent_token" (rejectAllConsent w).cookies = none := by
  have hstate : (rejectAllConsent w).consentState
      = (ConsentState.mk true false false false false false w.nowISO w.config.locale).toJS :=
    saveAndApplyConsent_consentState _ w
  refine ⟨by rw [hstate]; rfl, ?_, ?_⟩
  · intro c hc
    rw [hstate]
    simp only [optionalCategories, List.mem_cons, List.mem_singleton, List.not_mem_nil,
      or_false] at hc
    rcases hc with rfl | rfl | rfl | rfl | rfl <;> rfl
  · cases hdom : w.acceptsDomain with
    | true =>
      exact saveAndApplyConsent_token_deleted
        (createConsentState w (categoryObject true false false false false false)) w hjar hdom
        rfl
    | false =>
      have hnone : getCookie "cookie_consent_token" w.cookies = none := by
        by_contra hc
        rw [htoken hc] at hdom
        exact absurd hdom (by decide)
      have h := (saveAndApplyConsent_rejected
        (createConsentState w (categoryObject true false false false false false)) w hjar
        hdom).2
      exact h.trans hnone

/-- C5 (witness): on a page whose jar holds the token cookie of an earlier acceptance. -/
theorem rejectAllConsent_rejects_witness :
    WellFormedJar visitedPage.cookies ∧
    getCookie "cookie_consent_token" visitedPage.cookies = some "\x7b\"token\":\"t\"\x7d" ∧
    getProp (rejectAllConsent visitedPage).consentState "functional" = .bool true ∧
    (∀ c ∈ optionalCategories,
      getProp (rejectAllConsent visitedPage).consentState c = .bool false) ∧
    getCookie "cookie_consent_token" (rejectAllConsent visitedPage).cookies = none :=
  ⟨wf_visited, rfl, rejectAllConsent_rejects visitedPage wf_visited (fun _ => by decide)⟩

/-! ## Claims about persistence across actions, the public API and localization -/

theorem loadConsentState_congr (w w' : World)
    (h : getCookie "cookie_consent_state" w'.cookies = getCookie "cookie_consent_state" w.cookies) :
    loadConsentState w' = loadConsentState w := by
  unfold loadConsentState
  rw [h]

theorem adopt_persisted (s : ConsentState) (w : World) (hjar : WellFormedJar w.cookies) :
    (0 < w.config.cookieExpiryDays → w.acceptsDomain = true →
      loadConsentState (saveAndApplyConsent s.toJS w) = s.toJS) ∧
    (w.config.cookieExpiryDays ≤ 0 → w.acceptsDomain = true →
      loadConsentState (saveAndApplyConsent s.toJS w) = .null) ∧
    (w.acceptsDomain = false →
      loadConsentState (saveAndApplyConsent s.toJS w) = loadConsentState w) := by
  refine ⟨?_, ?_, ?_⟩
  · intro hexp hdom
    obtain ⟨text, hs, hp⟩ := consentState_roundtrip s
    exact loadConsentState_of_cookie _ _ text hs hp
      (saveAndApplyConsent_state_present s.toJS w hjar hdom hexp)
  · intro hexp hdom
    have h := saveAndApplyConsent_getCookie_state s.toJS w hjar
    rw [(getCookie_expired s.toJS { w with consentState := s.toJS } hjar hdom hexp)] at h
    unfold loadConsentState
    rw [h]
  · intro hdom
    exact loadConsentState_congr _ _ (saveAndApplyConsent_rejected s.toJS w hjar hdom).1

/-- The state a modal action adopts: `functional` is `true`, the other categories are fixed by
the action or read from the document. -/
theorem action_adopts (a : ModalAction) (w : World) :
    ∃ s : ConsentState, s.functional = true ∧ a.run w = saveAndApplyConsent s.toJS w := by
  cases a with
  | accept => exact ⟨⟨true, true, true, true, true, true, w.nowISO, w.config.locale⟩, rfl, rfl⟩
  | reject => exact ⟨⟨true, false, false, false, false, false, w.nowISO, w.config.locale⟩, rfl, rfl⟩
  | saveCustom =>
    exact ⟨⟨true, inputChecked "analytical" w, inputChecked "performance" w,
      inputChecked "advertising" w, inputChecked "social" w, inputChecked "other" w,
      w.nowISO, w.config.locale⟩, rfl, rfl⟩

theorem action_frame (a : ModalAction) (w : World) (hjar : WellFormedJar w.cookies) :
    WellFormedJar (a.run w).cookies ∧ (a.run w).config = w.config ∧
    (a.run w).acceptsDomain = w.acceptsDomain ∧
    getProp (a.run w).consentState "functional" = .bool true ∧
    (0 < w.config.cookieExpiryDays → w.acceptsDomain = true →
      loadConsentState (a.run w) = (a.run w).consentState) ∧
    (w.config.cookieExpiryDays ≤ 0 → w.acceptsDomain = true →
      loadConsentState (a.run w) = .null) ∧
    (w.acceptsDomain = false → loadConsentState (a.run w) = loadConsentState w) := by
  obtain ⟨s, hf, hrun⟩ := action_adopts a w
  have hfun : getProp s.toJS "functional" = .bool true := by rw [← hf]; rfl
  have hp := adopt_persisted s w hjar
  rw [hrun]
  refine ⟨saveAndApplyConsent_wf _ w hjar, saveAndApplyConsent_config _ w,
    saveAndApplyConsent_acceptsDomain _ w, ?_, ?_, hp.2.1, hp.2.2⟩
  · rw [saveAndApplyConsent_consentState]; exact hfun
  · intro hexp hdom
    rw [hp.1 hexp hdom, saveAndApplyConsent_consentState]

theorem construct_frame (cfg : Config) (page : World) (hjar : WellFormedJar page.cookies) :
    WellFormedJar (construct cfg page).cookies ∧ (construct cfg page).config = cfg ∧
    loadConsentState (construct cfg page) = loadConsentState page ∧
    (construct cfg page).acceptsDomain
      = domainAccepted page.hostname page.publicSuffix cfg.domain := by
  unfold construct
  simp only
  split_ifs
  · have hk := applyConsentState_kept
      { page with config := cfg, consentState := loadConsentState page, currentModal := .null }
    exact ⟨hk.wf hjar, hk.config, hk.loadConsentState hjar, hk.accepts⟩
  · have hc : ∀ w : World, (showConsentModal "banner" w).cookies = w.cookies ∧
        (showConsentModal "banner" w).config = w.config := fun w => ⟨rfl, rfl⟩
    refine ⟨by rw [(hc _).1]; exact hjar, (hc _).2, ?_, rfl⟩
    exact loadConsentState_congr _ _ (by rw [(hc _).1])

theorem runActions_frame (actions : List ModalAction) (w : World)
    (hjar : WellFormedJar w.cookies) :
    WellFormedJar (runActions actions w).cookies ∧ (runActions actions w).config = w.config ∧
    (runActions actions w).acceptsDomain = w.acceptsDomain := by
  unfold runActions
  induction actions generalizing w with
  | nil => exact ⟨hjar, rfl, rfl⟩
  | cons a rest ih =>
    rw [List.foldl_cons]
    have ha := action_frame a w hjar
    have hr := ih (a.run w) ha.1
    exact ⟨hr.1, hr.2.1.trans ha.2.1, hr.2.2.trans ha.2.2.1⟩

/-- C6 (counterexample): a widget constructed on a page whose state cookie holds
`functional: false` adopts that state, and the cookie still decodes to it: the state reached
from construction by no action at all has `functional = false` in the cookie.  On the host
`localhost` with `domain: 'example.com'` the browser ignores what `acceptAllConsent()` writes,
so the cookie of the earlier visit, with `functional: false`, is still the persisted state
after the action. -/
theorem persisted_functional_false :
    getProp (construct sampleConfig
      (pageWithStateCookie "%7B%22functional%22%3Afalse%7D")).consentState "functional"
        = .bool false ∧
    loadConsentState (construct sampleConfig
      (pageWithStateCookie "%7B%22functional%22%3Afalse%7D"))
        = .obj [("functional", .bool false)] ∧
    getProp (acceptAllConsent (construct foreignDomainPage.config
      foreignDomainPage)).consentState "functional" = .bool true ∧
    loadConsentState (acceptAllConsent (construct foreignDomainPage.config foreignDomainPage))
      = .obj [("functional", .bool false)] := by
  exact ⟨rfl, rfl, rfl, rfl⟩

/-- C6 (amended): every state a modal action adopts has `functional = true`.  When the expiry
is positive and the browser accepts the configured domain for the host of the page, the state
is persisted: after one or more actions from construction the state cookie decodes to the
state adopted last, whose `functional` field is `true`.  With an expiry that is not positive
the cookie is removed, and with a domain the browser does not accept the cookie stays what it
was. -/
theorem modal_actions_persist_functional (cfg : Config) (page : World)
    (actions : List ModalAction) (a : ModalAction) (hjar : WellFormedJar page.cookies) :
    getProp (a.run (runActions actions (construct cfg page))).consentState "functional"
      = .bool true ∧
    (0 < cfg.cookieExpiryDays →
      domainAccepted page.hostname page.publicSuffix cfg.domain = true →
      loadConsentState (a.run (runActions actions (construct cfg page)))
        = (a.run (runActions actions (construct cfg page))).consentState ∧
      getProp (loadConsentState (a.run (runActions actions (construct cfg page))))
        "functional" = .bool true) ∧
    (cfg.cookieExpiryDays ≤ 0 →
      domainAccepted page.hostname page.publicSuffix cfg.domain = true →
      loadConsentState (a.run (runActions actions (construct cfg page))) = .null) ∧
    (domainAccepted page.hostname page.publicSuffix cfg.domain = false →
      loadConsentState (a.run (runActions actions (construct cfg page)))
        = loadConsentState (runActions actions (construct cfg page))) := by
  have hc := construct_frame cfg page hjar
  have hr := runActions_frame actions (construct cfg page) hc.1
  have ha := action_frame a _ hr.1
  have hcfg : (runActions actions (construct cfg page)).config = cfg := hr.2.1.trans hc.2.1
  have hacc : (runActions actions (construct cfg page)).acceptsDomain
      = domainAccepted page.hostname page.publicSuffix cfg.domain := hr.2.2.trans hc.2.2.2
  rw [hcfg, hacc] at ha
  refine ⟨ha.2.2.2.1, fun hexp hdom => ?_, ha.2.2.2.2.2.1, ha.2.2.2.2.2.2⟩
  have hl := ha.2.2.2.2.1 hexp hdom
  exact ⟨hl, by rw [hl]; exact ha.2.2.2.1⟩

/-- C6 (witness): a widget constructed on a page that holds an earlier consent, followed by a
rejection, a custom save and an acceptance. -/
theorem modal_actions_persist_functional_witness :
    WellFormedJar visitedPage.cookies ∧
    getProp (loadConsentState (acceptAllConsent (runActions [.reject, .saveCustom]
      (construct sampleConfig visitedPage)))) "functional" = .bool true :=
  ⟨wf_visited,
    ((modal_actions_persist_functional sampleConfig visitedPage [.reject, .saveCustom] .accept
      wf_visited).2.1 (by decide) (by decide)).2⟩

theorem isTrue_iff (v : JSValue) : v.isTrue = true ↔ v = .bool true := by
  cases v with
  | bool b => cases b <;> simp [JSValue.isTrue]
  | _ => simp [JSValue.isTrue]

theorem inheritedProp_isTrue (k : String) : (inheritedProp k).isTrue = false := by
  unfold inheritedProp
  split_ifs <;> rfl

/-- C7: `hasConsent(category)` is `true` exactly when a consent state exists and its property
`category` is `true`; it is `false` when no consent state exists and for every name that is
not a field of the state object. -/
theorem hasConsent_iff (w : World) (category : String) :
    (hasConsent category w = true ↔
      w.consentState ≠ .null ∧ w.consentState ≠ .undefined ∧
        getProp w.consentState category = .bool true) ∧
    (w.consentState = .null → hasConsent category w = false) ∧
    (∀ fields, w.consentState = .obj fields → lookup category fields = none →
      hasConsent category w = false) := by
  refine ⟨?_, ?_, ?_⟩
  · unfold hasConsent
    rw [isTrue_iff]
    cases hs : w.consentState <;> simp [getPropOpt]
  · intro h
    unfold hasConsent
    rw [h]
    rfl
  · intro fields h hl
    unfold hasConsent
    rw [h]
    simp only [getPropOpt, getProp, hl, Option.getD_none]
    exact inheritedProp_isTrue category

/-- C8: `loadConsentState()` returns `null` when the state cookie is absent, when its value
fails URL-decoding and when the decoded text fails JSON parsing, as for the values
`invalid-json` and `{invalid json}`; being a total function, it raises nothing. -/
theorem loadConsentState_null (w : World) :
    (getCookie "cookie_consent_state" w.cookies = none → loadConsentState w = .null) ∧
    (∀ c, getCookie "cookie_consent_state" w.cookies = some c →
      decodeURIComponent c = none → loadConsentState w = .null) ∧
    (∀ c text, getCookie "cookie_consent_state" w.cookies = some c →
      decodeURIComponent c = some text → JSON.parse text = none →
      loadConsentState w = .null) ∧
    loadConsentState (pageWithStateCookie "invalid-json") = .null ∧
    loadConsentState (pageWithStateCookie "\x7binvalid json\x7d") = .null ∧
    loadConsentState (pageWithStateCookie "%E0%A4%A") = .null := by
  refine ⟨?_, ?_, ?_, rfl, rfl, rfl⟩
  · intro h
    unfold loadConsentState
    rw [h]
  · intro c h hd
    unfold loadConsentState
    rw [h]
    simp only [hd]
    split_ifs <;> rfl
  · intro c text h hd hp
    unfold loadConsentState
    rw [h]
    simp only [hd, hp]
    split_ifs <;> rfl

/-! ## Claims about localization and the policy loader -/

theorem defaultTexts_assigned : assignProps [] defaultTexts = defaultTexts :=
  assignProps_nil defaultTexts (by decide)

theorem defaultTexts_truthy : ∀ e ∈ defaultTexts, e.2.truthy = true := by
  decide

/-- C9 (counterexample): a caller-supplied empty text is not returned, the key is; and for a
key that names a member of `Object.prototype`, absent from both tables, that member is returned
instead of the key. -/
theorem getLocalizedText_not_verbatim :
    getLocalizedText blankTitleConfig "cookieConsent.title" = .str "cookieConsent.title" ∧
    getLocalizedText sampleConfig "constructor" = .native "constructor" := by
  exact ⟨rfl, rfl⟩

/-- C9 (amended): for every key that is not a property name of `Object.prototype`,
`getLocalizedText(key)` returns the caller-supplied text when the table of the active locale
holds a truthy value under `key` and the key itself when that value is falsy; when the table
does not hold `key`, it returns the built-in default text if there is one and the key itself
otherwise. -/
theorem getLocalizedText_lookup (cfg : Config) (key : String)
    (hkey : key ∉ objectPrototypeNames)
    (htable : ((ownProps (userTexts cfg)).map Prod.fst).Nodup) :
    (∀ v, lookup key (ownProps (userTexts cfg)) = some v →
      getLocalizedText cfg key = if v.truthy then v else .str key) ∧
    (lookup key (ownProps (userTexts cfg)) = none →
      ∀ t, lookup key defaultTexts = some t → getLocalizedText cfg key = t) ∧
    (lookup key (ownProps (userTexts cfg)) = none → lookup key defaultTexts = none →
      getLocalizedText cfg key = .str key) := by
  have hl : lookup key (combinedTexts cfg)
      = firstSome (lookup key (ownProps (userTexts cfg))) (lookup key defaultTexts) := by
    unfold combinedTexts
    rw [defaultTexts_assigned, lookup_assignProps _ _ _ htable]
  have hi : inheritedProp key = .undefined := by
    unfold inheritedProp
    rw [if_neg hkey]
  refine ⟨?_, ?_, ?_⟩
  · intro v hv
    simp only [getLocalizedText, getProp, hl, hv, firstSome, Option.getD_some, JSValue.or]
  · intro hn t ht
    have htr := defaultTexts_truthy _ (lookup_mem _ _ _ ht)
    simp only at htr
    simp only [getLocalizedText, getProp, hl, hn, ht, firstSome, Option.getD_some, JSValue.or,
      htr, if_true]
  · intro hn hd
    simp only [getLocalizedText, getProp, hl, hn, hd, firstSome, Option.getD_none, hi, JSValue.or,
      JSValue.truthy]
    rfl

/-- C9 (witness): the title in French, supplied by the caller. -/
theorem getLocalizedText_lookup_witness :
    "cookieConsent.title" ∉ objectPrototypeNames ∧
    ((ownProps (userTexts frenchConfig)).map Prod.fst).Nodup ∧
    lookup "cookieConsent.title" (ownProps (userTexts frenchConfig))
      = some (.str "Titre en français") ∧
    getLocalizedText frenchConfig "cookieConsent.title" = .str "Titre en français" :=
  ⟨by decide, by decide, rfl,
    (getLocalizedText_lookup frenchConfig "cookieConsent.title" (by decide) (by decide)).1
      _ rfl⟩

/-- C10 (code at the failing input): with the default texts and a response of status 404,
`loadMarkdownFile` resolves to a paragraph that holds the misspelt key
`cookieConsent.plolicyContentError`, while the text the default table keeps for the placeholder
is stored under `cookieConsent.policyContentError`. -/
theorem loadMarkdownFile_placeholder_key (render : String → Option String) :
    loadMarkdownFile sampleConfig render (.response false 404 none)
      = "<p>cookieConsent.plolicyContentError</p>" ∧
    loadMarkdownFile sampleConfig render .failed = "<p>cookieConsent.plolicyContentError</p>" ∧
    getLocalizedText sampleConfig "cookieConsent.policyContentError"
      = .str "Policy content could not be loaded." := by
  exact ⟨rfl, rfl, rfl⟩

/-! ## Claims about handlers, the form, the blocked overlay and the configuration -/

/-- C11 (code at the failing input): with a handler configured under `custom`,
`acceptAllConsent()` calls no handler, because the adopted state has no property `custom`; a
handler configured under `analytical` is called once with `true`. -/
theorem acceptAllConsent_custom_handler :
    handlerCalls (acceptAllConsent customHandlerPage) = [] ∧
    handlerCalls (acceptAllConsent analyticalHandlerPage) = [(.fn 1, .bool true)] := by
  exact ⟨rfl, rfl⟩

/-- C12: `registerThirdPartyHandler(category, handler)` stores `handler` under `category` and
leaves the handlers under other names unchanged; when a consent state exists and `handler` is
a function, it is called exactly once, with the state's value for `category`; when no consent
state exists, nothing is called. -/
theorem registerThirdPartyHandler_registers (category : String) (handler : JSValue)
    (w : World) :
    lookup category (registerThirdPartyHandler category handler w).config.thirdPartyHandlers
      = some handler ∧
    (∀ k, k ≠ category →
      lookup k (registerThirdPartyHandler category handler w).config.thirdPartyHandlers
        = lookup k w.config.thirdPartyHandlers) ∧
    (w.consentState.truthy = true → handler.isFunction = true →
      (registerThirdPartyHandler category handler w).log
        = w.log ++ [Effect.call handler (getProp w.consentState category)]) ∧
    (w.consentState.truthy = false →
      (registerThirdPartyHandler category handler w).log = w.log) := by
  have hcfg : (registerThirdPartyHandler category handler w).config.thirdPartyHandlers
      = setProp category handler w.config.thirdPartyHandlers := by
    unfold registerThirdPartyHandler
    simp only
    split_ifs <;> rfl
  refine ⟨?_, ?_, ?_, ?_⟩
  · rw [hcfg, lookup_setProp, if_pos rfl]
  · intro k hk
    rw [hcfg, lookup_setProp, if_neg (fun e => hk e.symm)]
  · intro hs hf
    unfold registerThirdPartyHandler
    simp only
    rw [if_pos ⟨hs, hf⟩]
  · intro hs
    unfold registerThirdPartyHandler
    simp only
    rw [if_neg (by simp [hs])]

theorem inputChecked_absent (name : String) (w : World)
    (h : ∀ i ∈ namedElements w, i.1 ≠ name) : inputChecked name w = false := by
  unfold inputChecked
  have hf : (namedElements w).find? (fun i => i.1 = name) = none := by
    rw [List.find?_eq_none]
    intro i hi
    simpa using h i hi
  rw [hf]

theorem find?_first (name : String) (pre post : List (String × Bool)) (b : Bool)
    (hpre : ∀ i ∈ pre, i.1 ≠ name) :
    (pre ++ (name, b) :: post).find? (fun i => decide (i.1 = name)) = some (name, b) := by
  induction pre with
  | nil => simp
  | cons p rest ih =>
    have hp : ¬ p.1 = name := hpre p (by simp)
    simp only [List.cons_append, List.find?_cons, hp, decide_False]
    exact ih (fun i hi => hpre i (List.mem_cons_of_mem _ hi))

theorem inputChecked_first (name : String) (w : World) (pre post : List (String × Bool))
    (b : Bool) (hdoc : namedElements w = pre ++ (name, b) :: post)
    (hpre : ∀ i ∈ pre, i.1 ≠ name) : inputChecked name w = b := by
  unfold inputChecked
  rw [hdoc, find?_first name pre post b hpre]

theorem inputChecked_form (name : String) (w : World) (pre post : List (String × Bool))
    (b : Bool) (hhost : ∀ e ∈ w.elements, e.name ≠ some name)
    (hform : formInputs w = pre ++ (name, b) :: post)
    (hpre : ∀ i ∈ pre, i.1 ≠ name) : inputChecked name w = b := by
  apply inputChecked_first name w
    ((w.elements.filterMap fun e => e.name.map fun n => (n, e.checked)) ++ pre) post b
  · unfold namedElements
    unfold formInputs at hform
    rw [hform, List.append_assoc]
  · intro i hi
    rcases List.mem_append.1 hi with h | h
    · rw [List.mem_filterMap] at h
      obtain ⟨e, he, hn⟩ := h
      intro heq
      apply hhost e he
      cases hname : e.name with
      | none => rw [hname] at hn; simp at hn
      | some n =>
        rw [hname] at hn
        simp only [Option.map_some', Option.some.injEq] at hn
        rw [← hn] at heq
        rw [← heq]
    · exact hpre i h

/-- C17 (code at the failing input): `saveCustomConsent()` reads each category with
`document.querySelector('[name="..."]')`, the first element of the whole document with that
`name`.  On a host page with a text field named `other`, while the management modal shows
`other` checked, it adopts `other = false`.  In general it adopts `functional = true` and, for
each of the five other categories, the `checked` property of the first element of the document
with that name, `false` when there is none; this is the state of the checkbox of the form when
no element of the host page has that name. -/
theorem saveCustomConsent_reads_document :
    (formInputs hostFormPage).find? (fun i => i.1 = "other") = some ("other", true) ∧
    getProp (saveCustomConsent hostFormPage).consentState "other" = .bool false ∧
    getProp (saveCustomConsent hostFormPage).consentState "analytical" = .bool true ∧
    (∀ w : World,
      (saveCustomConsent w).consentState
        = (ConsentState.mk true (inputChecked "analytical" w) (inputChecked "performance" w)
            (inputChecked "advertising" w) (inputChecked "social" w) (inputChecked "other" w)
            w.nowISO w.config.locale).toJS ∧
      getProp (saveCustomConsent w).consentState "functional" = .bool true ∧
      (∀ c ∈ optionalCategories,
        getProp (saveCustomConsent w).consentState c = .bool (inputChecked c w)) ∧
      (∀ c, (∀ i ∈ namedElements w, i.1 ≠ c) → inputChecked c w = false) ∧
      (∀ c pre post b, namedElements w = pre ++ (c, b) :: post → (∀ i ∈ pre, i.1 ≠ c) →
        inputChecked c w = b) ∧
      (∀ c pre post b, (∀ e ∈ w.elements, e.name ≠ some c) →
        formInputs w = pre ++ (c, b) :: post → (∀ i ∈ pre, i.1 ≠ c) →
        inputChecked c w = b)) := by
  refine ⟨rfl, rfl, rfl, fun w => ?_⟩
  have hstate : (saveCustomConsent w).consentState
      = (ConsentState.mk true (inputChecked "analytical" w) (inputChecked "performance" w)
          (inputChecked "advertising" w) (inputChecked "social" w) (inputChecked "other" w)
          w.nowISO w.config.locale).toJS :=
    saveAndApplyConsent_consentState _ w
  refine ⟨hstate, by rw [hstate]; rfl, ?_, fun c h => inputChecked_absent c w h,
    fun c pre post b h1 h2 => inputChecked_first c w pre post b h1 h2,
    fun c pre post b h0 h1 h2 => inputChecked_form c w pre post b h0 h1 h2⟩
  intro c hc
  rw [hstate]
  simp only [optionalCategories, List.mem_cons, List.mem_singleton, List.not_mem_nil,
    or_false] at hc
  rcases hc with rfl | rfl | rfl | rfl | rfl <;> rfl

theorem saveAndApplyConsent_modals (state : JSValue) (w : World) :
    (saveAndApplyConsent state w).modals =
      if !(getProp state "functional").truthy ∧ w.config.blockSiteOnFunctionalDeny then
        w.modals.drop 1 ++ [⟨"blocked", []⟩]
      else w.modals.drop 1 := by
  have hm : (applyConsentState (saveConsentState state { w with consentState := state })).modals
      = w.modals := by
    rw [(applyConsentState_kept _).modals, (saveConsentState_frame _ _).2.2.2.1]
  have hc : (applyConsentState (saveConsentState state { w with consentState := state })).config
      = w.config := by
    rw [(applyConsentState_kept _).config, (saveConsentState_frame _ _).1]
  have hclose : ∀ x : World, (closeModal x).modals = x.modals.drop 1 ∧
      (closeModal x).config = x.config := by
    intro x
    unfold closeModal
    split
    · next h => simp [h]
    · next h => simp [h]
  unfold saveAndApplyConsent
  simp only
  rw [(hclose _).2, hc]
  split_ifs
  · show (closeModal _).modals ++ _ = _
    rw [(hclose _).1, hm]
  · show (closeModal _).modals = _
    rw [(hclose _).1, hm]

/-- C18: on a page without a blocked overlay, `saveAndApplyConsent(state)` leaves a blocked
overlay mounted exactly when `state.functional` is not `true` and
`config.blockSiteOnFunctionalDeny` is `true`; the call removes the modal that was open and the
overlay is mounted after it. -/
theorem saveAndApplyConsent_blocked (state : JSValue) (w : World)
    (hnone : ∀ m ∈ w.modals, m.type ≠ "blocked")
    (hfun : getProp state "functional" = .undefined ∨
      ∃ b, getProp state "functional" = .bool b) :
    (blockedMounted (saveAndApplyConsent state w) ↔
      (getProp state "functional" ≠ .bool true ∧ w.config.blockSiteOnFunctionalDeny = true)) ∧
    ((getProp state "functional" ≠ .bool true ∧ w.config.blockSiteOnFunctionalDeny = true) →
      (saveAndApplyConsent state w).modals = w.modals.drop 1 ++ [⟨"blocked", []⟩]) := by
  have htr : (getProp state "functional").truthy = false ↔
      getProp state "functional" ≠ .bool true := by
    rcases hfun with h | ⟨b, h⟩
    · rw [h]; simp [JSValue.truthy]
    · rw [h]; cases b <;> simp [JSValue.truthy]
  have hdrop : ∀ m ∈ w.modals.drop 1, m.type ≠ "blocked" :=
    fun m hm => hnone m (List.mem_of_mem_drop hm)
  rw [← htr]
  constructor
  · unfold blockedMounted
    rw [saveAndApplyConsent_modals]
    constructor
    · rintro ⟨m, hm, ht⟩
      split_ifs at hm with hc
      · exact ⟨by simpa using hc.1, hc.2⟩
      · exact absurd ht (hdrop m hm)
    · rintro ⟨h1, h2⟩
      rw [if_pos ⟨by simp [h1], h2⟩]
      exact ⟨⟨"blocked", []⟩, by simp, rfl⟩
  · rintro ⟨h1, h2⟩
    rw [saveAndApplyConsent_modals, if_pos ⟨by simp [h1], h2⟩]

/-- C18 (witness): the banner is open, the site blocks on refusal, and the state from
`createConsentState({ functional: false })` is adopted, as in the test. -/
theorem saveAndApplyConsent_blocked_witness :
    (∀ m ∈ blockingPage.modals, m.type ≠ "blocked") ∧
    modalTypes blockingPage = ["banner"] ∧
    (blockedMounted (saveAndApplyConsent
        (createConsentState blockingPage (.obj [("functional", .bool false)])) blockingPage) ↔
      (getProp (createConsentState blockingPage (.obj [("functional", .bool false)]))
          "functional" ≠ .bool true ∧
        blockingPage.config.blockSiteOnFunctionalDeny = true)) ∧
    ((getProp (createConsentState blockingPage (.obj [("functional", .bool false)]))
          "functional" ≠ .bool true ∧
        blockingPage.config.blockSiteOnFunctionalDeny = true) →
      (saveAndApplyConsent
        (createConsentState blockingPage (.obj [("functional", .bool false)]))
        blockingPage).modals = blockingPage.modals.drop 1 ++ [⟨"blocked", []⟩]) :=
  ⟨by decide, rfl,
    saveAndApplyConsent_blocked
      (createConsentState blockingPage (.obj [("functional", .bool false)])) blockingPage
      (by decide) (Or.inr ⟨false, rfl⟩)⟩

theorem configDefaults_assigned (hostname : String) (detected : JSValue) (config : JSObject) :
    assignProps [] (configDefaults hostname detected config)
      = configDefaults hostname detected config :=
  assignProps_nil _ (by
    show keysInOrder ["domain", "subdomains", "cookieExpiryDays", "locale", "localization",
      "privacyPolicyUrl", "cookiePolicyUrl", "termsUrl", "consentEndpoint", "customData",
      "blockSiteOnFunctionalDeny", "theme", "thirdPartyHandlers"] = true
    decide)

theorem getProp_absent (config : JSObject) (k : String) (hk : k ∉ objectPrototypeNames)
    (h : lookup k config = none) : getProp (.obj config) k = .undefined := by
  simp only [getProp, h, Option.getD_none, inheritedProp, if_neg hk]

/-- C20: in the configuration `mergeConfig` returns, every key of the caller's object has the
caller's value, and every key the caller did not supply has its default: the host name of the
page as `domain`, `cookieExpiryDays` 365, `blockSiteOnFunctionalDeny` false, the three policy
URL templates, and empty `localization`, `customData`, `thirdPartyHandlers`, `subdomains` and
`theme`. -/
theorem mergeConfig_merges (hostname : String) (detected : JSValue) (config : JSObject)
    (hkeys : (config.map Prod.fst).Nodup) :
    (∀ k v, lookup k config = some v →
      lookup k (mergeConfig hostname detected config) = some v) ∧
    (∀ k d, lookup k (fixedDefaults hostname) = some d → lookup k config = none →
      lookup k (mergeConfig hostname detected config) = some d) := by
  have hl : ∀ k, lookup k (mergeConfig hostname detected config)
      = firstSome (lookup k config) (lookup k (configDefaults hostname detected config)) := by
    intro k
    unfold mergeConfig
    rw [configDefaults_assigned, lookup_assignProps _ _ _ hkeys]
  constructor
  · intro k v hv
    rw [hl, hv]
    rfl
  · intro k d hd hn
    rw [hl, hn]
    have hmem := lookup_mem _ _ _ hd
    simp only [fixedDefaults, List.mem_cons, List.mem_singleton, Prod.mk.injEq,
      List.not_mem_nil, or_false] at hmem
    rcases hmem with ⟨rfl, rfl⟩ | ⟨rfl, rfl⟩ | ⟨rfl, rfl⟩ | ⟨rfl, rfl⟩ | ⟨rfl, rfl⟩ |
      ⟨rfl, rfl⟩ | ⟨rfl, rfl⟩ | ⟨rfl, rfl⟩ | ⟨rfl, rfl⟩ | ⟨rfl, rfl⟩ | ⟨rfl, rfl⟩ <;>
    · have hg := getProp_absent config _ (by decide) hn
      simp only [firstSome, configDefaults, lookup, hg, JSValue.or, JSValue.truthy]
      rfl

/-- C20 (witness): the caller configuration of the test, merged on the host `localhost`. -/
theorem mergeConfig_merges_witness :
    (customConfig.map Prod.fst).Nodup ∧
    lookup "domain" (mergeConfig "localhost" (.str "en") customConfig)
      = some (.str "example.com") ∧
    lookup "locale" (mergeConfig "localhost" (.str "en") customConfig) = some (.str "fr") ∧
    lookup "cookieExpiryDays" (mergeConfig "localhost" (.str "en") customConfig)
      = some (.num 30 0) ∧
    lookup "blockSiteOnFunctionalDeny" (mergeConfig "localhost" (.str "en") customConfig)
      = some (.bool false) :=
  ⟨by decide,
    (mergeConfig_merges "localhost" (.str "en") customConfig (by decide)).1 _ _ rfl,
    (mergeConfig_merges "localhost" (.str "en") customConfig (by decide)).1 _ _ rfl,
    (mergeConfig_merges "localhost" (.str "en") customConfig (by decide)).1 _ _ rfl,
    (mergeConfig_merges "localhost" (.str "en") customConfig (by decide)).2 _ _ rfl rfl⟩

/-! ## Claims about the modals -/

theorem closeModal_modals (w : World) : (closeModal w).modals = w.modals.drop 1 := by
  unfold closeModal
  split
  · next h => simp [h]
  · next h => simp [h]

theorem showConsentModal_length (type : String) (w : World) :
    (showConsentModal type w).modals.length ≤ w.modals.length + 1 := by
  unfold showConsentModal
  simp only
  split_ifs <;>
    simp [showBannerModal, showFullscreenModal, showManagementModal, mountModal]

theorem adopt_length (s : ConsentState) (hf : s.functional = true) (w : World)
    (h : w.modals.length ≤ 1) : (saveAndApplyConsent s.toJS w).modals.length ≤ 1 := by
  have hfun : (getProp s.toJS "functional").truthy = true := by rw [← hf]; rfl
  rw [saveAndApplyConsent_modals, if_neg (by simp [hfun])]
  simp only [List.length_drop]
  omega

theorem action_length (a : ModalAction) (w : World) (h : w.modals.length ≤ 1) :
    (a.run w).modals.length ≤ 1 := by
  obtain ⟨s, hf, hrun⟩ := action_adopts a w
  rw [hrun]
  exact adopt_length s hf w h

theorem reopen_length (type : String) (w : World) (h : w.modals.length ≤ 1) :
    (showConsentModal type (closeModal w)).modals.length ≤ 1 := by
  have h1 := showConsentModal_length type (closeModal w)
  rw [closeModal_modals, List.length_drop] at h1
  omega

theorem closeModal_length (w : World) (h : w.modals.length ≤ 1) :
    (closeModal w).modals.length ≤ 1 := by
  rw [closeModal_modals, List.length_drop]
  omega

theorem step_length (s : UIStep) (w : World) (h : w.modals.length ≤ 1) :
    s.run w = policyLoaded w ∨ (s.run w).modals.length ≤ 1 := by
  have hfull : (showFullscreenModal (closeModal w)).modals.length ≤ 1 := by
    show ((closeModal w).modals ++ _).length ≤ 1
    rw [closeModal_modals]
    simp only [List.length_append, List.length_drop, List.length_singleton]
    omega
  have hpol : ∀ p, (showPolicyModal p (closeModal w)).modals.length ≤ 1 :=
    fun p => closeModal_length w h
  cases s with
  | showModal type => right; exact reopen_length type w h
  | banner action doc =>
    right
    simp only [UIStep.run, bannerClick]
    split_ifs
    · exact action_length .accept w h
    · exact action_length .reject w h
    · exact hfull
    · exact hpol doc
    · exact h
    · exact h
  | fullscreen action doc =>
    right
    simp only [UIStep.run, fullscreenClick]
    split_ifs
    · exact action_length .accept w h
    · exact action_length .reject w h
    · exact action_length .saveCustom w h
    · exact hpol doc
    · exact h
    · exact h
  | management action doc =>
    right
    simp only [UIStep.run, managementClick]
    split_ifs
    · exact action_length .saveCustom w h
    · exact closeModal_length w h
    · exact hpol doc
    · exact h
    · exact h
  | policy action =>
    right
    simp only [UIStep.run, policyClick]
    split_ifs
    · exact reopen_length "banner" w h
    · exact closeModal_length w h
    · exact h
    · exact h
  | policyLoaded => left; rfl
  | escape =>
    right
    simp only [UIStep.run, escapeKey]
    split_ifs
    · exact closeModal_length w h
    · exact h
  | backdrop type =>
    right
    simp only [UIStep.run, backdropClick]
    split_ifs
    · exact reopen_length "banner" w h
    · exact closeModal_length w h
    · exact h
    · exact h

/-- C14 (code at the failing input): a click on the policy link of the banner, a call of
`showModal('banner')` while the policy document is still being fetched, and the completion of
the fetch leave two modals mounted, and a further `showModal('banner')` still does; every step
other than the completion of a policy fetch keeps a single modal single. -/
theorem deferred_policy_modal_doubles :
    modalTypes (construct sampleConfig samplePage) = ["banner"] ∧
    modalTypes (runSteps [.banner "policy" "privacy", .showModal "banner", .policyLoaded]
      (construct sampleConfig samplePage)) = ["banner", "policy"] ∧
    modalTypes (runSteps
      [.banner "policy" "privacy", .showModal "banner", .policyLoaded, .showModal "banner"]
      (construct sampleConfig samplePage)) = ["policy", "banner"] ∧
    ∀ (s : UIStep) (w : World), w.modals.length ≤ 1 →
      s.run w = policyLoaded w ∨ (s.run w).modals.length ≤ 1 := by
  exact ⟨rfl, rfl, rfl, fun s w h => step_length s w h⟩

/-- C15 (code at the failing input): after the manage button of the banner has opened the
fullscreen modal, and after the policy link has opened the policy modal, `currentModal` is
`null` and the key `Escape` removes nothing; it removes the modal whenever `currentModal` is
set. -/
theorem escape_ignored_without_currentModal :
    modalTypes (runSteps [.banner "manage" ""] (construct sampleConfig samplePage))
      = ["fullscreen"] ∧
    (runSteps [.banner "manage" ""] (construct sampleConfig samplePage)).currentModal = .null ∧
    modalTypes (runSteps [.banner "manage" "", .escape] (construct sampleConfig samplePage))
      = ["fullscreen"] ∧
    modalTypes (runSteps [.banner "policy" "privacy", .policyLoaded, .escape]
      (construct sampleConfig samplePage)) = ["policy"] ∧
    ∀ w : World, w.currentModal.truthy = true → (escapeKey w).modals = w.modals.drop 1 := by
  refine ⟨rfl, rfl, rfl, rfl, fun w h => ?_⟩
  unfold escapeKey
  rw [if_pos h, closeModal_modals]

/-- C16 (code at the failing input): with the policy modal opened from the policy link of the
banner and no consent state, a click on the backdrop of the policy modal changes nothing: the
policy modal stays and no banner is mounted. -/
theorem policy_backdrop_ignored :
    (runSteps [.banner "policy" "privacy", .policyLoaded]
      (construct sampleConfig samplePage)).consentState = .null ∧
    modalTypes (runSteps [.banner "policy" "privacy", .policyLoaded]
      (construct sampleConfig samplePage)) = ["policy"] ∧
    modalTypes (runSteps [.banner "policy" "privacy", .policyLoaded, .backdrop "policy"]
      (construct sampleConfig samplePage)) = ["policy"] ∧
    (runSteps [.banner "policy" "privacy", .policyLoaded, .backdrop "policy"]
      (construct sampleConfig samplePage)).currentModal = .null := by
  exact ⟨rfl, rfl, rfl, rfl⟩

/-! ## The blockers as clean-up steps -/

theorem pairText_semicolon (jar : CookieJar) (hwf : WellFormedJar jar) (e : String × String)
    (he : e ∈ jar) : ∀ x ∈ pairText e, x ≠ ';' := by
  intro x hx
  simp only [pairText, List.mem_append, List.mem_cons] at hx
  rcases hx with h | h | h
  · exact hwf.name_semicolon e he x h
  · rw [h]; decide
  · exact hwf.value_semicolon e he x h

theorem split_cookieText (e : String × String) (rest : CookieJar) (cur : List Char)
    (h : ∀ e' ∈ e :: rest, ∀ x ∈ pairText e', x ≠ ';') :
    splitScan [';'] 0 (cookieText (e :: rest)) cur
      = (cur.reverse ++ pairText e) :: rest.map (fun e' => ' ' :: pairText e') := by
  induction rest generalizing e cur with
  | nil =>
    have ht : cookieText [e] = pairText e ++ [] := by
      obtain ⟨n, v⟩ := e
      simp [cookieText, pairText]
    rw [ht, splitScan_pass [] ';' _ _ _ (h e (by simp))]
    simp [splitScan]
  | cons e2 r ih =>
    have ht : cookieText (e :: e2 :: r) = pairText e ++ (';' :: ' ' :: cookieText (e2 :: r)) := by
      obtain ⟨n, v⟩ := e
      simp [cookieText, pairText]
    have hp : [';'].isPrefixOf (';' :: ' ' :: cookieText (e2 :: r)) = true := by
      simp [List.isPrefixOf_cons₂, List.isPrefixOf]
    have hq : [';'].isPrefixOf (' ' :: cookieText (e2 :: r)) = false := by
      simp [List.isPrefixOf_cons₂]
    rw [ht, splitScan_pass [] ';' _ _ _ (h e (by simp)), splitScan, hp]
    simp only [if_true, List.length_singleton, Nat.sub_self]
    rw [splitScan, hq]
    simp only [Bool.false_eq_true, if_false]
    rw [ih e2 [' '] (fun e' he' => h e' (List.mem_cons_of_mem _ he'))]
    simp

theorem listedCookieNames_cons (e : String × String) (rest : CookieJar)
    (h : ∀ e' ∈ e :: rest, ∀ x ∈ pairText e', x ≠ ';') :
    listedCookieNames (e :: rest) = (e :: rest).map (fun e' => listedName (pairText e')) := by
  have hs : jsSplit (cookieText (e :: rest)) [';']
      = pairText e :: rest.map (fun e' => ' ' :: pairText e') := by
    have := split_cookieText e rest [] h
    simpa [jsSplit] using this
  unfold listedCookieNames
  rw [hs]
  simp only [List.map_cons, List.map_map]
  rfl

theorem listedCookieNames_mono (jar jar' : CookieJar) (hwf : WellFormedJar jar)
    (hsub : List.Sublist jar' jar) (hne : jar' ≠ []) :
    ∀ n ∈ listedCookieNames jar', n ∈ listedCookieNames jar := by
  have hj : ∀ e ∈ jar, ∀ x ∈ pairText e, x ≠ ';' := fun e he => pairText_semicolon jar hwf e he
  have hj' : ∀ e ∈ jar', ∀ x ∈ pairText e, x ≠ ';' := fun e he => hj e (hsub.subset he)
  cases jar' with
  | nil => exact absurd rfl hne
  | cons e' r' =>
    cases jar with
    | nil => simp at hsub
    | cons e r =>
      rw [listedCookieNames_cons e' r' hj', listedCookieNames_cons e r hj]
      intro n hn
      rw [List.mem_map] at hn ⊢
      obtain ⟨a, ha, rfl⟩ := hn
      exact ⟨a, hsub.subset ha, rfl⟩
theorem below_refl (w : World) : Below w w :=
  ⟨List.Sublist.refl _, List.Sublist.refl _, fun h => h, fun h => h, rfl, rfl⟩

theorem below_trans {a b c : World} (h1 : Below a b) (h2 : Below b c) : Below a c :=
  ⟨h1.cookies.trans h2.cookies, h1.elements.trans h2.elements,
    fun h => h1.fb (h2.fb h), fun h => h1.twttr (h2.twttr h), h1.log.trans h2.log,
    h1.accepts.trans h2.accepts⟩

theorem sublist_wf (jar jar' : CookieJar) (hwf : WellFormedJar jar)
    (hsub : List.Sublist jar' jar) : WellFormedJar jar' :=
  ⟨hwf.names_nodup.sublist (hsub.map _),
    fun e he => hwf.name_semicolon e (hsub.subset he),
    fun e he => hwf.name_equals e (hsub.subset he),
    fun e he => hwf.value_semicolon e (hsub.subset he)⟩

theorem shrinking_id : Shrinking (fun w => w) :=
  ⟨fun w => below_refl w, fun _ _ _ _ => rfl⟩

theorem shrinking_comp (f g : World → World) (hf : Shrinking f) (hg : Shrinking g) :
    Shrinking (fun w => g (f w)) := by
  refine ⟨fun w => below_trans (hg.1 (f w)) (hf.1 w), fun w w' hwf hb => ?_⟩
  have h1 : f w' = w' := hf.2 w w' hwf (below_trans hb (hg.1 (f w)))
  show g (f w') = w'
  rw [h1]
  exact hg.2 (f w) w' (sublist_wf _ _ hwf (hf.1 w).cookies) hb

theorem shrinking_ite (c : Bool) (f : World → World) (hf : Shrinking f) :
    Shrinking (fun w => if c = true then f w else w) := by
  cases c
  · exact shrinking_id
  · exact hf

theorem shrinking_foldl {α : Type} (step : World → α → World) (items : List α)
    (h : ∀ a ∈ items, Shrinking (fun w => step w a)) :
    Shrinking (fun w => items.foldl step w) := by
  induction items with
  | nil => exact shrinking_id
  | cons a rest ih =>
    exact shrinking_comp (fun w => step w a) (fun w => rest.foldl step w) (h a (by simp))
      (ih (fun b hb => h b (List.mem_cons_of_mem _ hb)))

theorem deleteCookie_eq (n : String) (w : World) (hdom : w.acceptsDomain = true)
    (hn : ∀ x ∈ n.data, x ≠ ';') :
    deleteCookie n w = { w with cookies := eraseCookie (parsedName n.data) w.cookies } := by
  have h := deleteCookie_cookies n w hdom hn
  unfold deleteCookie at h ⊢
  simp only at h
  rw [h]

theorem eraseCookie_absent (n : String) (jar : CookieJar) (h : ∀ e ∈ jar, e.1 ≠ n) :
    eraseCookie n jar = jar := by
  rw [eraseCookie_eq_filter, List.filter_eq_self]
  intro e he
  simpa using h e he

theorem shrinking_deleteCookie (n : String) (hn : ∀ x ∈ n.data, x ≠ ';') :
    Shrinking (deleteCookie n) := by
  refine ⟨fun w => ?_, fun w w' _ hb => ?_⟩
  · cases hdom : w.acceptsDomain with
    | false =>
      rw [deleteCookie_rejected n w hdom]
      exact below_refl w
    | true =>
      refine ⟨?_, List.Sublist.refl _, fun h => h, fun h => h, rfl, rfl⟩
      rw [deleteCookie_cookies n w hdom hn, eraseCookie_eq_filter]
      exact List.filter_sublist _
  · have hacc : w'.acceptsDomain = w.acceptsDomain := hb.accepts
    cases hdom : w.acceptsDomain with
    | false =>
      exact deleteCookie_rejected n w' (hacc.trans hdom)
    | true =>
      have habs : ∀ e ∈ w'.cookies, e.1 ≠ parsedName n.data := by
        intro e he
        have := hb.cookies.subset he
        rw [deleteCookie_cookies n w hdom hn, mem_eraseCookie] at this
        exact this.2
      rw [deleteCookie_eq n w' (hacc.trans hdom) hn, eraseCookie_absent _ _ habs]

theorem shrinking_deleteCookies (names : List String)
    (hnames : ∀ n ∈ names, ∀ x ∈ n.data, x ≠ ';') : Shrinking (deleteCookies names) := by
  have h := shrinking_foldl (fun acc n => deleteCookie n acc) names
    (fun n hn => shrinking_deleteCookie n (hnames n hn))
  exact h

theorem shrinking_removeElements (p : Element → Bool) : Shrinking (removeElements p) := by
  refine ⟨fun w => ⟨List.Sublist.refl _, List.filter_sublist _, fun h => h, fun h => h, rfl, rfl⟩,
    fun w w' _ hb => ?_⟩
  have hall : ∀ e ∈ w'.elements, (!p e) = true := by
    intro e he
    have := hb.elements.subset he
    simp only [removeElements, List.mem_filter] at this
    exact this.2
  unfold removeElements
  rw [List.filter_eq_self.2 hall]

theorem shrinking_clearFB : Shrinking clearFB := by
  refine ⟨fun w => ⟨List.Sublist.refl _, List.Sublist.refl _, fun _ => rfl, fun h => h, rfl, rfl⟩,
    fun w w' _ hb => ?_⟩
  have h : w'.FB = .undefined := hb.fb rfl
  unfold clearFB
  rw [← h]

theorem shrinking_clearTwttr : Shrinking clearTwttr := by
  refine ⟨fun w => ⟨List.Sublist.refl _, List.Sublist.refl _, fun h => h, fun _ => rfl, rfl, rfl⟩,
    fun w w' _ hb => ?_⟩
  have h : w'.twttr = .undefined := hb.twttr rfl
  unfold clearTwttr
  rw [← h]
/-- One turn of the inner loop of `blockGoogleAnalytics`. -/
theorem shrinking_matchStep (pattern : List Char) (n : String)
    (hn : ∀ x ∈ n.data, x ≠ ';') :
    Shrinking (fun acc => if regexTest pattern n.data = true then deleteCookie n acc else acc) :=
  shrinking_ite (regexTest pattern n.data) (deleteCookie n) (shrinking_deleteCookie n hn)

theorem shrinking_matchLoop (pattern : List Char) (names : List String)
    (hnames : ∀ n ∈ names, ∀ x ∈ n.data, x ≠ ';') :
    Shrinking (fun w => names.foldl
      (fun acc n => if regexTest pattern n.data = true then deleteCookie n acc else acc) w) :=
  shrinking_foldl
    (fun acc n => if regexTest pattern n.data = true then deleteCookie n acc else acc) names
    (fun n hn => shrinking_matchStep pattern n (hnames n hn))

theorem listedCookieNames_plain (jar : CookieJar) :
    ∀ n ∈ listedCookieNames jar, ∀ x ∈ n.data, x ≠ ';' :=
  fun n hn x hx => (listedCookieNames_clean jar n hn x hx).1

theorem matchLoop_absent (pattern : List Char) (names : List String) (w : World) (n : String)
    (hnames : ∀ n ∈ names, ∀ x ∈ n.data, x ≠ ';')
    (hdom : w.acceptsDomain = true)
    (hn : n ∈ names) (hm : regexTest pattern n.data = true) :
    ∀ e ∈ (names.foldl
      (fun acc n => if regexTest pattern n.data = true then deleteCookie n acc else acc)
      w).cookies, e.1 ≠ parsedName n.data := by
  induction names generalizing w with
  | nil => simp at hn
  | cons a rest ih =>
    rcases List.mem_cons.1 hn with h | h
    · subst h
      intro e he
      have hsub := ((shrinking_matchLoop pattern rest
        (fun m hm => hnames m (List.mem_cons_of_mem _ hm))).1
        (if regexTest pattern n.data = true then deleteCookie n w else w)).cookies
      have he2 := hsub.subset he
      rw [if_pos hm, deleteCookie_cookies n w hdom (hnames n (by simp)), mem_eraseCookie] at he2
      exact he2.2
    · refine ih _ (fun m hm => hnames m (List.mem_cons_of_mem _ hm)) ?_ h
      show (if regexTest pattern a.data = true then deleteCookie a w else w).acceptsDomain = true
      split_ifs
      · exact hdom
      · exact hdom

theorem matchLoop_fixed (pattern : List Char) (names : List String) (w : World)
    (h : ∀ n ∈ names, regexTest pattern n.data = true → deleteCookie n w = w) :
    names.foldl
      (fun acc n => if regexTest pattern n.data = true then deleteCookie n acc else acc) w
      = w := by
  induction names with
  | nil => rfl
  | cons a rest ih =>
    rw [List.foldl_cons]
    by_cases hm : regexTest pattern a.data = true
    · rw [if_pos hm, h a (by simp) hm]
      exact ih (fun n hn => h n (List.mem_cons_of_mem _ hn))
    · rw [if_neg hm]
      exact ih (fun n hn => h n (List.mem_cons_of_mem _ hn))

theorem deleteCookie_absent (n : String) (w : World) (hn : ∀ x ∈ n.data, x ≠ ';')
    (h : ∀ e ∈ w.cookies, e.1 ≠ parsedName n.data) : deleteCookie n w = w := by
  cases hdom : w.acceptsDomain with
  | false => exact deleteCookie_rejected n w hdom
  | true => rw [deleteCookie_eq n w hdom hn, eraseCookie_absent _ _ h]

theorem shrinking_deleteMatching (cookie : String) :
    Shrinking (fun w => deleteMatching w cookie) := by
  refine ⟨fun w => (shrinking_matchLoop _ (listedCookieNames w.cookies)
      (listedCookieNames_plain _)).1 w,
    fun w w' hwf hb => ?_⟩
  show (listedCookieNames w'.cookies).foldl _ w' = w'
  apply matchLoop_fixed
  intro n hn hm
  have hplain := listedCookieNames_plain w'.cookies n hn
  have hacc : w'.acceptsDomain = w.acceptsDomain :=
    hb.accepts.trans ((shrinking_matchLoop _ (listedCookieNames w.cookies)
      (listedCookieNames_plain _)).1 w).accepts
  cases hdom : w.acceptsDomain with
  | false => exact deleteCookie_rejected n w' (hacc.trans hdom)
  | true =>
  by_cases hne : w'.cookies = []
  · apply deleteCookie_absent _ _ hplain
    rw [hne]
    simp
  · have hsub : List.Sublist w'.cookies w.cookies :=
      hb.cookies.trans ((shrinking_matchLoop _ (listedCookieNames w.cookies)
        (listedCookieNames_plain _)).1 w).cookies
    have hn2 := listedCookieNames_mono w.cookies w'.cookies hwf hsub hne n hn
    apply deleteCookie_absent _ _ hplain
    intro e he
    exact matchLoop_absent _ _ w n (listedCookieNames_plain _) hdom hn2 hm e
      (hb.cookies.subset he)

theorem shrinking_blockGoogleAnalytics : Shrinking blockGoogleAnalytics :=
  shrinking_comp (fun w => gaCookies.foldl deleteMatching w)
    (removeElements (scriptFrom ["google-analytics.com", "googletagmanager.com"]))
    (shrinking_foldl deleteMatching gaCookies (fun c _ => shrinking_deleteMatching c))
    (shrinking_removeElements _)

theorem shrinking_blockGoogleAdSense : Shrinking blockGoogleAdSense :=
  shrinking_comp
    (fun w => removeElements (scriptFrom ["googlesyndication.com", "doubleclick.net"])
      (deleteCookies ["_gcl_au", "__gads", "__gpi"] w))
    (removeElements isAdContainer)
    (shrinking_comp (deleteCookies ["_gcl_au", "__gads", "__gpi"])
      (removeElements (scriptFrom ["googlesyndication.com", "doubleclick.net"]))
      (shrinking_deleteCookies _ (by decide)) (shrinking_removeElements _))
    (shrinking_removeElements _)

theorem shrinking_blockFacebook : Shrinking blockFacebook :=
  shrinking_comp
    (fun w => removeElements (scriptFrom ["connect.facebook.net"])
      (deleteCookies ["_fbp", "fr"] w))
    clearFB
    (shrinking_comp (deleteCookies ["_fbp", "fr"])
      (removeElements (scriptFrom ["connect.facebook.net"]))
      (shrinking_deleteCookies _ (by decide)) (shrinking_removeElements _))
    shrinking_clearFB

theorem shrinking_blockTwitter : Shrinking blockTwitter :=
  shrinking_comp
    (fun w => removeElements (scriptFrom ["platform.twitter.com"])
      (deleteCookies ["personalization_id", "guest_id"] w))
    clearTwttr
    (shrinking_comp (deleteCookies ["personalization_id", "guest_id"])
      (removeElements (scriptFrom ["platform.twitter.com"]))
      (shrinking_deleteCookies _ (by decide)) (shrinking_removeElements _))
    shrinking_clearTwttr

theorem shrinking_blockFirebase : Shrinking blockFirebase :=
  shrinking_comp (deleteCookies ["_fbp"])
    (removeElements (scriptFrom ["firebaseio.com", "firebase.com"]))
    (shrinking_deleteCookies _ (by decide)) (shrinking_removeElements _)

theorem shrinking_blockersFor (state : JSValue) : Shrinking (blockersFor state) := by
  have h1 := shrinking_ite (!(getProp state "analytical").truthy) _ shrinking_blockGoogleAnalytics
  have h2 := shrinking_ite (!(getProp state "advertising").truthy) _ shrinking_blockGoogleAdSense
  have h3 := shrinking_ite (!(getProp state "social").truthy) _ shrinking_blockFacebook
  have h4 := shrinking_ite (!(getProp state "social").truthy) _ shrinking_blockTwitter
  have h5 := shrinking_ite (!(getProp state "performance").truthy) _ shrinking_blockFirebase
  have h12 := shrinking_comp _ _ h1 h2
  have h123 := shrinking_comp _ _ h12 h3
  have h1234 := shrinking_comp _ _ h123 h4
  have h := shrinking_comp _ _ h1234 h5
  exact h


theorem dropWhile_head_false (p : Char → Bool) (c : Char) (l : List Char) (h : p c = false) :
    (c :: l).dropWhile p = c :: l := by
  rw [List.dropWhile_cons, h]
  rfl

theorem dropWhile_all_false (p : Char → Bool) (l : List Char) (h : ∀ x ∈ l, p x = false) :
    l.dropWhile p = l := by
  cases l with
  | nil => rfl
  | cons c cs => exact dropWhile_head_false p c cs (h c (by simp))

theorem dropWhile_append_stop (p : Char → Bool) (xs : List Char) (y : Char) (ys : List Char)
    (h : p y = false) : ∃ zs, (xs ++ y :: ys).dropWhile p = zs ++ y :: ys := by
  induction xs with
  | nil => exact ⟨[], by rw [List.nil_append, dropWhile_head_false p y ys h]⟩
  | cons x rest ih =>
    by_cases hx : p x = true
    · obtain ⟨zs, hz⟩ := ih
      exact ⟨zs, by rw [List.cons_append, List.dropWhile_cons, if_pos hx, hz]⟩
    · exact ⟨x :: rest, by
        rw [List.cons_append, List.dropWhile_cons, if_neg hx]⟩

theorem jsTrim_pairText (e : String × String) (hsp : ∀ x ∈ e.1.data, isTrimSpace x = false) :
    ∃ v, jsTrim (pairText e) = e.1.data ++ '=' :: v := by
  have h1 : (pairText e).dropWhile isTrimSpace = pairText e := by
    unfold pairText
    cases hn : e.1.data with
    | nil => exact dropWhile_head_false _ _ _ (by decide)
    | cons c cs =>
      exact dropWhile_head_false _ _ _ (hsp c (by rw [hn]; simp))
  obtain ⟨zs, hz⟩ := dropWhile_append_stop isTrimSpace e.2.data.reverse '=' e.1.data.reverse
    (by decide)
  refine ⟨zs.reverse, ?_⟩
  unfold jsTrim
  rw [h1]
  unfold pairText
  rw [List.reverse_append, List.reverse_cons, List.append_assoc, List.singleton_append, hz]
  simp

theorem splitScan_head (a v cur : List Char) (h : ∀ x ∈ a, x ≠ '=') :
    (splitScan ['='] 0 (a ++ '=' :: v) cur).headD [] = cur.reverse ++ a := by
  induction a generalizing cur with
  | nil =>
    rw [List.nil_append, splitScan]
    simp
  | cons c cs ih =>
    have hc : c ≠ '=' := h c (by simp)
    rw [List.cons_append, splitScan]
    have hp : List.isPrefixOf ['='] (c :: (cs ++ '=' :: v)) = false := by
      rw [List.isPrefixOf_cons₂]
      simp [Ne.symm hc]
    rw [hp]
    simp only [Bool.false_eq_true, if_false]
    rw [ih (c :: cur) (fun x hx => h x (List.mem_cons_of_mem _ hx))]
    simp

theorem listedName_pairText (e : String × String) (heq : ∀ x ∈ e.1.data, x ≠ '=')
    (hsp : ∀ x ∈ e.1.data, isTrimSpace x = false) : listedName (pairText e) = e.1 := by
  obtain ⟨v, hv⟩ := jsTrim_pairText e hsp
  unfold listedName
  rw [hv]
  have h := splitScan_head e.1.data v [] heq
  simp only [jsSplit]
  rw [if_neg (by decide), h]
  rfl

theorem parsedName_plain (n : String) (hsc : ∀ x ∈ n.data, x ≠ ';') (heq : ∀ x ∈ n.data, x ≠ '=')
    (hsp : ∀ x ∈ n.data, isTrimSpace x = false) : parsedName n.data = n := by
  rw [parsedName_clean n.data (fun x hx => ⟨hsc x hx, heq x hx⟩)]
  have hw : ∀ x ∈ n.data, isWSP x = false := by
    intro x hx
    have h := hsp x hx
    unfold isTrimSpace at h
    unfold isWSP
    simp only [Bool.or_eq_false_iff] at h ⊢
    exact ⟨h.1.1.1.1.1.1.1.1.1.1.1.1.1.1, h.1.1.1.1.1.1.1.1.1.1.1.1.1.2⟩
  have h1 : trimWSP n.data = n.data := by
    unfold trimWSP
    rw [dropWhile_all_false isWSP n.data hw,
      dropWhile_all_false isWSP n.data.reverse (fun x hx => hw x (List.mem_reverse.1 hx)),
      List.reverse_reverse]
  rw [h1]
theorem foldl_step_mem {α : Type} (step : World → α → World) (items : List α)
    (h : ∀ a ∈ items, Shrinking (fun w => step w a)) (w : World) (c : α) (hc : c ∈ items) :
    ∃ w1, Below w1 w ∧ Below (items.foldl step w) (step w1 c) := by
  induction items generalizing w with
  | nil => simp at hc
  | cons a rest ih =>
    have hrest : ∀ b ∈ rest, Shrinking (fun w => step w b) :=
      fun b hb => h b (List.mem_cons_of_mem _ hb)
    rcases List.mem_cons.1 hc with rfl | hc'
    · exact ⟨w, below_refl w, (shrinking_foldl step rest hrest).1 (step w c)⟩
    · obtain ⟨w1, h1, h2⟩ := ih hrest (step w a) hc'
      exact ⟨w1, below_trans h1 ((h a (by simp)).1 w), h2⟩

theorem mem_listedCookieNames (jar : CookieJar) (hwf : WellFormedJar jar) (e : String × String)
    (he : e ∈ jar) (hsp : ∀ x ∈ e.1.data, isTrimSpace x = false) :
    e.1 ∈ listedCookieNames jar := by
  cases jar with
  | nil => simp at he
  | cons e0 rest =>
    rw [listedCookieNames_cons e0 rest (fun e' he' => pairText_semicolon _ hwf e' he')]
    rw [List.mem_map]
    exact ⟨e, he, listedName_pairText e (hwf.name_equals e he) hsp⟩

theorem deleteMatching_removes (w : World) (hwf : WellFormedJar w.cookies)
    (hdom : w.acceptsDomain = true) (cookie : String)
    (e : String × String) (he : e ∈ (deleteMatching w cookie).cookies)
    (hsp : ∀ x ∈ e.1.data, isTrimSpace x = false) :
    regexTest (replaceFirst ['*'] ['.', '*'] cookie.data) e.1.data = false := by
  by_contra hm
  rw [Bool.not_eq_false] at hm
  have hew : e ∈ w.cookies := ((shrinking_deleteMatching cookie).1 w).cookies.subset he
  have hl := mem_listedCookieNames w.cookies hwf e hew hsp
  have habs := matchLoop_absent _ _ w e.1 (listedCookieNames_plain _) hdom hl hm e he
  rw [parsedName_plain e.1 (hwf.name_semicolon e hew) (hwf.name_equals e hew) hsp] at habs
  exact habs rfl

theorem removeElements_cookies (p : Element → Bool) (w : World) :
    (removeElements p w).cookies = w.cookies := rfl

theorem removeElements_elements (p : Element → Bool) (w : World) :
    (removeElements p w).elements = w.elements.filter fun e => !p e := rfl

theorem isFalse_not_truthy (v : JSValue) (h : v.isFalse = true) : v.truthy = false := by
  cases v with
  | bool b => cases b <;> simp_all [JSValue.isFalse, JSValue.truthy]
  | _ => simp [JSValue.isFalse] at h

theorem blockGoogleAnalytics_cookies (w : World) (hwf : WellFormedJar w.cookies)
    (hdom : w.acceptsDomain = true)
    (e : String × String) (he : e ∈ (blockGoogleAnalytics w).cookies)
    (hsp : ∀ x ∈ e.1.data, isTrimSpace x = false) (cookie : String) (hc : cookie ∈ gaCookies) :
    regexTest (replaceFirst ['*'] ['.', '*'] cookie.data) e.1.data = false := by
  obtain ⟨w1, h1, h2⟩ := foldl_step_mem deleteMatching gaCookies
    (fun c _ => shrinking_deleteMatching c) w cookie hc
  have he2 : e ∈ (gaCookies.foldl deleteMatching w).cookies := by
    unfold blockGoogleAnalytics at he
    rw [removeElements_cookies] at he
    exact he
  exact deleteMatching_removes w1 (sublist_wf _ _ hwf h1.cookies) (h1.accepts.trans hdom)
    cookie e (h2.cookies.subset he2) hsp

theorem blockGoogleAnalytics_elements (w : World) :
    ∀ e ∈ (blockGoogleAnalytics w).elements, isAnalyticsScript e = false := by
  intro e he
  unfold blockGoogleAnalytics at he
  rw [removeElements_elements, List.mem_filter] at he
  simpa [isAnalyticsScript] using he.2

theorem blockersFor_below (state : JSValue) (w : World) :
    Below (blockersFor state w)
      (if (!(getProp state "analytical").truthy) = true then blockGoogleAnalytics w else w) := by
  have h2 := shrinking_ite (!(getProp state "advertising").truthy) _ shrinking_blockGoogleAdSense
  have h3 := shrinking_ite (!(getProp state "social").truthy) _ shrinking_blockFacebook
  have h4 := shrinking_ite (!(getProp state "social").truthy) _ shrinking_blockTwitter
  have h5 := shrinking_ite (!(getProp state "performance").truthy) _ shrinking_blockFirebase
  have h := shrinking_comp _ _ (shrinking_comp _ _ (shrinking_comp _ _ h2 h3) h4) h5
  exact h.1 _

theorem applyHandler_page (w : World) (entry : String × JSValue) :
    applyHandler w entry = { w with log := (applyHandler w entry).log } := by
  unfold applyHandler
  split_ifs <;> rfl

theorem foldl_applyHandler_page (handlers : JSObject) (w : World) :
    handlers.foldl applyHandler w = { w with log := (handlers.foldl applyHandler w).log } := by
  induction handlers generalizing w with
  | nil => rfl
  | cons e rest ih =>
    rw [List.foldl_cons, ih, applyHandler_page w e]

theorem foldl_applyHandler_log (handlers : JSObject) (w : World) (x : Effect)
    (hx : x ∈ w.log) : x ∈ (handlers.foldl applyHandler w).log := by
  induction handlers generalizing w with
  | nil => exact hx
  | cons e rest ih =>
    rw [List.foldl_cons]
    apply ih
    unfold applyHandler
    split_ifs
    · exact List.mem_append_left _ hx
    · exact List.mem_append_left _ hx
    · exact hx

theorem foldl_applyHandler_calls (handlers : JSObject) (w : World) (entry : String × JSValue)
    (he : entry ∈ handlers) (hf : entry.2.isFunction = true) :
    ((getProp w.consentState entry.1).truthy = true →
      Effect.call entry.2 (.bool true) ∈ (handlers.foldl applyHandler w).log) ∧
    ((getProp w.consentState entry.1).isFalse = true →
      Effect.call entry.2 (.bool false) ∈ (handlers.foldl applyHandler w).log) := by
  induction handlers generalizing w with
  | nil => simp at he
  | cons e rest ih =>
    rw [List.foldl_cons]
    rcases List.mem_cons.1 he with rfl | he'
    · constructor
      · intro ht
        apply foldl_applyHandler_log
        unfold applyHandler
        rw [if_pos ⟨ht, hf⟩]
        simp
      · intro hfalse
        apply foldl_applyHandler_log
        unfold applyHandler
        split_ifs with h1 h2
        · rw [isFalse_not_truthy _ hfalse] at h1
          exact absurd h1.1 (by decide)
        · simp
        · exact absurd ⟨hfalse, hf⟩ h2
    · have hs : (applyHandler w e).consentState = w.consentState :=
        (applyHandler_kept w e).consentState
      have := ih (applyHandler w e) he'
      rw [hs] at this
      exact this
theorem construct_truthy (cfg : Config) (page : World)
    (h : (loadConsentState page).truthy = true) :
    construct cfg page = blockersFor (loadConsentState page)
      (cfg.thirdPartyHandlers.foldl applyHandler
        { page with config := cfg, consentState := loadConsentState page,
                    currentModal := .null }) := by
  unfold construct
  simp only [h, if_true]
  exact applyConsentState_eq
    { page with config := cfg, consentState := loadConsentState page, currentModal := .null } h

theorem construct_falsy (cfg : Config) (page : World)
    (h : (loadConsentState page).truthy = false) :
    construct cfg page = mountModal ⟨"banner", []⟩
      { page with config := cfg, consentState := loadConsentState page,
                  currentModal := .str "banner" } := by
  unfold construct
  simp only [h, Bool.false_eq_true, if_false]
  rfl

theorem blockers_after_handlers (handlers : JSObject) (w0 : World) :
    (blockersFor w0.consentState (handlers.foldl applyHandler w0)).consentState
      = w0.consentState ∧
    (blockersFor w0.consentState (handlers.foldl applyHandler w0)).modals = w0.modals ∧
    (blockersFor w0.consentState (handlers.foldl applyHandler w0)).currentModal
      = w0.currentModal ∧
    (∀ entry ∈ handlers, entry.2.isFunction = true →
      ((getProp w0.consentState entry.1).truthy = true →
        Effect.call entry.2 (.bool true) ∈
          (blockersFor w0.consentState (handlers.foldl applyHandler w0)).log) ∧
      ((getProp w0.consentState entry.1).isFalse = true →
        Effect.call entry.2 (.bool false) ∈
          (blockersFor w0.consentState (handlers.foldl applyHandler w0)).log)) ∧
    ((getProp w0.consentState "analytical").truthy = false →
      (∀ e ∈ (blockersFor w0.consentState (handlers.foldl applyHandler w0)).elements,
        isAnalyticsScript e = false) ∧
      (WellFormedJar w0.cookies → w0.acceptsDomain = true →
        ∀ e ∈ (blockersFor w0.consentState (handlers.foldl applyHandler w0)).cookies,
          (∀ x ∈ e.1.data, isTrimSpace x = false) →
            ∀ c ∈ gaCookies,
              regexTest (replaceFirst ['*'] ['.', '*'] c.data) e.1.data = false)) := by
  have hk := foldl_applyHandler_kept handlers w0
  have hcookies : (handlers.foldl applyHandler w0).cookies = w0.cookies := by
    rw [foldl_applyHandler_page handlers w0]
  have hcalls := foldl_applyHandler_calls handlers w0
  generalize handlers.foldl applyHandler w0 = wh at hk hcookies hcalls ⊢
  have hkb := blockersFor_kept w0.consentState wh
  have hbelow : Below (blockersFor w0.consentState wh) wh :=
    (shrinking_blockersFor w0.consentState).1 wh
  have hfirst := blockersFor_below w0.consentState wh
  refine ⟨?_, ?_, ?_, fun entry he hf => ?_, fun ha => ?_⟩
  · rw [hkb.consentState, hk.consentState]
  · rw [hkb.modals, hk.modals]
  · rw [hkb.currentModal, hk.currentModal]
  · rw [hbelow.log]
    exact hcalls entry he hf
  · rw [ha] at hfirst
    have hfirst2 : Below (blockersFor w0.consentState wh) (blockGoogleAnalytics wh) := hfirst
    refine ⟨fun e he => blockGoogleAnalytics_elements wh e (hfirst2.elements.subset he),
      fun hwf hdom e he hsp c hc => ?_⟩
    have hwfh : WellFormedJar wh.cookies := by rw [hcookies]; exact hwf
    exact blockGoogleAnalytics_cookies wh hwfh (hk.accepts.trans hdom) e
      (hfirst2.cookies.subset he) hsp c hc

theorem wf_returning : WellFormedJar returningPage.cookies :=
  ⟨by decide, by decide, by decide, by decide⟩

theorem includes_iff_within (l sub : List Char) :
    includes l sub = true ↔ List.IsInfix sub l := by
  induction l with
  | nil =>
    rw [includes, List.infix_nil, List.isEmpty_iff]
  | cons c cs ih =>
    rw [includes, Bool.or_eq_true, List.isPrefixOf_iff_prefix, ih, List.infix_cons_iff]

theorem within_trimWSP (n t t' : List Char) (h l : Char) (hh : isWSP h = false)
    (hl : isWSP l = false) (hlit : h :: t = t' ++ [l])
    (hin : List.IsInfix (h :: t) n) : List.IsInfix (h :: t) (trimWSP n) := by
  obtain ⟨a, b, hab⟩ := hin
  obtain ⟨zs, hz⟩ := dropWhile_append_stop isWSP a h (t ++ b) hh
  have h1 : n.dropWhile isWSP = zs ++ (t' ++ [l]) ++ b := by
    rw [← hab, ← hlit, List.append_assoc a, List.cons_append, hz]
    simp
  obtain ⟨ys, hy⟩ := dropWhile_append_stop isWSP b.reverse l (t'.reverse ++ zs.reverse) hl
  have h2 : (zs ++ (t' ++ [l]) ++ b).reverse = b.reverse ++ l :: (t'.reverse ++ zs.reverse) := by
    simp
  unfold trimWSP
  rw [h1, h2, hy, hlit]
  exact ⟨zs, ys.reverse, by simp⟩

theorem includes_trimWSP (n t t' : List Char) (h l : Char) (hh : isWSP h = false)
    (hl : isWSP l = false) (hlit : h :: t = t' ++ [l])
    (hin : includes n (h :: t) = true) : includes (trimWSP n) (h :: t) = true := by
  rw [includes_iff_within] at hin ⊢
  exact within_trimWSP n t t' h l hh hl hlit hin

theorem gaPattern_literal (cookie : String) (hc : cookie ∈ gaCookies) :
    ∃ (h : Char) (t t' : List Char) (l : Char), isWSP h = false ∧ isWSP l = false ∧
      h :: t = t' ++ [l] ∧
      ∀ s, regexTest (replaceFirst ['*'] ['.', '*'] cookie.data) s = includes s (h :: t) := by
  simp only [gaCookies, List.mem_cons, List.mem_singleton, List.not_mem_nil, or_false] at hc
  rcases hc with rfl | rfl | rfl | rfl
  · exact ⟨'_', ['g', 'a'], ['_', 'g'], 'a', by decide, by decide, rfl, fun _ => rfl⟩
  · exact ⟨'_', ['g', 'a', '_'], ['_', 'g', 'a'], '_', by decide, by decide, rfl, fun _ => rfl⟩
  · exact ⟨'_', ['g', 'i', 'd'], ['_', 'g', 'i'], 'd', by decide, by decide, rfl, fun _ => rfl⟩
  · exact ⟨'_', ['g', 'a', 't'], ['_', 'g', 'a'], 't', by decide, by decide, rfl, fun _ => rfl⟩

theorem matchLoop_keeps (pattern : List Char) (names : List String) (w : World)
    (e : String × String) (he : e ∈ w.cookies)
    (hnames : ∀ n ∈ names, ∀ x ∈ n.data, x ≠ ';')
    (h : ∀ n ∈ names, regexTest pattern n.data = true → parsedName n.data ≠ e.1) :
    e ∈ (names.foldl
      (fun acc n => if regexTest pattern n.data = true then deleteCookie n acc else acc)
      w).cookies := by
  induction names generalizing w with
  | nil => exact he
  | cons n rest ih =>
    rw [List.foldl_cons]
    have hrest := fun m hm => h m (List.mem_cons_of_mem _ hm)
    have hrest0 := fun m hm => hnames m (List.mem_cons_of_mem _ hm)
    by_cases ht : regexTest pattern n.data = true
    · rw [if_pos ht]
      refine ih _ ?_ hrest0 hrest
      cases hdom : w.acceptsDomain with
      | false =>
        rw [deleteCookie_rejected n w hdom]
        exact he
      | true =>
        rw [deleteCookie_cookies n w hdom (hnames n (by simp)), mem_eraseCookie]
        exact ⟨he, fun heq => h n (by simp) ht heq.symm⟩
    · rw [if_neg ht]
      exact ih _ he hrest0 hrest

theorem deleteMatching_keeps (w : World) (cookie : String) (hc : cookie ∈ gaCookies)
    (e : String × String) (he : e ∈ w.cookies)
    (hno : regexTest (replaceFirst ['*'] ['.', '*'] cookie.data) e.1.data = false) :
    e ∈ (deleteMatching w cookie).cookies := by
  unfold deleteMatching
  apply matchLoop_keeps _ _ w e he (listedCookieNames_plain _)
  intro n hn ht heq
  obtain ⟨h, t, t', l, hh, hl, hlit, hpat⟩ := gaPattern_literal cookie hc
  rw [hpat] at ht hno
  have hinc := includes_trimWSP n.data t t' h l hh hl hlit ht
  rw [parsedName_clean n.data (listedCookieNames_clean _ n hn)] at heq
  rw [← heq] at hno
  rw [hno] at hinc
  exact absurd hinc (by decide)

theorem foldl_gaCookies_keeps (cookies : List String) (hc : ∀ c ∈ cookies, c ∈ gaCookies)
    (w : World) (e : String × String) (he : e ∈ w.cookies)
    (hno : ∀ c ∈ cookies, regexTest (replaceFirst ['*'] ['.', '*'] c.data) e.1.data = false) :
    e ∈ (cookies.foldl deleteMatching w).cookies := by
  induction cookies generalizing w with
  | nil => exact he
  | cons c rest ih =>
    rw [List.foldl_cons]
    exact ih (fun c' hc' => hc c' (List.mem_cons_of_mem _ hc')) _
      (deleteMatching_keeps w c (hc c (by simp)) e he (hno c (by simp)))
      (fun c' hc' => hno c' (List.mem_cons_of_mem _ hc'))

theorem blockGoogleAnalytics_keeps (w : World) (e : String × String) (he : e ∈ w.cookies)
    (hno : ∀ c ∈ gaCookies, regexTest (replaceFirst ['*'] ['.', '*'] c.data) e.1.data = false) :
    e ∈ (blockGoogleAnalytics w).cookies := by
  unfold blockGoogleAnalytics
  rw [removeElements_cookies]
  exact foldl_gaCookies_keeps gaCookies (fun _ h => h) w e he hno

theorem gaPatterns_iff (s : List Char) :
    (∀ c ∈ gaCookies, regexTest (replaceFirst ['*'] ['.', '*'] c.data) s = false) ↔
      (includes s "_ga".data = false ∧ includes s "_gid".data = false ∧
        includes s "_gat".data = false) := by
  have h1 : regexTest (replaceFirst ['*'] ['.', '*'] "_ga".data) s = includes s "_ga".data := rfl
  have h2 : regexTest (replaceFirst ['*'] ['.', '*'] "_ga_*".data) s
      = includes s "_ga_".data := rfl
  have h3 : regexTest (replaceFirst ['*'] ['.', '*'] "_gid".data) s
      = includes s "_gid".data := rfl
  have h4 : regexTest (replaceFirst ['*'] ['.', '*'] "_gat".data) s
      = includes s "_gat".data := rfl
  have hsub : includes s "_ga".data = false → includes s "_ga_".data = false := by
    intro h
    by_contra hc
    rw [Bool.not_eq_false, includes_iff_within] at hc
    have : List.IsInfix "_ga".data s :=
      List.IsInfix.trans ⟨[], ['_'], rfl⟩ hc
    rw [← includes_iff_within, h] at this
    exact absurd this (by decide)
  constructor
  · intro h
    exact ⟨by rw [← h1]; exact h "_ga" (by decide), by rw [← h3]; exact h "_gid" (by decide),
      by rw [← h4]; exact h "_gat" (by decide)⟩
  · rintro ⟨ha, hb, hc⟩ c hmem
    simp only [gaCookies, List.mem_cons, List.mem_singleton, List.not_mem_nil, or_false] at hmem
    rcases hmem with rfl | rfl | rfl | rfl
    · rw [h1]; exact ha
    · rw [h2]; exact hsub ha
    · rw [h3]; exact hb
    · rw [h4]; exact hc

/-! ## Claim C13 -/

theorem wf_tracked : WellFormedJar trackedPage.cookies :=
  ⟨by decide, by decide, by decide, by decide⟩

/-- C13: running `applyThirdPartyBlockers` twice gives what running it once gives, for every
consent state and every page whose jar the browser can hold: when a consent state exists the
call returns, and a second call on the page it leaves returns that same page, with the same
cookies, script and ad container elements, `FB` and `twttr`; when no consent state exists the
call throws before it changes anything, the first time and every time. -/
theorem applyThirdPartyBlockers_idempotent (w : World) (hwf : WellFormedJar w.cookies) :
    (applyThirdPartyBlockers w).bind applyThirdPartyBlockers = applyThirdPartyBlockers w ∧
    (∀ w1, applyThirdPartyBlockers w = some w1 → applyThirdPartyBlockers w1 = some w1) ∧
    (w.consentState.isNullish = false →
      applyThirdPartyBlockers w = some (blockersFor w.consentState w)) ∧
    (w.consentState.isNullish = true → applyThirdPartyBlockers w = none) := by
  have hidem : ∀ w1, applyThirdPartyBlockers w = some w1 →
      applyThirdPartyBlockers w1 = some w1 := by
    intro w1 h1
    have hk := applyThirdPartyBlockers_kept w w1 h1
    rw [applyThirdPartyBlockers_eq] at h1
    split_ifs at h1 with hn
    injection h1 with h1
    have hfix : blockersFor w.consentState w1 = w1 := by
      rw [← h1]
      exact (shrinking_blockersFor w.consentState).2 w _ hwf (below_refl _)
    rw [applyThirdPartyBlockers_eq, hk.consentState, if_neg hn, hfix]
  refine ⟨?_, hidem, fun hn => ?_, fun hn => ?_⟩
  · cases h : applyThirdPartyBlockers w with
    | none => rfl
    | some w1 => exact (Option.some_bind w1 applyThirdPartyBlockers).trans (hidem w1 h)
  · rw [applyThirdPartyBlockers_eq, if_neg (by simp [hn])]
  · rw [applyThirdPartyBlockers_eq, if_pos hn]

/-- C13 (witness): a page with tracking cookies, scripts, an ad container and both handles,
whose visitor refused every optional category: the first run leaves the cookie `session` and
the script of the site only, and the second run leaves them as they are. -/
theorem applyThirdPartyBlockers_idempotent_witness :
    WellFormedJar refusedPage.cookies ∧
    (applyThirdPartyBlockers refusedPage).map (fun w => w.cookies)
      = some [("session", "abc")] ∧
    (applyThirdPartyBlockers refusedPage).map (fun w => w.elements)
      = some [⟨"script", some "/app.js", [], none, none, false⟩] ∧
    (applyThirdPartyBlockers refusedPage).bind applyThirdPartyBlockers
      = applyThirdPartyBlockers refusedPage :=
  ⟨wf_tracked, by decide, rfl, (applyThirdPartyBlockers_idempotent refusedPage wf_tracked).1⟩

/-! ## Claim C19 -/

/-- C19: construction adopts the value `loadConsentState` returns.  When it is truthy, as
every decoded object is, no modal is mounted and `currentModal` stays `null`, every registered
handler whose category is truthy is called with `true` and every one whose category is `false`
with `false`, and with `analytical` falsy no analytics script element is left and, in a jar the
browser can hold and with a configured domain the browser accepts, no cookie with a name free
of white space that one of the patterns `_ga`, `_ga_*`, `_gid`, `_gat` matches.  When it is falsy, as `null` for a missing or undecodable
cookie is, exactly the banner is mounted and `currentModal` is `'banner'`.  Both cases are
evaluated on sample pages. -/
theorem construct_adopts_or_shows_banner (cfg : Config) (page : World) :
    ((loadConsentState page).truthy = true →
      (construct cfg page).consentState = loadConsentState page ∧
      (construct cfg page).modals = page.modals ∧
      (construct cfg page).currentModal = .null ∧
      (∀ entry ∈ cfg.thirdPartyHandlers, entry.2.isFunction = true →
        ((getProp (loadConsentState page) entry.1).truthy = true →
          Effect.call entry.2 (.bool true) ∈ (construct cfg page).log) ∧
        ((getProp (loadConsentState page) entry.1).isFalse = true →
          Effect.call entry.2 (.bool false) ∈ (construct cfg page).log)) ∧
      ((getProp (loadConsentState page) "analytical").truthy = false →
        (∀ e ∈ (construct cfg page).elements, isAnalyticsScript e = false) ∧
        (WellFormedJar page.cookies →
          domainAccepted page.hostname page.publicSuffix cfg.domain = true →
          ∀ e ∈ (construct cfg page).cookies, (∀ x ∈ e.1.data, isTrimSpace x = false) →
            ∀ c ∈ gaCookies,
              regexTest (replaceFirst ['*'] ['.', '*'] c.data) e.1.data = false))) ∧
    ((loadConsentState page).truthy = false →
      (construct cfg page).consentState = loadConsentState page ∧
      (construct cfg page).modals = page.modals ++ [⟨"banner", []⟩] ∧
      (construct cfg page).currentModal = .str "banner" ∧
      (construct cfg page).cookies = page.cookies ∧
      (construct cfg page).elements = page.elements) ∧
    (∀ state, loadConsentState page = .obj state → (loadConsentState page).truthy = true) ∧
    (loadConsentState page = .null →
      (construct cfg page).consentState = .null ∧
      (construct cfg page).modals = page.modals ++ [⟨"banner", []⟩] ∧
      (construct cfg page).currentModal = .str "banner") ∧
    ((construct sampleConfig samplePage).consentState = .null ∧
      (construct sampleConfig samplePage).modals = [⟨"banner", []⟩]) ∧
    ((construct sampleConfig returningPage).consentState
        = .obj [("functional", .bool true), ("analytical", .bool false)] ∧
      (construct sampleConfig returningPage).modals = [] ∧
      (construct sampleConfig returningPage).cookies
        = [("session", "abc"),
           ("cookie_consent_state",
            "%7B%22functional%22%3Atrue%2C%22analytical%22%3Afalse%7D")] ∧
      (construct sampleConfig returningPage).elements
        = [⟨"script", some "/app.js", [], none, none, false⟩]) := by
  refine ⟨fun h => ?_, fun h => ?_, fun state hs => by rw [hs]; rfl, fun h => ?_,
    ⟨rfl, rfl⟩, ⟨rfl, rfl, by decide, rfl⟩⟩
  · rw [construct_truthy cfg page h]
    exact blockers_after_handlers cfg.thirdPartyHandlers
      { page with config := cfg, consentState := loadConsentState page, currentModal := .null }
  · rw [construct_falsy cfg page h]
    exact ⟨rfl, rfl, rfl, rfl, rfl⟩
  · have hf : (loadConsentState page).truthy = false := by rw [h]; rfl
    rw [construct_falsy cfg page hf]
    exact ⟨h, rfl, rfl⟩

/-! ## `getCookie` on jars with repeated names -/

theorem splitScan_unique (name v : String) (pre post : CookieJar) (cur : List Char)
    (hname : ∀ x ∈ name.data, x ≠ '=')
    (h1 : ∀ e ∈ pre ++ (name, v) :: post, ∀ x ∈ e.1.data, x ≠ ';')
    (h2 : ∀ e ∈ pre ++ (name, v) :: post, ∀ x ∈ e.1.data, x ≠ '=')
    (h3 : ∀ e ∈ pre ++ (name, v) :: post, ∀ x ∈ e.2.data, x ≠ ';')
    (hpre : ∀ e ∈ pre, e.1 ≠ name) (hpost : ∀ e ∈ post, e.1 ≠ name) :
    splitScan (cookieSep name) 0 (jarText (pre ++ (name, v) :: post)) cur
      = [cur.reverse ++ jarText pre, v.data ++ jarText post] := by
  have hj : ∀ (e : String × String) (r : CookieJar),
      jarText (e :: r) = entryText e ++ jarText r := fun _ _ => rfl
  induction pre generalizing cur with
  | nil =>
    rw [List.nil_append, hj, splitScan_same name v _ cur (h3 (name, v) (by simp)),
      splitScan_absent name post _ hname (fun e he => h1 e (by simp [he]))
        (fun e he => h2 e (by simp [he])) (fun e he => h3 e (by simp [he])) hpost]
    simp [jarText]
  | cons e rest ih =>
    rw [List.cons_append, hj, splitScan_other name e _ cur hname (h1 e (by simp))
      (h2 e (by simp)) (h3 e (by simp)) (hpre e (by simp)),
      ih _ (fun e he => h1 e (by simp [he])) (fun e he => h2 e (by simp [he]))
        (fun e he => h3 e (by simp [he])) (fun e he => hpre e (by simp [he]))]
    simp [hj]

theorem getCookie_unique (name v : String) (pre post : CookieJar)
    (hname : ∀ x ∈ name.data, x ≠ '=')
    (h1 : ∀ e ∈ pre ++ (name, v) :: post, ∀ x ∈ e.1.data, x ≠ ';')
    (h2 : ∀ e ∈ pre ++ (name, v) :: post, ∀ x ∈ e.1.data, x ≠ '=')
    (h3 : ∀ e ∈ pre ++ (name, v) :: post, ∀ x ∈ e.2.data, x ≠ ';')
    (hpre : ∀ e ∈ pre, e.1 ≠ name) (hpost : ∀ e ∈ post, e.1 ≠ name) :
    getCookie name (pre ++ (name, v) :: post) = some v := by
  have hpp := splitScan_unique name v pre post [] hname h1 h2 h3 hpre hpost
  obtain ⟨e, rest, hjar⟩ : ∃ e rest, pre ++ (name, v) :: post = e :: rest := by
    cases pre with
    | nil => exact ⟨_, _, rfl⟩
    | cons p ps => exact ⟨_, _, rfl⟩
  rw [hjar] at hpp ⊢
  have hsep : jsSplit (';' :: ' ' :: cookieText (e :: rest)) (';' :: ' ' :: (name.data ++ ['=']))
      = [[] ++ jarText pre, v.data ++ jarText post] := by
    rw [cookieText_eq_jarText]
    simpa [jsSplit, cookieSep] using hpp
  simp only [getCookie, hsep]
  simp only [List.length_cons, List.length_nil, List.getLast?_cons_cons, List.getLast?_singleton]
  rw [head_split_semicolon v.data post (h3 (name, v) (by simp))]
  rfl

theorem getCookie_none (name : String) (jar : CookieJar)
    (hname : ∀ x ∈ name.data, x ≠ '=')
    (h1 : ∀ e ∈ jar, ∀ x ∈ e.1.data, x ≠ ';') (h2 : ∀ e ∈ jar, ∀ x ∈ e.1.data, x ≠ '=')
    (h3 : ∀ e ∈ jar, ∀ x ∈ e.2.data, x ≠ ';') (habs : ∀ e ∈ jar, e.1 ≠ name) :
    getCookie name jar = none := by
  have hlen : (jsSplit (';' :: ' ' :: cookieText jar) (';' :: ' ' :: (name.data ++ ['=']))).length
      = 1 := by
    cases jar with
    | nil =>
      have hp : (name.data ++ ['=']).isPrefixOf ([] : List Char) = false := by
        cases name.data <;> rfl
      simp [jsSplit, cookieText, splitScan, List.isPrefixOf_cons₂, hp]
    | cons e rest =>
      rw [cookieText_eq_jarText]
      have := splitScan_absent name (e :: rest) [] hname h1 h2 h3 habs
      simp only [cookieSep] at this
      simp [jsSplit, this]
  simp [getCookie, hlen]


/-! ## The consent token -/

theorem toDigits_hex (v : Nat) (h : v < 16) : Nat.toDigits 16 v = [Nat.digitChar v] := by
  interval_cases v <;> rfl

theorem uuidChar_x (d : Draw) (h : d.num < d.den) :
    ∃ v, v < 16 ∧ uuidChar 'x' d = [Nat.digitChar v] := by
  have hr : 16 * d.num / d.den < 16 := by
    rw [Nat.div_lt_iff_lt_mul (by omega)]
    exact Nat.mul_lt_mul_of_pos_left h (by decide)
  exact ⟨16 * d.num / d.den, hr, by
    unfold uuidChar
    simp only [if_true]
    exact toDigits_hex _ hr⟩

theorem uuidChar_y (d : Draw) (h : d.num < d.den) :
    ∃ v, 8 ≤ v ∧ v < 12 ∧ uuidChar 'y' d = [Nat.digitChar v] := by
  have hr : 16 * d.num / d.den < 16 := by
    rw [Nat.div_lt_iff_lt_mul (by omega)]
    exact Nat.mul_lt_mul_of_pos_left h (by decide)
  have hv : ∀ r, r < 16 → 8 ≤ ((r &&& 0x3) ||| 0x8) ∧ ((r &&& 0x3) ||| 0x8) < 12 := by
    decide
  refine ⟨(16 * d.num / d.den &&& 0x3) ||| 0x8, (hv _ hr).1, (hv _ hr).2, ?_⟩
  unfold uuidChar
  have hxy : ('y' = 'x') = False := by decide
  simp only [hxy, if_false]
  exact toDigits_hex _ (by have := (hv _ hr).2; omega)
theorem uuidFill_fits (random : Nat → Draw) (hr : ∀ i, (random i).num < (random i).den)
    (tpl : List Char) (used : Nat) :
    List.Forall₂ (fun t c => fitsTemplate t c = true) tpl (uuidFill random used tpl).1 := by
  induction tpl generalizing used with
  | nil => exact List.Forall₂.nil
  | cons t rest ih =>
    unfold uuidFill
    by_cases hx : t = 'x'
    · subst hx
      obtain ⟨v, hv, he⟩ := uuidChar_x (random used) (hr used)
      simp only [true_or, if_true, he, List.singleton_append]
      refine List.Forall₂.cons ?_ (ih (used + 1))
      have : ∀ v, v < 16 → fitsTemplate 'x' (Nat.digitChar v) = true := by decide
      exact this v hv
    · by_cases hy : t = 'y'
      · subst hy
        obtain ⟨v, hv1, hv2, he⟩ := uuidChar_y (random used) (hr used)
        simp only [or_true, if_true, he, List.singleton_append]
        refine List.Forall₂.cons ?_ (ih (used + 1))
        have : ∀ v, v < 12 → 8 ≤ v → fitsTemplate 'y' (Nat.digitChar v) = true := by decide
        exact this v hv2 hv1
      · simp only [hx, hy, or_self, if_false]
        refine List.Forall₂.cons ?_ (ih used)
        simp [fitsTemplate, hx, hy]

theorem generateUUID_fits (w : World) (hr : ∀ i, (w.random i).num < (w.random i).den) :
    (generateUUID w).1.data.length = 36 ∧
    ∀ i (h1 : i < uuidTemplate.length) (h2 : i < (generateUUID w).1.data.length),
      fitsTemplate (uuidTemplate.get ⟨i, h1⟩) ((generateUUID w).1.data.get ⟨i, h2⟩) = true := by
  have h := uuidFill_fits w.random hr uuidTemplate w.randomUsed
  rw [List.forall₂_iff_get] at h
  exact ⟨h.1.symm, fun i h1 h2 => h.2 i h1 h2⟩

theorem trimWSP_braces (body : List Char) :
    trimWSP ('{' :: (body ++ ['}'])) = '{' :: (body ++ ['}']) := by
  unfold trimWSP
  rw [dropWhile_head_false isWSP '{' _ (by decide)]
  have hr : ('{' :: (body ++ ['}'])).reverse = '}' :: (body.reverse ++ ['{']) := by simp
  rw [hr, dropWhile_head_false isWSP '}' _ (by decide)]
  simp

theorem consentTokenText_eq (state : JSValue) (w : World) :
    consentTokenText state w
      = '{' :: (serializeMembers (consentTokenRecord state w) ++ ['}']) := rfl

theorem token_cookie_stored (state : JSValue) (w : World) (hwf : WellFormedJar w.cookies)
    (hexp : 0 < w.config.cookieExpiryDays) (hdom : w.acceptsDomain = true)
    (hsemi : ∀ x ∈ consentTokenText state w, x ≠ ';') :
    getCookie "cookie_consent_token" (generateAndSaveConsentToken state w).cookies
      = some (String.mk (consentTokenText state w)) := by
  have hcookies := generateAndSaveConsentToken_cookies state w
  have hwf2 : WellFormedJar (generateAndSaveConsentToken state w).cookies := by
    rw [hcookies]
    exact assignCookie_wf _ _ _ _ _ hwf
  apply getCookie_present _ _ _ (by decide) hwf2
  rw [hcookies, hdom, assignCookie_clean _ _ _ _ _ cleanName_token hsemi,
    if_neg (expiryTime_pos _ _ hexp)]
  have h2 : trimWSP (consentTokenText state w) = consentTokenText state w := by
    rw [consentTokenText_eq]
    exact trimWSP_braces _
  rw [h2]
  exact mem_storeCookie_self _ _ _

theorem allJSONFields_of_mem (fields : JSObject) (h : ∀ e ∈ fields, isJSONValue e.2 = true) :
    allJSONFields fields = true := by
  induction fields with
  | nil => rfl
  | cons e rest ih =>
    obtain ⟨k, v⟩ := e
    simp only [allJSONFields, Bool.and_eq_true]
    exact ⟨h (k, v) (by simp), ih (fun e he => h e (by simp [he]))⟩

theorem token_record_in_order (state : JSValue) (w : World) :
    keysInOrder ((consentTokenRecord state w).map Prod.fst) = true :=
  keysInOrder_assignProps _ _ (by
    show keysInOrder ["token", "timestamp", "language"] = true
    decide)

theorem token_text_parses (state : JSValue) (w : World)
    (hts : isJSONValue (getProp state "timestamp") = true)
    (hlang : isJSONValue (getProp state "language") = true)
    (hjson : ∀ e ∈ w.config.customData, isJSONValue e.2 = true) :
    JSON.parse (String.mk (consentTokenText state w))
      = some (.obj (consentTokenRecord state w)) := by
  have hrec : ∀ e ∈ consentTokenRecord state w, isJSONValue e.2 = true := by
    intro e he
    rcases mem_assignProps _ _ e he with h | h
    · simp only [List.mem_cons, List.mem_singleton, List.not_mem_nil, or_false] at h
      rcases h with rfl | rfl | rfl
      · rfl
      · exact hts
      · exact hlang
    · exact hjson e h
  have hv : isJSONValue (.obj (consentTokenRecord state w)) = true := by
    simp only [isJSONValue, Bool.and_eq_true]
    exact ⟨token_record_in_order state w, allJSONFields_of_mem _ hrec⟩
  obtain ⟨text, h1, h2⟩ := parse_stringify _ hv
  have ht : text = String.mk (consentTokenText state w) := by
    have : JSON.stringify (.obj (consentTokenRecord state w))
        = .str (String.mk (consentTokenText state w)) := rfl
    rw [this] at h1
    injection h1 with h1
    exact h1.symm
  rw [← ht, h2]

/-! ## Claims about the token, the cookie adapter, the analytics blocker and `showModal` -/

/-- C21: whatever values in `[0, 1)` the random source returns, `generateUUID()` returns 36
characters with `-` at the positions 8, 13, 18 and 23, `4` at position 14, one of `8`, `9`,
`a`, `b` at position 19 and a lowercase hexadecimal digit at every other position. -/
theorem generateUUID_format (w : World) (hr : ∀ i, (w.random i).num < (w.random i).den) :
    (generateUUID w).1.data.length = 36 ∧
    (∀ i ∈ [8, 13, 18, 23], (generateUUID w).1.data.get? i = some '-') ∧
    (generateUUID w).1.data.get? 14 = some '4' ∧
    (∃ c ∈ ['8', '9', 'a', 'b'], (generateUUID w).1.data.get? 19 = some c) ∧
    (∀ i < 36, i ∉ [8, 13, 18, 23] →
      ∃ c, (generateUUID w).1.data.get? i = some c ∧ isLowerHex c = true) := by
  obtain ⟨hlen, hfit⟩ := generateUUID_fits w hr
  have hget : ∀ i (h : i < 36), ∃ c, (generateUUID w).1.data.get? i = some c ∧
      fitsTemplate (uuidTemplate.getD i ' ') c = true := by
    intro i h
    have h1 : i < uuidTemplate.length := h
    have h2 : i < (generateUUID w).1.data.length := by rw [hlen]; exact h
    refine ⟨(generateUUID w).1.data.get ⟨i, h2⟩, List.get?_eq_get h2, ?_⟩
    have := hfit i h1 h2
    rw [List.getD_eq_getElem _ _ h1]
    exact this
  have hdash : ∀ i, i < 36 → uuidTemplate.getD i ' ' = '-' →
      (generateUUID w).1.data.get? i = some '-' := by
    intro i hi ht
    obtain ⟨c, hc, hf⟩ := hget i hi
    rw [ht] at hf
    have : c = '-' := by simpa [fitsTemplate] using hf
    rw [hc, this]
  refine ⟨hlen, ?_, ?_, ?_, ?_⟩
  · intro i hi
    simp only [List.mem_cons, List.mem_singleton, List.not_mem_nil, or_false] at hi
    rcases hi with rfl | rfl | rfl | rfl
    · exact hdash 8 (by decide) (by decide)
    · exact hdash 13 (by decide) (by decide)
    · exact hdash 18 (by decide) (by decide)
    · exact hdash 23 (by decide) (by decide)
  · obtain ⟨c, hc, hf⟩ := hget 14 (by decide)
    have ht : uuidTemplate.getD 14 ' ' = '4' := by decide
    rw [ht] at hf
    have : c = '4' := by simpa [fitsTemplate] using hf
    rw [hc, this]
  · obtain ⟨c, hc, hf⟩ := hget 19 (by decide)
    have ht : uuidTemplate.getD 19 ' ' = 'y' := by decide
    rw [ht] at hf
    refine ⟨c, ?_, hc⟩
    simpa [fitsTemplate, or_assoc] using hf
  · intro i hi hn
    obtain ⟨c, hc, hf⟩ := hget i hi
    refine ⟨c, hc, ?_⟩
    have hcases : ∀ j, j < 36 → j ∉ [8, 13, 18, 23] →
        uuidTemplate.getD j ' ' = 'x' ∨ uuidTemplate.getD j ' ' = 'y' ∨
          uuidTemplate.getD j ' ' = '4' := by decide
    rcases hcases i hi hn with ht | ht | ht
    · rw [ht] at hf
      simpa [fitsTemplate] using hf
    · rw [ht] at hf
      have hy : c = '8' ∨ c = '9' ∨ c = 'a' ∨ c = 'b' := by
        simpa [fitsTemplate, or_assoc] using hf
      rcases hy with rfl | rfl | rfl | rfl <;> decide
    · rw [ht] at hf
      have : c = '4' := by simpa [fitsTemplate] using hf
      rw [this]
      decide

/-- C21 (witness): the identifier generated on the sample page, whose random source returns
`0/16, 1/16, 2/16, ...` in turn. -/
theorem generateUUID_format_witness :
    (generateUUID samplePage).1 = "01234567-89ab-4cde-b012-3456789abcde" ∧
    (generateUUID samplePage).1.data.length = 36 ∧
    (generateUUID samplePage).1.data.get? 14 = some '4' :=
  ⟨by decide,
    (generateUUID_format samplePage (fun i => Nat.mod_lt i (by decide))).1,
    (generateUUID_format samplePage (fun i => Nat.mod_lt i (by decide))).2.2.1⟩

/-- C22 (counterexample): with `customData: { token: 'mine' }` the stored record has the
token `mine`, not the generated identifier; with `customData: { note: 'a;b' }` the cookie
holds the text up to the semicolon only, which `JSON.parse` rejects; with
`customData: { userId: undefined }` the record has the field `userId` and the text read back
has not; with `domain: 'example.com'` on the host `localhost`, or with an expiry of `-1` days,
no cookie is stored. -/
theorem token_record_overridden_or_cut :
    (generateUUID tokenDataPage).1 = "01234567-89ab-4cde-b012-3456789abcde" ∧
    getCookie "cookie_consent_token"
      (generateAndSaveConsentToken sampleState.toJS tokenDataPage).cookies
      = some "\x7b\"token\":\"mine\",\"timestamp\":\"2023-01-01T00:00:00.000Z\",\"language\":\"fr\"\x7d" ∧
    getCookie "cookie_consent_token"
      (generateAndSaveConsentToken sampleState.toJS noteDataPage).cookies
      = some "\x7b\"token\":\"01234567-89ab-4cde-b012-3456789abcde\",\"timestamp\":\"2023-01-01T00:00:00.000Z\",\"language\":\"fr\",\"note\":\"a" ∧
    JSON.parse "\x7b\"token\":\"01234567-89ab-4cde-b012-3456789abcde\",\"timestamp\":\"2023-01-01T00:00:00.000Z\",\"language\":\"fr\",\"note\":\"a"
      = none ∧
    lookup "userId" (consentTokenRecord sampleState.toJS undefinedDataPage) = some .undefined ∧
    getCookie "cookie_consent_token"
      (generateAndSaveConsentToken sampleState.toJS undefinedDataPage).cookies
      = some "\x7b\"token\":\"01234567-89ab-4cde-b012-3456789abcde\",\"timestamp\":\"2023-01-01T00:00:00.000Z\",\"language\":\"fr\"\x7d" ∧
    JSON.parse "\x7b\"token\":\"01234567-89ab-4cde-b012-3456789abcde\",\"timestamp\":\"2023-01-01T00:00:00.000Z\",\"language\":\"fr\"\x7d"
      = some (.obj [("token", .str "01234567-89ab-4cde-b012-3456789abcde"),
          ("timestamp", .str "2023-01-01T00:00:00.000Z"), ("language", .str "fr")]) ∧
    getCookie "cookie_consent_token"
      (generateAndSaveConsentToken sampleState.toJS foreignFreshPage).cookies = none ∧
    getCookie "cookie_consent_token"
      (generateAndSaveConsentToken sampleState.toJS expiredPage).cookies = none := by
  refine ⟨by decide, ?_, ?_, ?_, ?_, ?_, ?_, ?_, ?_⟩
  · rfl
  · rfl
  · rfl
  · rfl
  · rfl
  · rfl
  · rfl
  · rfl

/-- C22 (amended): the record that `generateAndSaveConsentToken` serialises has every field of
`customData`, and the generated identifier as `token`, `state.timestamp` as `timestamp` and
`state.language` as `language` unless `customData` has a field of that name.  When the expiry
is positive, the browser accepts the configured domain and the JSON text of the record has no
semicolon, `getCookie` returns a text, and `JSON.parse` of that text yields the record when
every value of `customData` is a JSON value: `null`, a boolean, a string, a number, or an
array or plain object of such values. -/
theorem consent_token_record (s : ConsentState) (w : World)
    (hkeys : (w.config.customData.map Prod.fst).Nodup) :
    (∀ k v, lookup k w.config.customData = some v →
      lookup k (consentTokenRecord s.toJS w) = some v) ∧
    (lookup "token" w.config.customData = none →
      lookup "token" (consentTokenRecord s.toJS w) = some (.str (generateUUID w).1)) ∧
    (lookup "timestamp" w.config.customData = none →
      lookup "timestamp" (consentTokenRecord s.toJS w) = some (.str s.timestamp)) ∧
    (lookup "language" w.config.customData = none →
      lookup "language" (consentTokenRecord s.toJS w) = some (.str s.language)) ∧
    (WellFormedJar w.cookies → 0 < w.config.cookieExpiryDays → w.acceptsDomain = true →
      (∀ x ∈ consentTokenText s.toJS w, x ≠ ';') →
      ∃ text,
        getCookie "cookie_consent_token" (generateAndSaveConsentToken s.toJS w).cookies
          = some text ∧
        ((∀ e ∈ w.config.customData, isJSONValue e.2 = true) →
          JSON.parse text = some (.obj (consentTokenRecord s.toJS w)))) := by
  have hl : ∀ k, lookup k (consentTokenRecord s.toJS w)
      = firstSome (lookup k w.config.customData)
          (lookup k [("token", .str (generateUUID w).1),
            ("timestamp", getProp s.toJS "timestamp"),
            ("language", getProp s.toJS "language")]) := by
    intro k
    unfold consentTokenRecord
    rw [lookup_assignProps _ _ _ hkeys]
  refine ⟨fun k v hv => ?_, fun hn => ?_, fun hn => ?_, fun hn => ?_,
    fun hwf hexp hdom hsemi => ?_⟩
  · rw [hl, hv]
    rfl
  · rw [hl, hn]
    rfl
  · rw [hl, hn]
    rfl
  · rw [hl, hn]
    rfl
  · exact ⟨String.mk (consentTokenText s.toJS w), token_cookie_stored s.toJS w hwf hexp hdom hsemi,
      fun hjson => token_text_parses s.toJS w rfl rfl hjson⟩

/-- C22 (witness): the custom data `{ b: [3, null], 1: 'y' }` on a page without cookies: the
text read back parses to the record, in which the property `1` comes first. -/
theorem consent_token_record_witness :
    ∃ text,
      getCookie "cookie_consent_token"
        (generateAndSaveConsentToken sampleState.toJS richDataPage).cookies = some text ∧
      JSON.parse text
        = some (.obj [("1", .str "y"), ("token", .str "01234567-89ab-4cde-b012-3456789abcde"),
            ("timestamp", .str "2023-01-01T00:00:00.000Z"), ("language", .str "fr"),
            ("b", .arr [.num 3 0, .null])]) :=
  match (consent_token_record sampleState richDataPage (by decide)).2.2.2.2
      wf_nil (by decide) (by decide) (by decide!) with
  | ⟨text, h1, h2⟩ => ⟨text, h1, h2 (by decide)⟩

/-- C23 (code at the failing input): `blockGoogleAnalytics` tests each cookie name with
unanchored patterns, so it deletes every cookie whose name contains `_ga`, `_gid` or `_gat`
anywhere: on a page holding `_ga`, `__gads`, `sso_gateway` and `session` it leaves `session`
only, also when run by `applyThirdPartyBlockers` for a visitor who granted advertising.  In
general a cookie whose name contains none of the three texts is kept, and in a jar the browser
can hold, under a configured domain the browser accepts, a cookie with a name free of white
space that is left contains none of them. -/
theorem blockGoogleAnalytics_deletes_substring_matches :
    (blockGoogleAnalytics adsGrantedPage).cookies = [("session", "abc")] ∧
    (applyThirdPartyBlockers adsGrantedPage).map (fun w => w.cookies)
      = some [("session", "abc")] ∧
    (∀ (w : World) (e : String × String), e ∈ w.cookies →
      includes e.1.data "_ga".data = false → includes e.1.data "_gid".data = false →
      includes e.1.data "_gat".data = false → e ∈ (blockGoogleAnalytics w).cookies) ∧
    (∀ (w : World) (e : String × String), WellFormedJar w.cookies →
      w.acceptsDomain = true →
      e ∈ (blockGoogleAnalytics w).cookies → (∀ x ∈ e.1.data, isTrimSpace x = false) →
      e ∈ w.cookies ∧ includes e.1.data "_ga".data = false ∧
        includes e.1.data "_gid".data = false ∧ includes e.1.data "_gat".data = false) := by
  refine ⟨by decide, by decide, fun w e he h1 h2 h3 => ?_, fun w e hwf hdom he hsp => ?_⟩
  · exact blockGoogleAnalytics_keeps w e he ((gaPatterns_iff e.1.data).2 ⟨h1, h2, h3⟩)
  · exact ⟨(shrinking_blockGoogleAnalytics.1 w).cookies.subset he,
      (gaPatterns_iff e.1.data).1
        (fun c hc => blockGoogleAnalytics_cookies w hwf hdom e he hsp c hc)⟩

/-- C24: for a cookie string of pairs `name=value` joined by `; `, with no `;` in names and
values and no `=` in names, and a name without `=`: `getCookie(name)` returns the value of
the pair called `name` when there is exactly one, whatever the other pairs are called, and
`null` when there is none. -/
theorem getCookie_exact_name (name : String) (jar : CookieJar)
    (hname : ∀ x ∈ name.data, x ≠ '=')
    (h1 : ∀ e ∈ jar, ∀ x ∈ e.1.data, x ≠ ';') (h2 : ∀ e ∈ jar, ∀ x ∈ e.1.data, x ≠ '=')
    (h3 : ∀ e ∈ jar, ∀ x ∈ e.2.data, x ≠ ';') :
    (∀ pre v post, jar = pre ++ (name, v) :: post → (∀ e ∈ pre, e.1 ≠ name) →
      (∀ e ∈ post, e.1 ≠ name) → getCookie name jar = some v) ∧
    ((∀ e ∈ jar, e.1 ≠ name) → getCookie name jar = none) := by
  refine ⟨fun pre v post hjar hpre hpost => ?_, fun habs => getCookie_none name jar hname h1 h2 h3 habs⟩
  subst hjar
  exact getCookie_unique name v pre post hname h1 h2 h3 hpre hpost

/-- C24 (witness): the jar of the visited page holds `my_cookie_consent_state`, whose name
ends with `cookie_consent_state`, before the state cookie itself, and no cookie `_gid`. -/
theorem getCookie_exact_name_witness :
    getCookie "cookie_consent_state" visitedPage.cookies
      = some "%7B%22functional%22%3Atrue%7D" ∧
    getCookie "my_cookie_consent_state" visitedPage.cookies = some "1" ∧
    getCookie "_gid" visitedPage.cookies = none :=
  ⟨(getCookie_exact_name "cookie_consent_state" visitedPage.cookies (by decide) (by decide)
      (by decide) (by decide)).1
      [("_ga", "GA1.2.3"), ("my_cookie_consent_state", "1")] _
      [("cookie_consent_token", "\x7b\"token\":\"t\"\x7d")] rfl (by decide) (by decide),
    (getCookie_exact_name "my_cookie_consent_state" visitedPage.cookies (by decide) (by decide)
      (by decide) (by decide)).1 [("_ga", "GA1.2.3")] _
      [("cookie_consent_state", "%7B%22functional%22%3Atrue%7D"),
        ("cookie_consent_token", "\x7b\"token\":\"t\"\x7d")] rfl (by decide) (by decide),
    (getCookie_exact_name "_gid" visitedPage.cookies (by decide) (by decide)
      (by decide) (by decide)).2 (by decide)⟩

/-- C25: when `analytical`, `performance`, `advertising` and `social` are all `true` in the
consent state, `applyThirdPartyBlockers` returns the page state unchanged: cookies, elements,
`FB`, `twttr` and everything else, and it does not throw. -/
theorem applyThirdPartyBlockers_all_granted (w : World)
    (ha : getProp w.consentState "analytical" = .bool true)
    (hp : getProp w.consentState "performance" = .bool true)
    (hd : getProp w.consentState "advertising" = .bool true)
    (hs : getProp w.consentState "social" = .bool true) :
    applyThirdPartyBlockers w = some w := by
  have hn : w.consentState.isNullish = false := by
    cases hc : w.consentState with
    | undefined => rw [hc] at ha; exact absurd ha (by simp [getProp])
    | null => rw [hc] at ha; exact absurd ha (by simp [getProp])
    | _ => rfl
  rw [applyThirdPartyBlockers_eq, hn]
  unfold blockersFor
  simp only [ha, hp, hd, hs]
  rfl

/-- C25 (witness): the tracked page with a state that grants the four categories keeps its
seven cookies, four elements and both handles. -/
theorem applyThirdPartyBlockers_all_granted_witness :
    applyThirdPartyBlockers grantedPage = some grantedPage ∧
    grantedPage.cookies.length = 7 ∧ grantedPage.elements.length = 4 :=
  ⟨applyThirdPartyBlockers_all_granted grantedPage rfl rfl rfl rfl, by decide, by decide⟩

/-- C26: for a type other than `'banner'`, `'fullscreen'` and `'management'`, `showModal(type)`
removes the first mounted modal, mounts none and sets `currentModal` to `type`; on a page with
at most one modal mounted, none is mounted afterwards while `currentModal` is not `null`. -/
theorem showModal_unknown_type (type : String) (w : World)
    (hb : type ≠ "banner") (hf : type ≠ "fullscreen") (hm : type ≠ "management") :
    (showModal type w).modals = w.modals.drop 1 ∧
    (showModal type w).currentModal = .str type ∧
    (showModal type w).currentModal ≠ .null ∧
    (w.modals.length ≤ 1 → (showModal type w).modals = []) := by
  have h1 : (showModal type w).modals = w.modals.drop 1 := by
    unfold showModal showConsentModal
    simp only [if_neg hb, if_neg hf, if_neg hm]
    exact closeModal_modals w
  have h2 : (showModal type w).currentModal = .str type := by
    unfold showModal showConsentModal
    simp only [if_neg hb, if_neg hf, if_neg hm]
  refine ⟨h1, h2, by rw [h2]; exact JSValue.noConfusion, fun hl => ?_⟩
  rw [h1]
  cases hw : w.modals with
  | nil => rfl
  | cons m rest =>
    rw [hw] at hl
    cases rest with
    | nil => rfl
    | cons m2 r2 => simp at hl

/-- C26 (witness): `showModal('policy')` on a freshly constructed widget, whose banner is
mounted. -/
theorem showModal_unknown_type_witness :
    modalTypes (construct sampleConfig samplePage) = ["banner"] ∧
    (showModal "policy" (construct sampleConfig samplePage)).modals = [] ∧
    (showModal "policy" (construct sampleConfig samplePage)).currentModal = .str "policy" :=
  ⟨rfl,
    (showModal_unknown_type "policy" (construct sampleConfig samplePage)
      (by decide) (by decide) (by decide)).2.2.2 (by decide),
    (showModal_unknown_type "policy" (construct sampleConfig samplePage)
      (by decide) (by decide) (by decide)).2.1⟩

end CookieConsent
